import Mathlib

/-!
Verification development for the aideon-tools property-graph interchange core.

The Rust sources are shallowly embedded:
* `f64` is modelled as `ℚ` (no claim under scrutiny depends on binary
  floating-point rounding; numbers are carried opaquely through the codecs);
* `BTreeMap`/`BTreeSet` are modelled as association lists / lists that are
  kept sorted by the insertion operations, so that structural equality of
  the model coincides with structural equality of the Rust maps;
* functionality delegated to external crates (IRI validation from oxigraph,
  `str::parse::<f64>`, `f64` display, `serde_json::from_str`, the name-based
  UUID hash from the uuid crate) is threaded through the definitions as an
  explicit oracle record `ExternalFns`, since those crates are external
  collaborators of the core;
* file/stream I/O is elided: the RDF writer produces a list of quads and the
  RDF reader consumes a list of quads, the workbook writer/reader exchange
  the in-memory `WorkbookData` (all cells are written with `write_string`,
  so a cell read back is exactly the string written).
-/

namespace Aideon

/-! ## Comparators and sorted association lists (model of BTreeMap / BTreeSet) -/

/-- A strict comparator together with the laws needed to maintain sorted,
duplicate-free association lists, mirroring `Ord`-based `BTreeMap` keys. -/
structure StrictCmp (κ : Type) where
  lt : κ → κ → Bool
  lt_trans : ∀ a b c, lt a b = true → lt b c = true → lt a c = true
  eq_of_nlt : ∀ a b, lt a b = false → lt b a = false → a = b
  lt_irrefl : ∀ a, lt a a = false

/-- Strict codepoint-lexicographic order on character lists, written as a
directly computable Boolean recursion (Rust compares strings by UTF-8 byte
order, which agrees with codepoint order). -/
def listLtB : List Char → List Char → Bool
  | [], [] => false
  | [], _ :: _ => true
  | _ :: _, [] => false
  | a :: as, b :: bs =>
    if a.toNat < b.toNat then true
    else if b.toNat < a.toNat then false
    else listLtB as bs

/-- Strict lexicographic order on strings (Rust `Ord for String`). -/
def strLtB (a b : String) : Bool :=
  listLtB a.data b.data

/-- Transitivity of `listLtB`. -/
def listLtB_trans : ∀ a b c : List Char,
    listLtB a b = true → listLtB b c = true → listLtB a c = true := by
  intro a
  induction a with
  | nil =>
    intro b c hab hbc
    cases b with
    | nil => simp [listLtB] at hab
    | cons y ys =>
      cases c with
      | nil => simp [listLtB] at hbc
      | cons z zs => simp [listLtB]
  | cons x xs ih =>
    intro b c hab hbc
    cases b with
    | nil => simp [listLtB] at hab
    | cons y ys =>
      cases c with
      | nil => simp [listLtB] at hbc
      | cons z zs =>
        simp only [listLtB] at hab hbc ⊢
        by_cases h1 : x.toNat < y.toNat
        · by_cases h2 : y.toNat < z.toNat
          · rw [if_pos (show x.toNat < z.toNat by omega)]
          · rw [if_neg h2] at hbc
            by_cases h2' : z.toNat < y.toNat
            · rw [if_pos h2'] at hbc
              exact absurd hbc (by simp)
            · rw [if_pos (show x.toNat < z.toNat by omega)]
        · rw [if_neg h1] at hab
          by_cases h1' : y.toNat < x.toNat
          · rw [if_pos h1'] at hab
            exact absurd hab (by simp)
          · rw [if_neg h1'] at hab
            by_cases h2 : y.toNat < z.toNat
            · rw [if_pos (show x.toNat < z.toNat by omega)]
            · rw [if_neg h2] at hbc
              by_cases h2' : z.toNat < y.toNat
              · rw [if_pos h2'] at hbc
                exact absurd hbc (by simp)
              · rw [if_neg h2'] at hbc
                rw [if_neg (show ¬ x.toNat < z.toNat by omega),
                  if_neg (show ¬ z.toNat < x.toNat by omega)]
                exact ih ys zs hab hbc

/-- `listLtB` is total: mutually non-smaller lists are equal. -/
def listLtB_eq_of_nlt : ∀ a b : List Char,
    listLtB a b = false → listLtB b a = false → a = b := by
  intro a
  induction a with
  | nil =>
    intro b hab hba
    cases b with
    | nil => rfl
    | cons y ys => simp [listLtB] at hab
  | cons x xs ih =>
    intro b hab hba
    cases b with
    | nil => simp [listLtB] at hba
    | cons y ys =>
      simp only [listLtB] at hab hba
      by_cases h1 : x.toNat < y.toNat
      · rw [if_pos h1] at hab
        exact absurd hab (by simp)
      · rw [if_neg h1] at hab
        by_cases h1' : y.toNat < x.toNat
        · rw [if_pos h1'] at hba
          exact absurd hba (by simp)
        · rw [if_neg h1'] at hab
          rw [if_neg h1', if_neg h1] at hba
          have hc : x = y := Char.ext (UInt32.ext (by
            have : x.toNat = y.toNat := by omega
            exact this))
          rw [hc, ih ys hab hba]

/-- Irreflexivity of `listLtB`. -/
def listLtB_irrefl : ∀ a : List Char, listLtB a a = false := by
  intro a
  induction a with
  | nil => rfl
  | cons x xs ih => simp [listLtB, ih]

/-- Strict byte/codepoint-lexicographic order on strings (Rust `Ord for String`;
UTF-8 byte order agrees with codepoint order). -/
def strCmp : StrictCmp String where
  lt a b := strLtB a b
  lt_trans a b c ha hb := listLtB_trans a.data b.data c.data ha hb
  eq_of_nlt a b ha hb := String.ext (listLtB_eq_of_nlt a.data b.data ha hb)
  lt_irrefl a := listLtB_irrefl a.data

/-- Order on optional graph names: `None < Some _` (Rust `Ord for Option<String>`). -/
def graphLt (a b : Option String) : Bool :=
  match a, b with
  | none, none => false
  | none, some _ => true
  | some _, none => false
  | some x, some y => strLtB x y

/-- Node keys: the pair `(graph, id)`, ordered lexicographically. -/
def nodeKeyCmp : StrictCmp (Option String × String) where
  lt a b := graphLt a.1 b.1 || (a.1 == b.1 && strLtB a.2 b.2)
  lt_trans := by
    rintro ⟨g₁, i₁⟩ ⟨g₂, i₂⟩ ⟨g₃, i₃⟩ h₁ h₂
    simp only [Bool.or_eq_true, Bool.and_eq_true, beq_iff_eq] at *
    rcases h₁ with h₁ | ⟨rfl, h₁⟩ <;> rcases h₂ with h₂ | ⟨rfl, h₂⟩
    · left
      cases g₁ <;> cases g₂ <;> cases g₃ <;> simp_all [graphLt, strLtB]
      exact listLtB_trans _ _ _ h₁ h₂
    · left; exact h₁
    · left; exact h₂
    · right; exact ⟨rfl, listLtB_trans _ _ _ h₁ h₂⟩
  eq_of_nlt := by
    rintro ⟨g₁, i₁⟩ ⟨g₂, i₂⟩ h₁ h₂
    simp only [Bool.or_eq_false_iff, Bool.and_eq_false_iff, beq_iff_eq,
      beq_eq_false_iff_ne, ne_eq] at h₁ h₂
    have hg : g₁ = g₂ := by
      cases g₁ with
      | none =>
        cases g₂ with
        | none => rfl
        | some y => exact absurd h₁.1 (by simp [graphLt])
      | some x =>
        cases g₂ with
        | none => exact absurd h₂.1 (by simp [graphLt])
        | some y =>
          have hxy : listLtB x.data y.data = false := by
            have := h₁.1; simpa [graphLt, strLtB] using this
          have hyx : listLtB y.data x.data = false := by
            have := h₂.1; simpa [graphLt, strLtB] using this
          exact congrArg some (String.ext (listLtB_eq_of_nlt _ _ hxy hyx))
    subst hg
    rcases h₁.2 with h | h
    · exact absurd rfl h
    · rcases h₂.2 with h' | h'
      · exact absurd rfl h'
      · exact Prod.ext rfl (String.ext (listLtB_eq_of_nlt _ _ h h'))
  lt_irrefl := by
    rintro ⟨g, i⟩
    cases g <;> simp [graphLt, strLtB, listLtB_irrefl]

/-- Insert-or-replace into a sorted association list; the model of
`BTreeMap::insert` (and of the `entry` API's final write). -/
def mapInsert (c : StrictCmp κ) (k : κ) (v : β) : List (κ × β) → List (κ × β)
  | [] => [(k, v)]
  | e :: rest =>
    if c.lt k e.1 then (k, v) :: e :: rest
    else if c.lt e.1 k then e :: mapInsert c k v rest
    else (k, v) :: rest

/-- Insert into a sorted duplicate-free list; the model of `BTreeSet::insert`. -/
def setInsert (c : StrictCmp κ) (x : κ) : List κ → List κ
  | [] => [x]
  | y :: rest =>
    if c.lt x y then x :: y :: rest
    else if c.lt y x then y :: setInsert c x rest
    else y :: rest

/-- The sortedness invariant of a modelled `BTreeMap`. -/
def MapSorted (c : StrictCmp κ) (m : List (κ × β)) : Prop :=
  m.Pairwise (fun a b => c.lt a.1 b.1 = true)

/-- The sortedness invariant of a modelled `BTreeSet`. -/
def SetSorted (c : StrictCmp κ) (s : List κ) : Prop :=
  s.Pairwise (fun a b => c.lt a b = true)

/-- Lookup in an association list (the value stored under a key). -/
def mapGet [DecidableEq κ] (k : κ) (m : List (κ × β)) : Option β :=
  match m with
  | [] => none
  | e :: rest => if e.1 = k then some e.2 else mapGet k rest

/-- Insert an element into an ascending list, after any element it is not
strictly below; the building block of a stable ascending sort. -/
def insertSorted (lt : α → α → Bool) (a : α) : List α → List α
  | [] => [a]
  | b :: l => if lt a b then a :: b :: l else b :: insertSorted lt a l

/-- A stable ascending sort by a strict comparator (the model of the stable
`slice::sort_by`); written with structural recursion so that concrete
instances evaluate by reduction. -/
def stableSort (lt : α → α → Bool) (l : List α) : List α :=
  l.foldl (fun acc a => insertSorted lt a acc) []

/-! ## Node model (src/aideon/tools/model/mod.rs) -/

/-- Scalar literal values (`ScalarValue` in `model/mod.rs`); `f64` is modelled
as `ℚ`. -/
inductive ScalarValue where
  | string (s : String)
  | number (q : ℚ)
  | boolean (b : Bool)
  | null
deriving DecidableEq, Repr

/-- Homogeneous multi-valued predicates (`ArrayValue`). -/
inductive ArrayValue where
  | scalars (items : List ScalarValue)
  | objectRefs (items : List String)
deriving DecidableEq, Repr

/-- Property values (`PropertyValue`). -/
inductive PropertyValue where
  | scalar (v : ScalarValue)
  | objectRef (target : String)
  | array (a : ArrayValue)
deriving DecidableEq, Repr

/-- A graph entity (`Node`). `types` models the `BTreeSet<String>` and
`properties` the `BTreeMap<String, PropertyValue>`; both are kept sorted by
the insertion operations below. -/
structure Node where
  id : String
  graph : Option String
  types : List String
  properties : List (String × PropertyValue)
deriving DecidableEq, Repr

/-- `Node::new`. -/
def Node.new (id : String) : Node :=
  ⟨id, none, [], []⟩

/-- `Node::with_graph`. -/
def Node.withGraph (id : String) (graph : Option String) : Node :=
  ⟨id, graph, [], []⟩

/-- `Node::set_graph`. -/
def Node.setGraph (n : Node) (graph : Option String) : Node :=
  { n with graph := graph }

/-- `Node::insert_property`: insert or replace, last write wins. -/
def Node.insertProperty (n : Node) (predicate : String) (value : PropertyValue) : Node :=
  { n with properties := mapInsert strCmp predicate value n.properties }

/-- `node.types.insert(..)` on the `BTreeSet` of type names. -/
def Node.insertType (n : Node) (typeName : String) : Node :=
  { n with types := setInsert strCmp typeName n.types }

/-! ## External collaborators

The core delegates to external crates; their behaviour is threaded through the
embedding as an explicit record of functions so that every theorem holds for
whatever the real implementations do (unless stated otherwise). -/

/-- A JSON value (`serde_json::Value`); `f64` payloads are modelled as `ℚ`.
Objects carry their fields as a list; the places where the Rust `Map` type
iterates in sorted key order sort the fields explicitly. -/
inductive Json where
  | null
  | bool (b : Bool)
  | num (q : ℚ)
  | str (s : String)
  | arr (items : List Json)
  | obj (fields : List (String × Json))

/-- `Map::get` on the fields of a JSON object. -/
def jGet (fields : List (String × Json)) (key : String) : Option Json :=
  match fields with
  | [] => none
  | e :: rest => if e.1 = key then some e.2 else jGet rest key

/-- `Value::as_str`. -/
def Json.asStr : Json → Option String
  | .str s => some s
  | _ => none

/-- Oracles for the external crates used by the codecs:
`iriOk` is `oxigraph::model::NamedNode::new(..).is_ok()` and also
`iref::Iri::new(..).is_ok()` (`looks_like_iri`); `blankOk` is
`BlankNode::new(..).is_ok()`; `parseF64` is `str::parse::<f64>` and
`fmtF64` the `Display` of `f64` (also used for `serde_json` number output);
`parseJson` is `serde_json::from_str::<Value>`; `uuidv5` is the name-based
(SHA-1) UUID of the uuid crate under `NAMESPACE_OID`, a 128-bit value. -/
structure ExternalFns where
  iriOk : String → Bool
  blankOk : String → Bool
  parseF64 : String → Option ℚ
  fmtF64 : ℚ → String
  parseJson : String → Option Json
  uuidv5 : String → Fin (2 ^ 128)

/-! ## RDF codec (src/aideon/tools/io/rdf.rs) -/

def RDF_TYPE : String := "http://www.w3.org/1999/02/22-rdf-syntax-ns#type"

def XSD_BOOLEAN : String := "http://www.w3.org/2001/XMLSchema#boolean"

def XSD_INTEGER : String := "http://www.w3.org/2001/XMLSchema#integer"

def XSD_DECIMAL : String := "http://www.w3.org/2001/XMLSchema#decimal"

def XSD_DOUBLE : String := "http://www.w3.org/2001/XMLSchema#double"

def XSD_STRING : String := "http://www.w3.org/2001/XMLSchema#string"

def RDF_LANG_STRING : String := "http://www.w3.org/1999/02/22-rdf-syntax-ns#langString"

/-- An RDF literal, mirroring `oxigraph::model::Literal`: a simple literal, a
language-tagged string, or a typed literal. The constructors enforce, as the
oxigraph ones do, that exactly the language-tagged literals carry a language
tag and that their datatype is `rdf:langString`. -/
inductive Literal where
  | simple (value : String)
  | langTagged (value : String) (language : String)
  | typed (value : String) (datatype : String)
deriving DecidableEq, Repr

/-- `Literal::value`. -/
def Literal.value : Literal → String
  | .simple v => v
  | .langTagged v _ => v
  | .typed v _ => v

/-- `Literal::language`. -/
def Literal.languageTag : Literal → Option String
  | .langTagged _ l => some l
  | _ => none

/-- `Literal::datatype` (as an IRI string). -/
def Literal.datatypeIri : Literal → String
  | .simple _ => XSD_STRING
  | .langTagged _ _ => RDF_LANG_STRING
  | .typed _ dt => dt

/-- An RDF term (`oxigraph::model::Term`, without triple terms, which the
codec never produces or consumes). -/
inductive Term where
  | namedNode (iri : String)
  | blankNode (id : String)
  | literal (lit : Literal)
deriving DecidableEq, Repr

/-- `NamedOrBlankNode`. -/
inductive Subject where
  | namedNode (iri : String)
  | blankNode (id : String)
deriving DecidableEq, Repr

/-- `GraphName`. -/
inductive GraphName where
  | defaultGraph
  | namedNode (iri : String)
  | blankNode (id : String)
deriving DecidableEq, Repr

/-- An RDF quad. -/
structure Quad where
  subject : Subject
  predicate : String
  object : Term
  graph : GraphName
deriving DecidableEq, Repr

/-- `subject_to_id`: blank identifiers are prefixed with `_:` so that the two
id spaces never collide. -/
def subjectToId : Subject → String
  | .namedNode n => n
  | .blankNode b => "_:" ++ b

/-- `graph_name_to_string`. -/
def graphNameToString : GraphName → Option String
  | .defaultGraph => none
  | .namedNode n => some n
  | .blankNode b => some ("_:" ++ b)

/-- `literal_to_scalar`: language-tagged literals collapse to `value@lang`
strings; booleans recognise exactly the lexical forms `true` and `1`; the
numeric datatypes go through `str::parse::<f64>` and any other datatype keeps
the raw lexical form. -/
def literalToScalar (fx : ExternalFns) (lit : Literal) : Except String ScalarValue :=
  match lit.languageTag with
  | some language => .ok (.string (lit.value ++ "@" ++ language))
  | none =>
    if lit.datatypeIri = XSD_BOOLEAN then
      .ok (.boolean (lit.value == "true" || lit.value == "1"))
    else if lit.datatypeIri = XSD_INTEGER ∨ lit.datatypeIri = XSD_DECIMAL ∨
        lit.datatypeIri = XSD_DOUBLE then
      match fx.parseF64 lit.value with
      | some q => .ok (.number q)
      | none => .error "invalid numeric literal"
    else
      .ok (.string lit.value)

/-- `term_to_property`. -/
def termToProperty (fx : ExternalFns) : Term → Except String PropertyValue
  | .namedNode n => .ok (.objectRef n)
  | .blankNode b => .ok (.objectRef ("_:" ++ b))
  | .literal lit => (literalToScalar fx lit).map .scalar

/-- The `Entry::Occupied` arms of `merge_property`, in source order. -/
def mergePair : PropertyValue → PropertyValue → PropertyValue
  | .scalar a, .scalar b => .array (.scalars [a, b])
  | .objectRef a, .objectRef b => .array (.objectRefs [a, b])
  | .array (.scalars xs), .scalar b => .array (.scalars (xs ++ [b]))
  | .array (.objectRefs xs), .objectRef b => .array (.objectRefs (xs ++ [b]))
  | .array (.scalars xs), .array (.scalars ys) => .array (.scalars (xs ++ ys))
  | .array (.objectRefs xs), .array (.objectRefs ys) => .array (.objectRefs (xs ++ ys))
  | _, other => other

/-- `merge_property`: a vacant entry stores the incoming value, an occupied
entry is combined through `mergePair`. -/
def mergeProperty (node : Node) (predicate : String) (value : PropertyValue) : Node :=
  match mapGet predicate node.properties with
  | none => { node with properties := mapInsert strCmp predicate value node.properties }
  | some existing =>
    { node with properties := mapInsert strCmp predicate (mergePair existing value) node.properties }

/-- The node accumulator key: `(graph, id)`. -/
abbrev NodeKey := Option String × String

/-- The invariant of the `BTreeMap`-shaped node accumulator shared by the
three parsers: the map is sorted by `(graph, id)`, each stored key agrees
with its node's own graph and id, and each node's type set and property map
are themselves sorted. -/
def AccSorted (nodes : List (NodeKey × Node)) : Prop :=
  MapSorted nodeKeyCmp nodes ∧
  (∀ e ∈ nodes, e.1 = (e.2.graph, e.2.id)) ∧
  (∀ e ∈ nodes, SetSorted strCmp e.2.types ∧ MapSorted strCmp e.2.properties)

/-- The ordering guarantee on a parser's output: nodes strictly ascending by
`(graph, id)`, and every node's types and properties sorted by key. -/
def SortedNodeList (out : List Node) : Prop :=
  ((out.map fun n => (n.graph, n.id)).Pairwise fun a b => nodeKeyCmp.lt a b = true) ∧
  ∀ n ∈ out, SetSorted strCmp n.types ∧ MapSorted strCmp n.properties

/-- Processing of one parsed quad inside the `read_rdf` loop: the subject's
node is created on first sight (`entry(..).or_insert_with`), its graph is
re-set, `rdf:type` quads with a named-node object extend the type set (other
type objects are ignored), and every other predicate is merged through
`merge_property`. -/
def processQuad (fx : ExternalFns) (nodes : List (NodeKey × Node)) (quad : Quad) :
    Except String (List (NodeKey × Node)) :=
  let subjectId := subjectToId quad.subject
  let graphName := graphNameToString quad.graph
  let key : NodeKey := (graphName, subjectId)
  let node₀ := ((mapGet key nodes).getD (Node.withGraph subjectId graphName)).setGraph graphName
  if quad.predicate = RDF_TYPE then
    match quad.object with
    | .namedNode objectIri => .ok (mapInsert nodeKeyCmp key (node₀.insertType objectIri) nodes)
    | _ => .ok (mapInsert nodeKeyCmp key node₀ nodes)
  else
    match termToProperty fx quad.object with
    | .error e => .error e
    | .ok property =>
      .ok (mapInsert nodeKeyCmp key (mergeProperty node₀ quad.predicate property) nodes)

/-- The quad loop of `read_rdf`. -/
def quadsFold (fx : ExternalFns) : List Quad → List (NodeKey × Node) →
    Except String (List (NodeKey × Node))
  | [], acc => .ok acc
  | quad :: rest, acc =>
    match processQuad fx acc quad with
    | .error e => .error e
    | .ok acc1 => quadsFold fx rest acc1

/-- `read_rdf`, with the quad stream already parsed by oxigraph: accumulate
into the `BTreeMap` keyed by `(graph, id)` and return `into_values()`. -/
def readRdfQuads (fx : ExternalFns) (quads : List Quad) : Except String (List Node) :=
  match quadsFold fx quads [] with
  | .error e => .error e
  | .ok nodes => .ok (nodes.map (·.2))

/-- `NamedNode::new` (validation delegated to the oxigraph oracle). -/
def namedNodeNew (fx : ExternalFns) (iri : String) : Except String String :=
  if fx.iriOk iri then .ok iri else .error ("invalid IRI: " ++ iri)

/-- `BlankNode::new`. -/
def blankNodeNew (fx : ExternalFns) (id : String) : Except String String :=
  if fx.blankOk id then .ok id else .error ("invalid blank node id: " ++ id)

/-- `str::strip_prefix("_:")`, written on the character list so that the
prefix can be recomposed in proofs. -/
def stripBlankMarker (id : String) : Option String :=
  match id.data with
  | '_' :: ':' :: rest => some ⟨rest⟩
  | _ => none

/-- `id_to_subject`. -/
def idToSubject (fx : ExternalFns) (id : String) : Except String Subject :=
  match stripBlankMarker id with
  | some rest => (blankNodeNew fx rest).map .blankNode
  | none => (namedNodeNew fx id).map .namedNode

/-- `id_to_term`. -/
def idToTerm (fx : ExternalFns) (id : String) : Except String Term :=
  match stripBlankMarker id with
  | some rest => (blankNodeNew fx rest).map .blankNode
  | none => (namedNodeNew fx id).map .namedNode

/-- `graph_to_name`. -/
def graphToName (fx : ExternalFns) : Option String → Except String GraphName
  | none => .ok .defaultGraph
  | some value =>
    match stripBlankMarker value with
    | some rest => (blankNodeNew fx rest).map .blankNode
    | none => (namedNodeNew fx value).map .namedNode

/-- `scalar_to_term`: strings become simple literals, numbers and booleans
typed literals, and a `Null` scalar produces no term at all. -/
def scalarToTerm (fx : ExternalFns) : ScalarValue → Except String (Option Term)
  | .string text => .ok (some (.literal (.simple text)))
  | .number q => do
    let datatype ← namedNodeNew fx XSD_DOUBLE
    return some (.literal (.typed (fx.fmtF64 q) datatype))
  | .boolean flag => do
    let datatype ← namedNodeNew fx XSD_BOOLEAN
    return some (.literal (.typed (if flag then "true" else "false") datatype))
  | .null => .ok none

/-- The loop over one scalar array in `write_rdf` (`Null` members emit no
quad). -/
def scalarArrayQuads (fx : ExternalFns) (subject : Subject) (graphName : GraphName)
    (predicate : String) : List ScalarValue → Except String (List Quad)
  | [] => .ok []
  | scalar :: rest =>
    match scalarToTerm fx scalar with
    | .error e => .error e
    | .ok none =>
      scalarArrayQuads fx subject graphName predicate rest
    | .ok (some term) =>
      match scalarArrayQuads fx subject graphName predicate rest with
      | .error e => .error e
      | .ok quads => .ok (⟨subject, predicate, term, graphName⟩ :: quads)

/-- The loop over one reference array in `write_rdf`. -/
def refArrayQuads (fx : ExternalFns) (subject : Subject) (graphName : GraphName)
    (predicate : String) : List String → Except String (List Quad)
  | [] => .ok []
  | target :: rest =>
    match idToTerm fx target with
    | .error e => .error e
    | .ok term =>
      match refArrayQuads fx subject graphName predicate rest with
      | .error e => .error e
      | .ok quads => .ok (⟨subject, predicate, term, graphName⟩ :: quads)

/-- The quads emitted for one property of one node in `write_rdf`. -/
def propertyQuads (fx : ExternalFns) (subject : Subject) (graphName : GraphName)
    (predicate : String) : PropertyValue → Except String (List Quad)
  | .scalar scalar =>
    match scalarToTerm fx scalar with
    | .error e => .error e
    | .ok none => .ok []
    | .ok (some term) => .ok [⟨subject, predicate, term, graphName⟩]
  | .objectRef target =>
    match idToTerm fx target with
    | .error e => .error e
    | .ok term => .ok [⟨subject, predicate, term, graphName⟩]
  | .array (.scalars items) => scalarArrayQuads fx subject graphName predicate items
  | .array (.objectRefs targets) => refArrayQuads fx subject graphName predicate targets

/-- The type loop of `write_rdf`. -/
def typeQuads (fx : ExternalFns) (subject : Subject) (graphName : GraphName) :
    List String → Except String (List Quad)
  | [] => .ok []
  | typeName :: rest =>
    match namedNodeNew fx typeName with
    | .error e => .error e
    | .ok class0 =>
      match typeQuads fx subject graphName rest with
      | .error e => .error e
      | .ok quads => .ok (⟨subject, RDF_TYPE, .namedNode class0, graphName⟩ :: quads)

/-- The property loop of `write_rdf`. -/
def propsQuads (fx : ExternalFns) (subject : Subject) (graphName : GraphName) :
    List (String × PropertyValue) → Except String (List Quad)
  | [] => .ok []
  | pv :: rest =>
    match namedNodeNew fx pv.1 with
    | .error e => .error e
    | .ok predicateNode =>
      match propertyQuads fx subject graphName predicateNode pv.2 with
      | .error e => .error e
      | .ok quads =>
        match propsQuads fx subject graphName rest with
        | .error e => .error e
        | .ok more => .ok (quads ++ more)

/-- The quads emitted for one node in `write_rdf`: type quads first, then one
batch per property in map order. -/
def nodeQuads (fx : ExternalFns) (node : Node) : Except String (List Quad) :=
  match idToSubject fx node.id with
  | .error e => .error e
  | .ok subject =>
    match graphToName fx node.graph with
    | .error e => .error e
    | .ok graphName =>
      match typeQuads fx subject graphName node.types with
      | .error e => .error e
      | .ok tQuads =>
        match propsQuads fx subject graphName node.properties with
        | .error e => .error e
        | .ok pQuads => .ok (tQuads ++ pQuads)

/-- The node loop of `write_rdf`. -/
def nodesQuads (fx : ExternalFns) : List Node → Except String (List Quad)
  | [] => .ok []
  | node :: rest =>
    match nodeQuads fx node with
    | .error e => .error e
    | .ok quads =>
      match nodesQuads fx rest with
      | .error e => .error e
      | .ok more => .ok (quads ++ more)

/-- `write_rdf`, producing the quad stream handed to the serializer. -/
def writeRdf (fx : ExternalFns) (nodes : List Node) : Except String (List Quad) :=
  match namedNodeNew fx RDF_TYPE with
  | .error e => .error e
  | .ok _ => nodesQuads fx nodes

/-- A fixed oracle instantiation used by concrete witnesses. -/
def fxTest : ExternalFns where
  iriOk _ := true
  blankOk _ := true
  parseF64 _ := none
  fmtF64 _ := "0"
  parseJson _ := none
  uuidv5 _ := 0

/-! ## JSON-LD codec (src/aideon/tools/io/jsonld.rs) -/

def hexDigits : List Char :=
  ['0', '1', '2', '3', '4'] ++ ['5', '6', '7', '8', '9'] ++ ['a', 'b', 'c', 'd', 'e', 'f']

def hexDigitChar (n : Nat) : Char := hexDigits.getD n '0'

/-- The escaping `serde_json` applies to one character of a JSON string. -/
def jsonEscapeChar (ch : Char) : List Char :=
  if ch = '"' then ['\\', '"']
  else if ch = '\\' then ['\\', '\\']
  else if ch = Char.ofNat 8 then ['\\', 'b']
  else if ch = Char.ofNat 12 then ['\\', 'f']
  else if ch = '\n' then ['\\', 'n']
  else if ch = '\r' then ['\\', 'r']
  else if ch = '\t' then ['\\', 't']
  else if ch.toNat < 32 then
    ['\\', 'u', '0', '0', hexDigitChar (ch.toNat / 16), hexDigitChar (ch.toNat % 16)]
  else [ch]

def jsonEscape (s : String) : String := ⟨s.data.flatMap jsonEscapeChar⟩

mutual

/-- Compact `serde_json::to_string` output. Numbers go through the external
formatting oracle. -/
def serializeJson (fx : ExternalFns) : Json → String
  | .null => "null"
  | .bool true => "true"
  | .bool false => "false"
  | .num q => fx.fmtF64 q
  | .str s => "\"" ++ jsonEscape s ++ "\""
  | .arr items => "[" ++ serializeJsonItems fx items ++ "]"
  | .obj fields => "\x7b" ++ serializeJsonFields fx fields ++ "\x7d"

def serializeJsonItems (fx : ExternalFns) : List Json → String
  | [] => ""
  | [x] => serializeJson fx x
  | x :: rest => serializeJson fx x ++ "," ++ serializeJsonItems fx rest

def serializeJsonFields (fx : ExternalFns) : List (String × Json) → String
  | [] => ""
  | [kv] => "\"" ++ jsonEscape kv.1 ++ "\":" ++ serializeJson fx kv.2
  | kv :: rest =>
    "\"" ++ jsonEscape kv.1 ++ "\":" ++ serializeJson fx kv.2 ++ "," ++
      serializeJsonFields fx rest

end

/-- Object fields in ascending key order (the iteration order of the
`BTreeMap` behind `serde_json::Map`). -/
def sortFieldsByKey (fields : List (String × Json)) : List (String × Json) :=
  stableSort (fun a b => strCmp.lt a.1 b.1) fields

/-- `canonicalise_object`: drop `@context` and `@graph`, order the remaining
fields by key, serialize. -/
def canonicaliseObject (fx : ExternalFns) (fields : List (String × Json)) : String :=
  serializeJson fx
    (.obj (sortFieldsByKey (fields.filter fun kv => ¬ (kv.1 = "@context" ∨ kv.1 = "@graph"))))

/-- Fixed-width big-endian hexadecimal rendering. -/
def toHexPad (n : Nat) : Nat → List Char
  | 0 => []
  | width + 1 => toHexPad (n / 16) width ++ [hexDigitChar (n % 16)]

/-- The canonical textual form of a 128-bit UUID (`8-4-4-4-12` hex groups). -/
def uuidToString (u : Fin (2 ^ 128)) : String :=
  let h := toHexPad u.val 32
  ⟨h.take 8 ++ ('-' :: ((h.drop 8).take 4 ++ ('-' :: ((h.drop 12).take 4 ++
    ('-' :: ((h.drop 16).take 4 ++ ('-' :: h.drop 20)))))))⟩

/-- `generate_surrogate_id`: canonicalize, hash into a name-based UUID, prefix
as a URN. -/
def generateSurrogateId (fx : ExternalFns) (fields : List (String × Json)) : String :=
  "urn:uuid:" ++ uuidToString (fx.uuidv5 (canonicaliseObject fx fields))

/-- The active term-resolution context (`ActiveContext`): `@vocab`, the
explicit term map, and the set of predicates declared `"@type": "@id"`. -/
structure ActiveContext where
  vocab : Option String
  termMap : List (String × String)
  idProperties : List String
deriving DecidableEq, Repr

/-- `ActiveContext::default()`. -/
def ActiveContext.empty : ActiveContext := ⟨none, [], []⟩

/-- `str::starts_with('@')`. -/
def headIsAt (s : String) : Bool :=
  match s.data with
  | c :: _ => c = '@'
  | [] => false

/-- `str::split_once(':')` on the character list. -/
def splitOnceColonAux : List Char → Option (List Char × List Char)
  | [] => none
  | c :: rest =>
    if c = ':' then some ([], rest)
    else
      match splitOnceColonAux rest with
      | some pr => some (c :: pr.1, pr.2)
      | none => none

/-- `str::split_once(':')`. -/
def splitOnceColon (s : String) : Option (String × String) :=
  (splitOnceColonAux s.data).map fun pr => (⟨pr.1⟩, ⟨pr.2⟩)

/-- `Map::remove` on an association list. -/
def mapRemove [DecidableEq κ] (k : κ) : List (κ × β) → List (κ × β)
  | [] => []
  | e :: rest => if e.1 = k then rest else e :: mapRemove k rest

/-- `default_vocab_expansion`. -/
def defaultVocabExpansion (ctx : ActiveContext) (term : String) : Option String :=
  ctx.vocab.map fun vocab => vocab ++ term

/-- `expand_compact_iri`: split at the first colon and expand through the
term map of the active context. -/
def expandCompactIri (ctx : ActiveContext) (value : String) : Option String :=
  match splitOnceColon value with
  | none => none
  | some pr => (mapGet pr.1 ctx.termMap).map fun base => base ++ pr.2

/-- `expand_context_reference`. -/
def expandContextReference (fx : ExternalFns) (ctx : ActiveContext) (value : String) : String :=
  if fx.iriOk value then value
  else
    match expandCompactIri ctx value with
    | some expanded => expanded
    | none => (defaultVocabExpansion ctx value).getD value

/-- `expand_term`: keywords and absolute identifiers pass through; otherwise
the explicit term map, then compact-IRI expansion, then `@vocab`, then the
term unchanged. -/
def expandTerm (fx : ExternalFns) (context : Option ActiveContext) (term : String) : String :=
  if headIsAt term || fx.iriOk term then term
  else
    match context with
    | some ctx =>
      match mapGet term ctx.termMap with
      | some mapped => mapped
      | none =>
        match expandCompactIri ctx term with
        | some expanded => expanded
        | none => (defaultVocabExpansion ctx term).getD term
    | none => term

/-- `remove_term_definition`. -/
def removeTermDefinition (ctx : ActiveContext) (term : String) : ActiveContext :=
  match mapGet term ctx.termMap with
  | some previous =>
    { ctx with
      termMap := mapRemove term ctx.termMap
      idProperties := ctx.idProperties.erase previous }
  | none => ctx

/-- `update_term_definition`. -/
def updateTermDefinition (ctx : ActiveContext) (term expanded : String)
    (isIdType : Bool) : ActiveContext :=
  { ctx with
    termMap := mapInsert strCmp term expanded ctx.termMap
    idProperties :=
      if isIdType then setInsert strCmp expanded ctx.idProperties
      else ctx.idProperties.erase expanded }

/-- `parse_context_term`. -/
def parseContextTerm (fx : ExternalFns) (term : String) (definition : Json)
    (ctx : ActiveContext) : Except String ActiveContext :=
  match definition with
  | .null => .ok (removeTermDefinition ctx term)
  | .str target =>
    .ok (updateTermDefinition ctx term (expandContextReference fx ctx target) false)
  | .obj object =>
    match
      (match jGet object "@id" with
      | some .null => Except.ok (removeTermDefinition ctx term, (none : Option String))
      | some (.str reference) =>
        let expanded := expandContextReference fx ctx reference
        Except.ok (updateTermDefinition ctx term expanded false, some expanded)
      | some _ => Except.error ("invalid @id definition for term " ++ term)
      | none =>
        Except.ok (ctx,
          (mapGet term ctx.termMap).orElse fun _ => defaultVocabExpansion ctx term)) with
    | .error e => .error e
    | .ok st =>
      match jGet object "@type" with
      | some (.str ty) =>
        let isIdType := ty = "@id"
        match st.2 with
        | some expandedIri => .ok (updateTermDefinition st.1 term expandedIri isIdType)
        | none =>
          if isIdType then
            let inferred := (defaultVocabExpansion st.1 term).getD term
            .ok (updateTermDefinition st.1 term inferred true)
          else .ok st.1
      | _ => .ok st.1
  | _ => .error ("invalid term definition for " ++ term)

/-- The term loop of `parse_context_object` (a `BTreeMap` iterates in sorted
key order; keys starting with `@` are skipped). -/
def contextTermsFold (fx : ExternalFns) : List (String × Json) → ActiveContext →
    Except String ActiveContext
  | [], ctx => .ok ctx
  | td :: rest, ctx =>
    if headIsAt td.1 then contextTermsFold fx rest ctx
    else
      match parseContextTerm fx td.1 td.2 ctx with
      | .error e => .error e
      | .ok ctx1 => contextTermsFold fx rest ctx1

/-- `parse_context_object`: derive from the parent, apply `@vocab`, then fold
the term definitions. -/
def parseContextObject (fx : ExternalFns) (object : List (String × Json))
    (parent : Option ActiveContext) : Except String ActiveContext :=
  let ctx0 := parent.getD ActiveContext.empty
  match
    (match jGet object "@vocab" with
    | none => Except.ok ctx0
    | some .null => Except.ok { ctx0 with vocab := none }
    | some (.str value) => Except.ok { ctx0 with vocab := some value }
    | some _ => Except.error "invalid @vocab definition") with
  | .error e => .error e
  | .ok ctx1 => contextTermsFold fx (sortFieldsByKey object) ctx1

mutual

/-- `parse_context_value`: `null` resets, arrays chain left to right, objects
are term maps, remote string references are unsupported. -/
def parseContextValue (fx : ExternalFns) : Json → Option ActiveContext →
    Except String ActiveContext
  | .null, _ => .ok ActiveContext.empty
  | .arr values, parent => parseContextArray fx values (parent.getD ActiveContext.empty)
  | .obj object, parent => parseContextObject fx object parent
  | .str reference, _ => .error ("remote context references are not supported: " ++ reference)
  | _, _ => .error "invalid @context entry"

def parseContextArray (fx : ExternalFns) : List Json → ActiveContext →
    Except String ActiveContext
  | [], current => .ok current
  | entry :: rest, current =>
    match parseContextValue fx entry (some current) with
    | .error e => .error e
    | .ok next => parseContextArray fx rest next

end

/-- Size bound for values looked up in an object, used by the termination
measures of the recursive parsers. -/
def jGet_size_lt : ∀ (fields : List (String × Json)) (key : String) (v : Json),
    jGet fields key = some v → sizeOf v < sizeOf (Json.obj fields) := by
  intro fields key v
  induction fields with
  | nil => intro h; simp [jGet] at h
  | cons e rest ih =>
    intro h
    rw [jGet] at h
    by_cases he : e.1 = key
    · rw [if_pos he] at h
      obtain ⟨k0, v0⟩ := e
      cases h
      simp only [Json.obj.sizeOf_spec, List.cons.sizeOf_spec, Prod.mk.sizeOf_spec]
      omega
    · rw [if_neg he] at h
      have hlt := ih h
      simp only [Json.obj.sizeOf_spec, List.cons.sizeOf_spec] at *
      omega

/-- `extract_scalar`. -/
def extractScalar (fx : ExternalFns) : Json → Except String ScalarValue
  | .null => .ok .null
  | .bool b => .ok (.boolean b)
  | .num q => .ok (.number q)
  | .str v => .ok (.string v)
  | other => .ok (.string (serializeJson fx other))

/-- `collect_array_entry`: flatten a parsed member into the scalar and
reference accumulators. -/
def collectArrayEntry (value : PropertyValue) (scalars : List ScalarValue)
    (refs : List String) : List ScalarValue × List String :=
  match value with
  | .scalar sc => (scalars ++ [sc], refs)
  | .objectRef r => (scalars, refs ++ [r])
  | .array (.scalars nested) => (scalars ++ nested, refs)
  | .array (.objectRefs nested) => (scalars, refs ++ nested)

mutual

/-- `parse_property_value`: `@set`/`@list`/`@value` unwrap, explicit `@id`
objects are references, bare strings are references under `"@type":"@id"`
coercion or the IRI-shape heuristic, other objects serialize to a string. -/
def parsePropertyValue (fx : ExternalFns) (value : Json) (context : Option ActiveContext)
    (treatAsId : Bool) : Except String PropertyValue :=
  match value with
  | .null => .ok (.scalar .null)
  | .bool b => .ok (.scalar (.boolean b))
  | .num q => .ok (.scalar (.number q))
  | .str v =>
    if treatAsId then .ok (.objectRef (expandTerm fx context v))
    else if fx.iriOk v then .ok (.objectRef v)
    else .ok (.scalar (.string v))
  | .arr values => parseArray fx values context treatAsId
  | .obj map =>
    match hset : jGet map "@set" with
    | some setv =>
      have : sizeOf setv < 1 + sizeOf map := by
        simpa [Json.obj.sizeOf_spec] using jGet_size_lt map "@set" setv hset
      parsePropertyValue fx setv context treatAsId
    | none =>
      match hlist : jGet map "@list" with
      | some listv =>
        have : sizeOf listv < 1 + sizeOf map := by
          simpa [Json.obj.sizeOf_spec] using jGet_size_lt map "@list" listv hlist
        parsePropertyValue fx listv context treatAsId
      | none =>
        match (jGet map "@id").bind Json.asStr with
        | some id =>
          .ok (.objectRef (if treatAsId then expandTerm fx context id else id))
        | none =>
          match hval : jGet map "@value" with
          | some literal =>
            have : sizeOf literal < 1 + sizeOf map := by
              simpa [Json.obj.sizeOf_spec] using jGet_size_lt map "@value" literal hval
            parsePropertyValue fx literal context treatAsId
          | none => .ok (.scalar (.string (serializeJson fx (.obj map))))
termination_by (sizeOf value, 3)

/-- `parse_array`: collect members into homogeneous accumulators and reject a
mix of literals and references. -/
def parseArray (fx : ExternalFns) (values : List Json) (context : Option ActiveContext)
    (treatAsId : Bool) : Except String PropertyValue :=
  match parseArrayItems fx values context treatAsId [] [] with
  | .error e => .error e
  | .ok acc =>
    match acc.1.isEmpty, acc.2.isEmpty with
    | false, true => .ok (.array (.scalars acc.1))
    | true, false => .ok (.array (.objectRefs acc.2))
    | true, true => .ok (.array (.scalars []))
    | false, false => .error "mixed arrays of literals and object references are not supported"
termination_by (sizeOf values, 2)

/-- The work done for one member of the array inside the `parse_array` loop:
either an error or the updated `(scalars, refs)` accumulators. -/
def parseArrayStep (fx : ExternalFns) (entry : Json) (context : Option ActiveContext)
    (treatAsId : Bool) (scalars : List ScalarValue) (refs : List String) :
    Except String (List ScalarValue × List String) :=
  match entry with
  | .arr items =>
    match parseArray fx items context treatAsId with
    | .error e => .error e
    | .ok nested => .ok (collectArrayEntry nested scalars refs)
  | .obj map =>
    match hset : jGet map "@set" with
    | some setv =>
      have : sizeOf setv < 1 + sizeOf map := by
        simpa [Json.obj.sizeOf_spec] using jGet_size_lt map "@set" setv hset
      match parsePropertyValue fx setv context treatAsId with
      | .error e => .error e
      | .ok nested => .ok (collectArrayEntry nested scalars refs)
    | none =>
      match hlist : jGet map "@list" with
      | some listv =>
        have : sizeOf listv < 1 + sizeOf map := by
          simpa [Json.obj.sizeOf_spec] using jGet_size_lt map "@list" listv hlist
        match parsePropertyValue fx listv context treatAsId with
        | .error e => .error e
        | .ok nested => .ok (collectArrayEntry nested scalars refs)
      | none =>
        match jGet map "@id" with
        | some idv =>
          match idv.asStr with
          | some id =>
            .ok (scalars, refs ++ [if treatAsId then expandTerm fx context id else id])
          | none => .error "object reference missing @id"
        | none =>
          match jGet map "@value" with
          | some v =>
            match extractScalar fx v with
            | .error e => .error e
            | .ok sc => .ok (scalars ++ [sc], refs)
          | none =>
            .ok (scalars ++ [ScalarValue.string (serializeJson fx (.obj map))], refs)
  | .str v =>
    if treatAsId || fx.iriOk v then
      .ok (scalars, refs ++ [if treatAsId then expandTerm fx context v else v])
    else
      match extractScalar fx (.str v) with
      | .error e => .error e
      | .ok sc => .ok (scalars ++ [sc], refs)
  | other =>
    match extractScalar fx other with
    | .error e => .error e
    | .ok sc => .ok (scalars ++ [sc], refs)
termination_by (sizeOf entry, 1)

/-- The member loop of `parse_array`, with the two accumulators threaded. -/
def parseArrayItems (fx : ExternalFns) (entries : List Json) (context : Option ActiveContext)
    (treatAsId : Bool) (scalars : List ScalarValue) (refs : List String) :
    Except String (List ScalarValue × List String) :=
  match entries with
  | [] => .ok (scalars, refs)
  | entry :: rest =>
    match parseArrayStep fx entry context treatAsId scalars refs with
    | .error e => .error e
    | .ok acc => parseArrayItems fx rest context treatAsId acc.1 acc.2
termination_by (sizeOf entries, 0)

end

/-- The `@type` handling of `parse_node_object`: a string or an array whose
string members are term-expanded into the type set (non-strings are skipped);
anything else is an error. -/
def parseTypeEntries (fx : ExternalFns) (context : Option ActiveContext) (node : Node) :
    Json → Except String Node
  | .arr entries =>
    .ok (entries.foldl (fun nd entry =>
      match entry.asStr with
      | some v => nd.insertType (expandTerm fx context v)
      | none => nd) node)
  | .str v => .ok (node.insertType (expandTerm fx context v))
  | _ => .error "invalid @type entry"

/-- The property loop of `parse_node_object` (a `BTreeMap` iterates in sorted
key order; the JSON-LD keywords are skipped; every property insert is a plain
last-write-wins `insert_property`). -/
def nodePropsFold (fx : ExternalFns) (context : Option ActiveContext) :
    List (String × Json) → Node → Except String Node
  | [], node => .ok node
  | kv :: rest, node =>
    if kv.1 = "@id" ∨ kv.1 = "@type" ∨ kv.1 = "@context" ∨ kv.1 = "@graph" then
      nodePropsFold fx context rest node
    else
      let expandedKey := expandTerm fx context kv.1
      let treatAsId :=
        match context with
        | some ctx => ctx.idProperties.contains expandedKey
        | none => false
      match parsePropertyValue fx kv.2 context treatAsId with
      | .error e => .error ("failed to parse property " ++ expandedKey ++ ": " ++ e)
      | .ok propertyValue => nodePropsFold fx context rest (node.insertProperty expandedKey propertyValue)

/-- `parse_node_object`: resolve the id (a surrogate if `@id` is missing or
empty), fetch-or-create the node under `(graph, id)`, apply `@type`, then the
property loop; finally the node is stored back. -/
def parseNodeObject (fx : ExternalFns) (object : List (String × Json))
    (activeGraph : Option String) (context : Option ActiveContext)
    (nodes : List (NodeKey × Node)) : Except String (List (NodeKey × Node)) :=
  let id0 := ((jGet object "@id").bind Json.asStr).getD (generateSurrogateId fx object)
  let id := if id0 = "" then generateSurrogateId fx object else id0
  let graph := activeGraph
  let key : NodeKey := (graph, id)
  let node := ((mapGet key nodes).getD (Node.withGraph id graph)).setGraph graph
  match
    (match jGet object "@type" with
    | some types => parseTypeEntries fx context node types
    | none => .ok node) with
  | .error e => .error e
  | .ok node1 =>
    match nodePropsFold fx context (sortFieldsByKey object) node1 with
    | .error e => .error e
    | .ok node2 => .ok (mapInsert nodeKeyCmp key node2 nodes)

/-- `has_node_properties`. -/
def hasNodeProperties (object : List (String × Json)) : Bool :=
  object.any fun kv => kv.1 ≠ "@id" && kv.1 ≠ "@graph" && kv.1 ≠ "@context"

mutual

/-- `parse_entry`: derive a subtree-scoped context from `@context`, handle
`@graph` containers (whose `@id`, if any, names the nested graph, and which
also register as ordinary nodes when they carry other properties), and
otherwise parse a node object. -/
def parseEntry (fx : ExternalFns) (value : Json) (activeGraph : Option String)
    (context : Option ActiveContext) (nodes : List (NodeKey × Node)) :
    Except String (List (NodeKey × Node)) :=
  match value with
  | .obj object =>
    match
      (match hctx : jGet object "@context" with
      | some contextValue =>
        have : sizeOf contextValue < 1 + sizeOf object := by
          simpa [Json.obj.sizeOf_spec] using jGet_size_lt object "@context" contextValue hctx
        (parseContextValue fx contextValue context).map some
      | none => .ok context) with
    | .error e => .error e
    | .ok contextToUse =>
      match hgraph : jGet object "@graph" with
      | some graphValue =>
        have : sizeOf graphValue < 1 + sizeOf object := by
          simpa [Json.obj.sizeOf_spec] using jGet_size_lt object "@graph" graphValue hgraph
        let nextGraph := (jGet object "@id").bind Json.asStr
        match parseGraph fx graphValue nextGraph contextToUse nodes with
        | .error e => .error e
        | .ok nodes1 =>
          if hasNodeProperties object then
            parseNodeObject fx object activeGraph contextToUse nodes1
          else .ok nodes1
      | none => parseNodeObject fx object activeGraph contextToUse nodes
  | .arr values => parseEntryList fx values activeGraph context nodes
  | other => .error "expected JSON object for node"
termination_by (sizeOf value, 1)

/-- The loop over an array of entries. -/
def parseEntryList (fx : ExternalFns) (values : List Json) (activeGraph : Option String)
    (context : Option ActiveContext) (nodes : List (NodeKey × Node)) :
    Except String (List (NodeKey × Node)) :=
  match values with
  | [] => .ok nodes
  | item :: rest =>
    match parseEntry fx item activeGraph context nodes with
    | .error e => .error e
    | .ok nodes1 => parseEntryList fx rest activeGraph context nodes1
termination_by (sizeOf values, 0)

/-- `parse_graph`. -/
def parseGraph (fx : ExternalFns) (value : Json) (activeGraph : Option String)
    (context : Option ActiveContext) (nodes : List (NodeKey × Node)) :
    Except String (List (NodeKey × Node)) :=
  match value with
  | .arr items => parseEntryList fx items activeGraph context nodes
  | .obj fields => parseEntry fx (.obj fields) activeGraph context nodes
  | .null => .ok nodes
  | _ => .error "invalid @graph entry"
termination_by (sizeOf value, 2)

end

/-- `parse_jsonld_document`: arrays parse entry-wise, objects first derive the
base context from a top-level `@context` and then parse as a single entry,
anything else is an error; the accumulated map is finalized into its sorted
value list. -/
def parseJsonldDocument (fx : ExternalFns) (document : Json) : Except String (List Node) :=
  match
    (match document with
    | .arr items => parseEntryList fx items none none []
    | .obj map =>
      match
        (match jGet map "@context" with
        | some contextValue => (parseContextValue fx contextValue none).map some
        | none => .ok none) with
      | .error e => .error e
      | .ok baseContext => parseEntry fx document none baseContext []
    | _ => .error "expected JSON-LD array or object") with
  | .error e => .error e
  | .ok nodes => .ok (nodes.map (·.2))

/-- Fuelled evaluator for `parsePropertyValue`: `none` means the fuel ran out,
and any `some` result agrees with the recursive definition (the array branch
delegates to `parseArray` directly, so only the `@set`/`@list`/`@value`
unwrapping chain consumes fuel). Structural recursion on the fuel keeps every
`some` result computable by kernel reduction. -/
def parsePropertyValueF (fx : ExternalFns) (fuel : Nat) (value : Json)
    (context : Option ActiveContext) (treatAsId : Bool) :
    Option (Except String PropertyValue) :=
  match fuel, value with
  | 0, _ => none
  | _ + 1, .null => some (.ok (.scalar .null))
  | _ + 1, .bool b => some (.ok (.scalar (.boolean b)))
  | _ + 1, .num q => some (.ok (.scalar (.number q)))
  | _ + 1, .str v =>
    if treatAsId then some (.ok (.objectRef (expandTerm fx context v)))
    else if fx.iriOk v then some (.ok (.objectRef v))
    else some (.ok (.scalar (.string v)))
  | _ + 1, .arr values => some (parseArray fx values context treatAsId)
  | fuel + 1, .obj map =>
    match jGet map "@set" with
    | some setv => parsePropertyValueF fx fuel setv context treatAsId
    | none =>
      match jGet map "@list" with
      | some listv => parsePropertyValueF fx fuel listv context treatAsId
      | none =>
        match (jGet map "@id").bind Json.asStr with
        | some id =>
          some (.ok (.objectRef (if treatAsId then expandTerm fx context id else id)))
        | none =>
          match jGet map "@value" with
          | some literal => parsePropertyValueF fx fuel literal context treatAsId
          | none => some (.ok (.scalar (.string (serializeJson fx (.obj map)))))
termination_by structural fuel

/-- Fuelled mirror of `nodePropsFold`, threading the fuel into
`parsePropertyValueF`. -/
def nodePropsFoldF (fx : ExternalFns) (fuel : Nat) (context : Option ActiveContext) :
    List (String × Json) → Node → Option (Except String Node)
  | [], node => some (.ok node)
  | kv :: rest, node =>
    if kv.1 = "@id" ∨ kv.1 = "@type" ∨ kv.1 = "@context" ∨ kv.1 = "@graph" then
      nodePropsFoldF fx fuel context rest node
    else
      let expandedKey := expandTerm fx context kv.1
      let treatAsId :=
        match context with
        | some ctx => ctx.idProperties.contains expandedKey
        | none => false
      match parsePropertyValueF fx fuel kv.2 context treatAsId with
      | none => none
      | some (.error e) =>
        some (.error ("failed to parse property " ++ expandedKey ++ ": " ++ e))
      | some (.ok propertyValue) =>
        nodePropsFoldF fx fuel context rest (node.insertProperty expandedKey propertyValue)

/-- Fuelled mirror of `parseNodeObject`. -/
def parseNodeObjectF (fx : ExternalFns) (fuel : Nat) (object : List (String × Json))
    (activeGraph : Option String) (context : Option ActiveContext)
    (nodes : List (NodeKey × Node)) : Option (Except String (List (NodeKey × Node))) :=
  let id0 := ((jGet object "@id").bind Json.asStr).getD (generateSurrogateId fx object)
  let id := if id0 = "" then generateSurrogateId fx object else id0
  let graph := activeGraph
  let key : NodeKey := (graph, id)
  let node := ((mapGet key nodes).getD (Node.withGraph id graph)).setGraph graph
  match
    (match jGet object "@type" with
    | some types => parseTypeEntries fx context node types
    | none => .ok node) with
  | .error e => some (.error e)
  | .ok node1 =>
    match nodePropsFoldF fx fuel context (sortFieldsByKey object) node1 with
    | none => none
    | some (.error e) => some (.error e)
    | some (.ok node2) => some (.ok (mapInsert nodeKeyCmp key node2 nodes))

mutual

/-- Fuelled mirror of `parseEntry`. -/
def parseEntryF (fx : ExternalFns) (fuel : Nat) (value : Json)
    (activeGraph : Option String) (context : Option ActiveContext)
    (nodes : List (NodeKey × Node)) : Option (Except String (List (NodeKey × Node))) :=
  match fuel, value with
  | 0, _ => none
  | fuel + 1, .obj object =>
    match
      (match jGet object "@context" with
      | some contextValue => (parseContextValue fx contextValue context).map some
      | none => .ok context) with
    | .error e => some (.error e)
    | .ok contextToUse =>
      match jGet object "@graph" with
      | some graphValue =>
        let nextGraph := (jGet object "@id").bind Json.asStr
        match parseGraphF fx fuel graphValue nextGraph contextToUse nodes with
        | none => none
        | some (.error e) => some (.error e)
        | some (.ok nodes1) =>
          if hasNodeProperties object then
            parseNodeObjectF fx fuel object activeGraph contextToUse nodes1
          else some (.ok nodes1)
      | none => parseNodeObjectF fx fuel object activeGraph contextToUse nodes
  | fuel + 1, .arr values => parseEntryListF fx fuel values activeGraph context nodes
  | _ + 1, _ => some (.error "expected JSON object for node")
termination_by structural fuel

/-- Fuelled mirror of `parseEntryList`. -/
def parseEntryListF (fx : ExternalFns) (fuel : Nat) (values : List Json)
    (activeGraph : Option String) (context : Option ActiveContext)
    (nodes : List (NodeKey × Node)) : Option (Except String (List (NodeKey × Node))) :=
  match fuel, values with
  | 0, _ => none
  | _ + 1, [] => some (.ok nodes)
  | fuel + 1, item :: rest =>
    match parseEntryF fx fuel item activeGraph context nodes with
    | none => none
    | some (.error e) => some (.error e)
    | some (.ok nodes1) => parseEntryListF fx fuel rest activeGraph context nodes1
termination_by structural fuel

/-- Fuelled mirror of `parseGraph`. -/
def parseGraphF (fx : ExternalFns) (fuel : Nat) (value : Json)
    (activeGraph : Option String) (context : Option ActiveContext)
    (nodes : List (NodeKey × Node)) : Option (Except String (List (NodeKey × Node))) :=
  match fuel, value with
  | 0, _ => none
  | fuel + 1, .arr items => parseEntryListF fx fuel items activeGraph context nodes
  | fuel + 1, .obj fields => parseEntryF fx fuel (.obj fields) activeGraph context nodes
  | _ + 1, .null => some (.ok nodes)
  | _ + 1, _ => some (.error "invalid @graph entry")
termination_by structural fuel

end

/-- Fuelled mirror of `parseJsonldDocument`. -/
def parseJsonldDocumentF (fx : ExternalFns) (fuel : Nat) (document : Json) :
    Option (Except String (List Node)) :=
  match
    (match document with
    | .arr items => parseEntryListF fx fuel items none none []
    | .obj map =>
      match
        (match jGet map "@context" with
        | some contextValue => (parseContextValue fx contextValue none).map some
        | none => .ok none) with
      | .error e => some (.error e)
      | .ok baseContext => parseEntryF fx fuel document none baseContext []
    | _ => some (.error "expected JSON-LD array or object")) with
  | none => none
  | some (.error e) => some (.error e)
  | some (.ok nodes) => some (.ok (nodes.map (·.2)))

/-! ## Table codec: flatten (src/flatten/mod.rs) -/

def UNTYPED_MARKER : String := "__untyped__"

def ENTITIES_SHEET : String := "Entities"

def METADATA_SHEET : String := "Metadata"

/-- Lexicographic comparator on string pairs (Rust `Ord` for
`(String, String)`), used for the child-table `BTreeMap` keys. -/
def strPairCmp : StrictCmp (String × String) where
  lt a b := strLtB a.1 b.1 || (a.1 == b.1 && strLtB a.2 b.2)
  lt_trans := by
    rintro ⟨x₁, y₁⟩ ⟨x₂, y₂⟩ ⟨x₃, y₃⟩ h₁ h₂
    simp only [Bool.or_eq_true, Bool.and_eq_true, beq_iff_eq] at *
    rcases h₁ with h₁ | ⟨rfl, h₁⟩ <;> rcases h₂ with h₂ | ⟨rfl, h₂⟩
    · left; exact listLtB_trans _ _ _ h₁ h₂
    · left; exact h₁
    · left; exact h₂
    · right; exact ⟨rfl, listLtB_trans _ _ _ h₁ h₂⟩
  eq_of_nlt := by
    rintro ⟨x₁, y₁⟩ ⟨x₂, y₂⟩ h₁ h₂
    simp only [Bool.or_eq_false_iff, Bool.and_eq_false_iff, beq_iff_eq,
      beq_eq_false_iff_ne, ne_eq] at h₁ h₂
    have hx : x₁ = x₂ := String.ext (listLtB_eq_of_nlt _ _ h₁.1 h₂.1)
    subst hx
    rcases h₁.2 with h | h
    · exact absurd rfl h
    · rcases h₂.2 with h2 | h2
      · exact absurd rfl h2
      · exact Prod.ext rfl (String.ext (listLtB_eq_of_nlt _ _ h h2))
  lt_irrefl := by
    rintro ⟨x, y⟩
    simp [strLtB, listLtB_irrefl]

/-- Decimal digit characters of a natural number (the display of the loop
counter in `format!("_{counter}")`). -/
def natDecimal (n : Nat) : List Char :=
  if n = 0 then ['0'] else ((Nat.digits 10 n).map Nat.digitChar).reverse

/-- The character class replaced by `_` in `sanitize_sheet_name`: the fixed
list of forbidden characters plus control characters (`char::is_control`,
i.e. the Unicode `Cc` category). -/
def isInvalidSheetChar (ch : Char) : Bool :=
  ch = ':' || ch = '\\' || ch = '/' || ch = '?' || ch = '*' || ch = '[' || ch = ']' ||
    ch = '\'' || ch = '"' || ch.toNat < 32 || ch.toNat = 127 ||
    (128 ≤ ch.toNat && ch.toNat ≤ 159)

/-- `str::trim` on the character list. -/
def trimChars (l : List Char) : List Char :=
  ((l.dropWhile Char.isWhitespace).reverse.dropWhile Char.isWhitespace).reverse

/-- `sanitize_sheet_name`: replace forbidden and control characters by `_`,
trim, default an empty result to `Sheet`, cap at 31 characters (the Rust code
truncates at 31 bytes; sheet names are modelled at character granularity). -/
def sanitizeSheetName (raw : String) : String :=
  let sanitized := (raw.data.map fun ch => if isInvalidSheetChar ch then '_' else ch)
  let trimmed := trimChars sanitized
  let defaulted := if trimmed.isEmpty then "Sheet".data else trimmed
  ⟨defaulted.take 31⟩

/-- One collision candidate of `SheetNameRegistry::assign`: the base truncated
so that `_N` still fits under the 31-character cap. -/
def mkCandidate (base : String) (counter : Nat) : String :=
  let suffix := '_' :: natDecimal counter
  let maxLen := 31 - suffix.length
  ⟨base.data.take maxLen ++ suffix⟩

/-- The collision loop of `assign`, with explicit fuel (the Rust loop is
unbounded; the fuel used below is proven sufficient). -/
def assignLoop (used : List String) (base : String) : Nat → Nat → String
  | 0, counter => mkCandidate base counter
  | fuel + 1, counter =>
    let candidate := mkCandidate base counter
    if used.contains candidate then assignLoop used base fuel (counter + 1)
    else candidate

/-- `SheetNameRegistry::assign`: sanitize, return the base when fresh, else
append `_N` for the first fresh `N ≥ 1`; the returned name is recorded. -/
def registryAssign (used : List String) (raw : String) : String × List String :=
  let base := sanitizeSheetName raw
  if used.contains base then
    let name := assignLoop used base (used.length + 1) 1
    (name, name :: used)
  else (base, base :: used)

/-- A table destined for one worksheet (`SheetTable`). -/
structure SheetTable where
  sheet_name : String
  columns : List String
  rows : List (List String)
deriving DecidableEq, Repr

/-- `WorkbookData`. -/
structure WorkbookData where
  tables : List SheetTable
deriving DecidableEq, Repr

/-- A sheet name acceptable to the workbook writer: within the 31-character
cap and free of forbidden and control characters. -/
def validSheetName (s : String) : Prop :=
  s.length ≤ 31 ∧ ∀ c ∈ s.data, isInvalidSheetChar c = false

/-- The invariant carried through the table-assembly loops of
`build_workbook`: the two reserved names stay claimed, every emitted table's
name is claimed, acceptable, distinct from the reserved names, and the
emitted names are pairwise distinct. -/
def SheetNamesInv (st : List String × List (List String) × List SheetTable) : Prop :=
  ENTITIES_SHEET ∈ st.1 ∧ METADATA_SHEET ∈ st.1 ∧
  (∀ t ∈ st.2.2, t.sheet_name ∈ st.1) ∧
  (∀ t ∈ st.2.2, validSheetName t.sheet_name ∧
    t.sheet_name ≠ ENTITIES_SHEET ∧ t.sheet_name ≠ METADATA_SHEET) ∧
  (st.2.2.map SheetTable.sheet_name).Nodup

/-- `ScalarValue::to_json` (`from_f64` cannot fail on `ℚ`). -/
def ScalarValue.toJson : ScalarValue → Json
  | .string v => .str v
  | .number q => .num q
  | .boolean b => .bool b
  | .null => .null

/-- `scalar_to_cell_value` (the `serde_json::to_string` step cannot fail). -/
def scalarToCellValue (fx : ExternalFns) (value : ScalarValue) : String :=
  serializeJson fx value.toJson

/-- `RowData`. -/
structure RowData where
  id : String
  values : List (String × String)
deriving DecidableEq, Repr

/-- `TypeTableBuilder`: the column `BTreeSet` and the accumulated rows. -/
structure TypeTableBuilder where
  columns : List String
  rows : List RowData
deriving DecidableEq, Repr

/-- `ChildTableBuilder`. -/
structure ChildTableBuilder where
  predicate : String
  rows : List (String × String)
deriving DecidableEq, Repr

/-- One property of one `(node, type)` pair inside the `build_workbook` loop:
scalars and scalar arrays fill one cell, single references fill a synthetic
`<predicate>Id` column, and reference arrays feed the child-table builder for
the node's first type only. -/
def propertyStep (fx : ExternalFns) (node : Node) (typeIndex : Nat) (typeName : String)
    (st : TypeTableBuilder × List (String × String) × List ((String × String) × ChildTableBuilder))
    (pv : String × PropertyValue) :
    TypeTableBuilder × List (String × String) × List ((String × String) × ChildTableBuilder) :=
  match pv.2 with
  | .scalar sc =>
    ({ st.1 with columns := setInsert strCmp pv.1 st.1.columns },
      mapInsert strCmp pv.1 (scalarToCellValue fx sc) st.2.1, st.2.2)
  | .objectRef target =>
    let columnName := pv.1 ++ "Id"
    ({ st.1 with columns := setInsert strCmp columnName st.1.columns },
      mapInsert strCmp columnName target st.2.1, st.2.2)
  | .array (.scalars items) =>
    let jsonString := serializeJson fx (.arr (items.map ScalarValue.toJson))
    ({ st.1 with columns := setInsert strCmp pv.1 st.1.columns },
      mapInsert strCmp pv.1 jsonString st.2.1, st.2.2)
  | .array (.objectRefs targets) =>
    if typeIndex = 0 then
      let builder0 := (mapGet (typeName, pv.1) st.2.2).getD ⟨pv.1, []⟩
      let builder1 :=
        { builder0 with rows := builder0.rows ++ targets.map fun target => (node.id, target) }
      (st.1, st.2.1, mapInsert strPairCmp (typeName, pv.1) builder1 st.2.2)
    else st

/-- The work done for one `(node, type)` membership: update the type-table
builder with one row and route reference arrays to the child builders. -/
def buildStepForType (fx : ExternalFns) (node : Node) (typeIndex : Nat) (typeName : String)
    (typeBuilders : List (String × TypeTableBuilder))
    (childBuilders : List ((String × String) × ChildTableBuilder)) :
    List (String × TypeTableBuilder) × List ((String × String) × ChildTableBuilder) :=
  let builder0 := (mapGet typeName typeBuilders).getD ⟨[], []⟩
  let res := node.properties.foldl (propertyStep fx node typeIndex typeName) (builder0, [], childBuilders)
  let builder1 := { res.1 with rows := res.1.rows ++ [⟨node.id, res.2.1⟩] }
  (mapInsert strCmp typeName builder1 typeBuilders, res.2.2)

/-- The type list a node contributes under: its sorted types, or the
synthetic untyped marker. -/
def nodeTypesList (node : Node) : List String :=
  if node.types.isEmpty then [UNTYPED_MARKER] else node.types

/-- The per-node work of `build_workbook`: one Entities membership row and one
type-table row per carried type. -/
def buildNodeStep (fx : ExternalFns)
    (st : List (String × TypeTableBuilder) × List ((String × String) × ChildTableBuilder) ×
      List (String × String))
    (node : Node) :
    List (String × TypeTableBuilder) × List ((String × String) × ChildTableBuilder) ×
      List (String × String) :=
  (nodeTypesList node).enum.foldl
    (fun acc ti =>
      let entities1 := acc.2.2 ++ [(node.id, ti.2)]
      let bc := buildStepForType fx node ti.1 ti.2 acc.1 acc.2.1
      (bc.1, bc.2, entities1))
    st

/-- `TypeTableBuilder::into_table`. -/
def TypeTableBuilder.intoTable (builder : TypeTableBuilder) (sheetName : String) : SheetTable :=
  let columns := "id" :: builder.columns
  let rows := builder.rows.map fun row =>
    row.id :: builder.columns.map fun column => (mapGet column row.values).getD ""
  ⟨sheetName, columns, rows⟩

/-- `ChildTableBuilder::into_table`. -/
def ChildTableBuilder.intoTable (builder : ChildTableBuilder) (sheetName : String) : SheetTable :=
  ⟨sheetName, ["ParentId", builder.predicate ++ "Id"],
    builder.rows.map fun pr => [pr.1, pr.2]⟩

/-- The type-table assembly loop of `build_workbook`: sort the rows by id,
assign a sheet name, record the `type` metadata row, emit the table. -/
def typeTablesFold (fx : ExternalFns) :
    List (String × TypeTableBuilder) → List String × List (List String) × List SheetTable →
    List String × List (List String) × List SheetTable
  | [], st => st
  | tb :: rest, st =>
    let sortedRows := stableSort (fun r1 r2 => strCmp.lt r1.id r2.id) tb.2.rows
    let assigned := registryAssign st.1 tb.1
    let metadataRow := ["type", assigned.1, tb.1, ""]
    let table := TypeTableBuilder.intoTable ⟨tb.2.columns, sortedRows⟩ assigned.1
    typeTablesFold fx rest (assigned.2, st.2.1 ++ [metadataRow], st.2.2 ++ [table])

/-- The child-table assembly loop of `build_workbook`. -/
def childTablesFold (fx : ExternalFns) :
    List ((String × String) × ChildTableBuilder) →
    List String × List (List String) × List SheetTable →
    List String × List (List String) × List SheetTable
  | [], st => st
  | cb :: rest, st =>
    let sortedRows := stableSort (fun r1 r2 => strPairCmp.lt r1 r2) cb.2.rows
    let rawSheet := cb.1.1 ++ "__" ++ cb.1.2
    let assigned := registryAssign st.1 rawSheet
    let metadataRow := ["child", assigned.1, cb.1.1, cb.1.2]
    let table := ChildTableBuilder.intoTable ⟨cb.2.predicate, sortedRows⟩ assigned.1
    childTablesFold fx rest (assigned.2, st.2.1 ++ [metadataRow], st.2.2 ++ [table])

/-- `build_workbook` (the `serde_json` serialization steps inside it cannot
fail in the model, so the `Result` is always `Ok`): Entities and Metadata
first, then the generated type and child tables sorted by sheet name. -/
def buildWorkbook (fx : ExternalFns) (nodes : List Node) : WorkbookData :=
  let built := nodes.foldl (buildNodeStep fx) ([], [], [])
  let entitiesSorted := stableSort (fun e1 e2 => strPairCmp.lt e1 e2) built.2.2
  let used0 := [METADATA_SHEET, ENTITIES_SHEET]
  let st1 := typeTablesFold fx built.1 (used0, [], [])
  let st2 := childTablesFold fx built.2.1 st1
  let tablesSorted := stableSort (fun t1 t2 => strCmp.lt t1.sheet_name t2.sheet_name) st2.2.2
  let entitiesTable : SheetTable :=
    ⟨ENTITIES_SHEET, ["id", "type"], entitiesSorted.map fun e => [e.1, e.2]⟩
  let metadataTable : SheetTable :=
    ⟨METADATA_SHEET, ["kind", "sheet", "type", "predicate"], st2.2.1⟩
  ⟨entitiesTable :: metadataTable :: tablesSorted⟩

/-! ## Table codec: unflatten (src/aideon/tools/io/excel_read.rs)

The workbook writer (`excel_write.rs`) writes every header and cell with
`write_string`, so the range read back from a sheet is exactly the header row
followed by the data rows, all cells strings. -/

/-- The calamine range of a written sheet: header row, then data rows. -/
def toRange (t : SheetTable) : List (List String) := t.columns :: t.rows

/-- `worksheet_range` by sheet name; a missing sheet is an
`InvalidWorkbook` error. -/
def worksheetRange (wb : WorkbookData) (name : String) : Except String (List (List String)) :=
  match wb.tables.find? (fun t => t.sheet_name == name) with
  | some t => .ok (toRange t)
  | none => .error ("missing sheet " ++ name)

/-- `string_at` (`cell_to_string` of the cell at `index`; a missing cell is
the empty string). -/
def stringAt (row : List String) (index : Nat) : String := row.getD index ""

/-- `normalize_optional`: trim, empty becomes `None`. -/
def normalizeOptional (value : String) : Option String :=
  let trimmed := trimChars value.data
  if trimmed.isEmpty then none else some ⟨trimmed⟩

/-- `ensure_node`: normalise the graph cell, fetch or create the node under
`(graph, id)`, and re-set its graph. -/
def ensureNode (nodes : List (NodeKey × Node)) (id : String) (rawGraph : String) :
    NodeKey × Node :=
  let graph := normalizeOptional rawGraph
  let key : NodeKey := (graph, id)
  (key, ((mapGet key nodes).getD (Node.withGraph id graph)).setGraph graph)

/-- `HashMap::insert` modelled on an association list that keeps the first
insertion position of a key (iteration over the model map is in insertion
order; the Rust `HashMap` iteration order is arbitrary). -/
def listMapInsert [DecidableEq κ] (k : κ) (v : β) : List (κ × β) → List (κ × β)
  | [] => [(k, v)]
  | e :: rest => if e.1 = k then (k, v) :: rest else e :: listMapInsert k v rest

/-- The row loop of `parse_metadata`: blank kinds are skipped, `type` and
`child` rows feed the two sheet maps, anything else is an error. -/
def parseMetadataRows : List (List String) → List (String × String) →
    List (String × (String × String)) →
    Except String (List (String × String) × List (String × (String × String)))
  | [], typeSheets, childSheets => .ok (typeSheets, childSheets)
  | row :: rest, typeSheets, childSheets =>
    let kind := stringAt row 0
    if kind = "" then parseMetadataRows rest typeSheets childSheets
    else
      let sheet := stringAt row 1
      let typeName := stringAt row 2
      let predicate := stringAt row 3
      if kind = "type" then
        parseMetadataRows rest (listMapInsert sheet typeName typeSheets) childSheets
      else if kind = "child" then
        parseMetadataRows rest typeSheets (listMapInsert sheet (typeName, predicate) childSheets)
      else .error ("unknown metadata kind " ++ kind)

/-- `parse_metadata`. -/
def parseMetadata (range : List (List String)) :
    Except String (List (String × String) × List (String × (String × String))) :=
  parseMetadataRows (range.drop 1) [] []

/-- The row loop of `initialize_nodes`: entity rows create nodes (graph from
column 2) and record type memberships other than the untyped marker. -/
def initializeNodesRows : List (List String) → List (NodeKey × Node) → List (NodeKey × Node)
  | [], nodes => nodes
  | row :: rest, nodes =>
    let id := stringAt row 0
    if id = "" then initializeNodesRows rest nodes
    else
      let typeName := stringAt row 1
      let kn := ensureNode nodes id (stringAt row 2)
      let node :=
        if typeName ≠ "" ∧ typeName ≠ UNTYPED_MARKER then kn.2.insertType typeName else kn.2
      initializeNodesRows rest (mapInsert nodeKeyCmp kn.1 node nodes)

/-- `str::strip_suffix("Id")`. -/
def stripSuffixId (s : String) : Option String :=
  match s.data.reverse with
  | 'd' :: 'I' :: restRev => some ⟨restRev.reverse⟩
  | _ => none

/-- `value_to_scalar`. -/
def valueToScalar (fx : ExternalFns) : Json → Except String ScalarValue
  | .null => .ok .null
  | .bool b => .ok (.boolean b)
  | .num q => .ok (.number q)
  | .str v => .ok (.string v)
  | other => .ok (.string (serializeJson fx other))

/-- The scalar loop inside `parse_property_entry` for a JSON array cell. -/
def valuesToScalars (fx : ExternalFns) : List Json → Except String (List ScalarValue)
  | [] => .ok []
  | item :: rest =>
    match valueToScalar fx item with
    | .error e => .error e
    | .ok sc =>
      match valuesToScalars fx rest with
      | .error e => .error e
      | .ok scs => .ok (sc :: scs)

/-- `parse_property_entry`: `<predicate>Id` headers demote to object
references, other cells are JSON-decoded into a scalar or scalar array. -/
def parsePropertyEntry (fx : ExternalFns) (header rawValue : String) :
    Except String (String × PropertyValue) :=
  match stripSuffixId header with
  | some predicate => .ok (predicate, .objectRef rawValue)
  | none =>
    match fx.parseJson rawValue with
    | none => .error ("invalid JSON in cell: " ++ rawValue)
    | some (.arr items) =>
      match valuesToScalars fx items with
      | .error e => .error e
      | .ok scalars => .ok (header, .array (.scalars scalars))
    | some other =>
      match valueToScalar fx other with
      | .error e => .error e
      | .ok sc => .ok (header, .scalar sc)

/-- The cell loop of `ingest_type_sheet` (columns from index 2 on; missing or
empty headers and blank cells are skipped). -/
def typeSheetCellsFold (fx : ExternalFns) (headers : List String) :
    List (Nat × String) → Node → Except String Node
  | [], node => .ok node
  | cell :: rest, node =>
    match headers.get? cell.1 with
    | none => typeSheetCellsFold fx headers rest node
    | some header =>
      if header = "" then typeSheetCellsFold fx headers rest node
      else if (trimChars cell.2.data).isEmpty then typeSheetCellsFold fx headers rest node
      else
        match parsePropertyEntry fx header cell.2 with
        | .error e => .error e
        | .ok pp => typeSheetCellsFold fx headers rest (node.insertProperty pp.1 pp.2)

/-- The row loop of `ingest_type_sheet`: the id is column 0, the graph cell is
column 1, and properties start at column 2. -/
def ingestTypeSheetRows (fx : ExternalFns) (headers : List String) (typeName : String) :
    List (List String) → List (NodeKey × Node) → Except String (List (NodeKey × Node))
  | [], nodes => .ok nodes
  | row :: rest, nodes =>
    let id := stringAt row 0
    if id = "" then ingestTypeSheetRows fx headers typeName rest nodes
    else
      let kn := ensureNode nodes id (stringAt row 1)
      let node :=
        if typeName ≠ "" ∧ typeName ≠ UNTYPED_MARKER then kn.2.insertType typeName else kn.2
      match typeSheetCellsFold fx headers (row.enum.drop 2) node with
      | .error e => .error e
      | .ok node1 => ingestTypeSheetRows fx headers typeName rest (mapInsert nodeKeyCmp kn.1 node1 nodes)

/-- `ingest_type_sheet`. -/
def ingestTypeSheet (fx : ExternalFns) (range : List (List String)) (typeName : String)
    (nodes : List (NodeKey × Node)) : Except String (List (NodeKey × Node)) :=
  let headers := range.headD []
  if headers.isEmpty then .ok nodes
  else ingestTypeSheetRows fx headers typeName (range.drop 1) nodes

/-- The row loop of `ingest_child_sheet`: append the target to the named
object-reference array, creating it if absent; any other stored shape for the
predicate is a workbook-structure error. -/
def ingestChildRows (predicate : String) (hasGraphColumn : Bool) :
    List (List String) → List (NodeKey × Node) → Except String (List (NodeKey × Node))
  | [], nodes => .ok nodes
  | row :: rest, nodes =>
    let parent := stringAt row 0
    let targetIndex := if hasGraphColumn then 2 else 1
    let target := stringAt row targetIndex
    if parent = "" ∨ target = "" then ingestChildRows predicate hasGraphColumn rest nodes
    else
      let rawGraph := if hasGraphColumn then stringAt row 1 else ""
      let kn := ensureNode nodes parent rawGraph
      match mapGet predicate kn.2.properties with
      | some (.array (.objectRefs ids)) =>
        let node1 := kn.2.insertProperty predicate (.array (.objectRefs (ids ++ [target])))
        ingestChildRows predicate hasGraphColumn rest (mapInsert nodeKeyCmp kn.1 node1 nodes)
      | some _ => .error ("predicate " ++ predicate ++ " is not an object reference array")
      | none =>
        let node1 := kn.2.insertProperty predicate (.array (.objectRefs [target]))
        ingestChildRows predicate hasGraphColumn rest (mapInsert nodeKeyCmp kn.1 node1 nodes)

/-- `ingest_child_sheet`: a header of three or more columns carries a graph
column at index 1 and the target at index 2, else the target is at index 1. -/
def ingestChildSheet (range : List (List String)) (predicate : String)
    (nodes : List (NodeKey × Node)) : Except String (List (NodeKey × Node)) :=
  let headerWidth := (range.headD []).length
  let hasGraphColumn := 3 ≤ headerWidth
  ingestChildRows predicate hasGraphColumn (range.drop 1) nodes

/-- The loop over the type sheets named by Metadata. -/
def typeSheetsFold (fx : ExternalFns) (wb : WorkbookData) :
    List (String × String) → List (NodeKey × Node) → Except String (List (NodeKey × Node))
  | [], nodes => .ok nodes
  | ts :: rest, nodes =>
    match worksheetRange wb ts.1 with
    | .error e => .error e
    | .ok range =>
      match ingestTypeSheet fx range ts.2 nodes with
      | .error e => .error e
      | .ok nodes1 => typeSheetsFold fx wb rest nodes1

/-- The loop over the child sheets named by Metadata. -/
def childSheetsFold (wb : WorkbookData) :
    List (String × (String × String)) → List (NodeKey × Node) →
    Except String (List (NodeKey × Node))
  | [], nodes => .ok nodes
  | cs :: rest, nodes =>
    match worksheetRange wb cs.1 with
    | .error e => .error e
    | .ok range =>
      match ingestChildSheet range cs.2.2 nodes with
      | .error e => .error e
      | .ok nodes1 => childSheetsFold wb rest nodes1

/-- `read_nodes`: Metadata and Entities are required; Entities creates the
nodes, type sheets and child sheets enrich them, and the result is sorted by
`(graph, id)`. -/
def readNodes (fx : ExternalFns) (wb : WorkbookData) : Except String (List Node) :=
  match worksheetRange wb METADATA_SHEET with
  | .error e => .error e
  | .ok metadataRange =>
    match worksheetRange wb ENTITIES_SHEET with
    | .error e => .error e
    | .ok entitiesRange =>
      match parseMetadata metadataRange with
      | .error e => .error e
      | .ok sheets =>
        let nodes0 := initializeNodesRows (entitiesRange.drop 1) []
        match typeSheetsFold fx wb sheets.1 nodes0 with
        | .error e => .error e
        | .ok nodes1 =>
          match childSheetsFold wb sheets.2 nodes1 with
          | .error e => .error e
          | .ok nodes2 =>
            .ok (stableSort (fun n1 n2 => nodeKeyCmp.lt (n1.graph, n1.id) (n2.graph, n2.id))
              (nodes2.map (·.2)))

/-- A second oracle instantiation for witnesses that need the IRI-shape
heuristic to reject its input. -/
def fxOpaque : ExternalFns where
  iriOk _ := false
  blankOk _ := false
  parseF64 _ := none
  fmtF64 _ := "0"
  parseJson _ := none
  uuidv5 _ := 0

deriving instance DecidableEq for Except

/-- Classification of an array member that the `parse_array` loop turns into
an object reference: a bare string under `@id` coercion or the IRI-shape
heuristic, or an object with a string `@id` (and no `@set`/`@list`). -/
def isRefMember (fx : ExternalFns) (treatAsId : Bool) : Json → Bool
  | .str v => treatAsId || fx.iriOk v
  | .obj map =>
    (jGet map "@set").isNone && (jGet map "@list").isNone &&
      (match jGet map "@id" with
      | some idv => idv.asStr.isSome
      | none => false)
  | _ => false

/-- Classification of an array member that the `parse_array` loop turns into
a literal: `null`, booleans, numbers, strings not taken as references, and
objects without `@set`/`@list`/`@id` (via `@value` or serialization). -/
def isLitMember (fx : ExternalFns) (treatAsId : Bool) : Json → Bool
  | .null => true
  | .bool _ => true
  | .num _ => true
  | .str v => !(treatAsId || fx.iriOk v)
  | .obj map =>
    (jGet map "@set").isNone && (jGet map "@list").isNone && (jGet map "@id").isNone
  | .arr _ => false

/-- The value computed by `extract_scalar`. -/
def jsonScalar (fx : ExternalFns) : Json → ScalarValue
  | .null => .null
  | .bool b => .boolean b
  | .num q => .number q
  | .str v => .string v
  | other => .string (serializeJson fx other)

/-- The scalar a literal member contributes. -/
def memberScalar (fx : ExternalFns) : Json → ScalarValue
  | .obj map =>
    match jGet map "@value" with
    | some v => jsonScalar fx v
    | none => .string (serializeJson fx (.obj map))
  | other => jsonScalar fx other

/-- The identifier a reference member contributes. -/
def memberRef (fx : ExternalFns) (context : Option ActiveContext) (treatAsId : Bool) :
    Json → String
  | .str v => if treatAsId then expandTerm fx context v else v
  | .obj map =>
    match (jGet map "@id").bind Json.asStr with
    | some id => if treatAsId then expandTerm fx context id else id
    | none => ""
  | _ => ""

/-- The scalar and reference streams contributed by a list of simple members,
in order. -/
def collectSimple (fx : ExternalFns) (context : Option ActiveContext) (treatAsId : Bool) :
    List Json → List ScalarValue × List String
  | [] => ([], [])
  | v :: rest =>
    let r := collectSimple fx context treatAsId rest
    if isRefMember fx treatAsId v then (r.1, memberRef fx context treatAsId v :: r.2)
    else (memberScalar fx v :: r.1, r.2)

/-- The oracle record with a chosen name-based UUID hash (used to quantify
over every possible external hash implementation). -/
def fxWithUuid (h : String → Fin (2 ^ 128)) : ExternalFns :=
  { fxTest with uuidv5 := h }

/-- A family of pairwise content-distinct anonymous objects:
`{"a": "xx…x"}` with `n` copies of `x`. -/
def objFam (n : Nat) : List (String × Json) :=
  [("a", Json.str ⟨List.replicate n 'x'⟩)]

/-- An oracle whose hash is the length of the canonical string, used by
concrete witnesses that need two distinct hash values. -/
def fxLenHash : ExternalFns :=
  { fxTest with uuidv5 := fun s => ⟨s.length % 2 ^ 128, Nat.mod_lt _ (by norm_num)⟩ }

/-! ## Lemma library -/

theorem StrictCmp.lt_asymm (c : StrictCmp κ) {a b : κ} (h : c.lt a b = true) :
    c.lt b a = false := by
  cases hba : c.lt b a
  · rfl
  · exact absurd (c.lt_trans a b a h hba) (by simp [c.lt_irrefl])

theorem mapInsert_mem_key (c : StrictCmp κ) (k : κ) (v : β) (m : List (κ × β)) :
    ∀ e ∈ mapInsert c k v m, e.1 = k ∨ e ∈ m := by
  induction m with
  | nil => simp [mapInsert]
  | cons hd tl ih =>
    intro e he
    rw [mapInsert] at he
    by_cases h₁ : c.lt k hd.1 = true
    · rw [if_pos h₁] at he
      simp only [List.mem_cons] at he
      rcases he with h | h
      · subst h; left; rfl
      · right; exact List.mem_cons.mpr h
    · by_cases h₂ : c.lt hd.1 k = true
      · rw [if_neg h₁, if_pos h₂] at he
        simp only [List.mem_cons] at he
        rcases he with h | h
        · subst h; right; exact List.mem_cons_self _ _
        · rcases ih e h with h3 | h3
          · left; exact h3
          · right; exact List.mem_cons_of_mem _ h3
      · rw [if_neg h₁, if_neg h₂] at he
        simp only [List.mem_cons] at he
        rcases he with h | h
        · subst h; left; rfl
        · right; exact List.mem_cons_of_mem _ h

theorem mapInsert_sorted (c : StrictCmp κ) (k : κ) (v : β) (m : List (κ × β))
    (hm : MapSorted c m) : MapSorted c (mapInsert c k v m) := by
  induction m with
  | nil => simp [MapSorted, mapInsert]
  | cons hd tl ih =>
    rw [MapSorted, List.pairwise_cons] at hm
    rw [MapSorted, mapInsert]
    by_cases h₁ : c.lt k hd.1 = true
    · rw [if_pos h₁]
      refine List.Pairwise.cons ?_ (List.Pairwise.cons hm.1 hm.2)
      intro b hb
      rcases List.mem_cons.mp hb with h | h
      · rw [h]; exact h₁
      · exact c.lt_trans _ _ _ h₁ (hm.1 b h)
    · by_cases h₂ : c.lt hd.1 k = true
      · rw [if_neg h₁, if_pos h₂]
        refine List.Pairwise.cons ?_ (ih hm.2)
        intro b hb
        rcases mapInsert_mem_key c k v tl b hb with h | h
        · rw [h]; exact h₂
        · exact hm.1 b h
      · have hk : hd.1 = k := c.eq_of_nlt _ _ (by simpa using h₂) (by simpa using h₁)
        rw [if_neg h₁, if_neg h₂]
        exact List.Pairwise.cons (by simpa [hk] using hm.1) hm.2

theorem setInsert_mem (c : StrictCmp κ) (x : κ) (s : List κ) :
    ∀ e ∈ setInsert c x s, e = x ∨ e ∈ s := by
  induction s with
  | nil => simp [setInsert]
  | cons hd tl ih =>
    intro e he
    rw [setInsert] at he
    by_cases h₁ : c.lt x hd = true
    · rw [if_pos h₁] at he
      simp only [List.mem_cons] at he
      rcases he with h | h
      · left; exact h
      · right; exact List.mem_cons.mpr h
    · by_cases h₂ : c.lt hd x = true
      · rw [if_neg h₁, if_pos h₂] at he
        simp only [List.mem_cons] at he
        rcases he with h | h
        · subst h; right; exact List.mem_cons_self _ _
        · rcases ih e h with h3 | h3
          · left; exact h3
          · right; exact List.mem_cons_of_mem _ h3
      · rw [if_neg h₁, if_neg h₂] at he
        simp only [List.mem_cons] at he
        rcases he with h | h
        · subst h; right; exact List.mem_cons_self _ _
        · right; exact List.mem_cons_of_mem _ h

theorem setInsert_sorted (c : StrictCmp κ) (x : κ) (s : List κ)
    (hs : SetSorted c s) : SetSorted c (setInsert c x s) := by
  induction s with
  | nil => simp [SetSorted, setInsert]
  | cons hd tl ih =>
    rw [SetSorted, List.pairwise_cons] at hs
    rw [SetSorted, setInsert]
    by_cases h₁ : c.lt x hd = true
    · rw [if_pos h₁]
      refine List.Pairwise.cons ?_ (List.Pairwise.cons hs.1 hs.2)
      intro b hb
      rcases List.mem_cons.mp hb with h | h
      · rw [h]; exact h₁
      · exact c.lt_trans _ _ _ h₁ (hs.1 b h)
    · by_cases h₂ : c.lt hd x = true
      · rw [if_neg h₁, if_pos h₂]
        refine List.Pairwise.cons ?_ (ih hs.2)
        intro b hb
        rcases setInsert_mem c x tl b hb with h | h
        · rw [h]; exact h₂
        · exact hs.1 b h
      · rw [if_neg h₁, if_neg h₂]
        exact List.Pairwise.cons hs.1 hs.2

theorem mapGet_mapInsert_self [DecidableEq κ] (c : StrictCmp κ) (k : κ) (v : β)
    (m : List (κ × β)) : mapGet k (mapInsert c k v m) = some v := by
  induction m with
  | nil => simp [mapInsert, mapGet]
  | cons hd tl ih =>
    rw [mapInsert]
    by_cases h₁ : c.lt k hd.1 = true
    · rw [if_pos h₁]; simp [mapGet]
    · by_cases h₂ : c.lt hd.1 k = true
      · have hne : ¬ hd.1 = k := by
          rintro rfl
          rw [c.lt_irrefl] at h₂
          exact absurd h₂ (by simp)
        rw [if_neg h₁, if_pos h₂, mapGet, if_neg hne]
        exact ih
      · rw [if_neg h₁, if_neg h₂]; simp [mapGet]

theorem mapGet_mapInsert_ne [DecidableEq κ] (c : StrictCmp κ) (k k' : κ) (v : β)
    (m : List (κ × β)) (hne : k ≠ k') : mapGet k' (mapInsert c k v m) = mapGet k' m := by
  induction m with
  | nil => simp [mapInsert, mapGet, hne]
  | cons hd tl ih =>
    rw [mapInsert]
    by_cases h₁ : c.lt k hd.1 = true
    · rw [if_pos h₁, mapGet, if_neg hne]
    · by_cases h₂ : c.lt hd.1 k = true
      · rw [if_neg h₁, if_pos h₂, mapGet]
        by_cases h₃ : hd.1 = k'
        · rw [if_pos h₃, mapGet, if_pos h₃]
        · rw [if_neg h₃, mapGet, if_neg h₃, ih]
      · have hk : hd.1 = k := c.eq_of_nlt _ _ (by simpa using h₂) (by simpa using h₁)
        rw [if_neg h₁, if_neg h₂, mapGet, if_neg hne, mapGet, hk, if_neg hne]

theorem mapGet_mem [DecidableEq κ] (k : κ) (v : β) (m : List (κ × β))
    (h : mapGet k m = some v) : (k, v) ∈ m := by
  induction m with
  | nil => simp [mapGet] at h
  | cons hd tl ih =>
    rw [mapGet] at h
    by_cases h1 : hd.1 = k
    · rw [if_pos h1] at h
      injection h with h2
      have h3 : hd = (k, v) := Prod.ext h1 h2
      rw [← h3]
      exact List.mem_cons_self _ _
    · rw [if_neg h1] at h
      exact List.mem_cons_of_mem _ (ih h)

theorem mapInsert_mem_pair (c : StrictCmp κ) (k : κ) (v : β) (m : List (κ × β)) :
    ∀ e ∈ mapInsert c k v m, e = (k, v) ∨ e ∈ m := by
  induction m with
  | nil => simp [mapInsert]
  | cons hd tl ih =>
    intro e he
    rw [mapInsert] at he
    by_cases h₁ : c.lt k hd.1 = true
    · rw [if_pos h₁] at he
      rcases List.mem_cons.mp he with h | h
      · left; exact h
      · right; exact h
    · by_cases h₂ : c.lt hd.1 k = true
      · rw [if_neg h₁, if_pos h₂] at he
        rcases List.mem_cons.mp he with h | h
        · right; rw [h]; exact List.mem_cons_self _ _
        · rcases ih e h with h3 | h3
          · left; exact h3
          · right; exact List.mem_cons_of_mem _ h3
      · rw [if_neg h₁, if_neg h₂] at he
        rcases List.mem_cons.mp he with h | h
        · left; exact h
        · right; exact List.mem_cons_of_mem _ h

theorem namedNodeNew_ok (fx : ExternalFns) (s t : String)
    (h : namedNodeNew fx s = .ok t) : t = s := by
  rw [namedNodeNew] at h
  split at h
  · injection h with h2; exact h2.symm
  · exact Except.noConfusion h

theorem scalarArrayQuads_predicate (fx : ExternalFns) (s : Subject) (g : GraphName)
    (pred : String) : ∀ (items : List ScalarValue) (qs : List Quad),
    scalarArrayQuads fx s g pred items = .ok qs → ∀ q ∈ qs, q.predicate = pred := by
  intro items
  induction items with
  | nil =>
    intro qs h
    simp only [scalarArrayQuads] at h
    injection h with h2
    subst h2
    simp
  | cons sc rest ih =>
    intro qs h
    simp only [scalarArrayQuads] at h
    split at h
    · exact Except.noConfusion h
    · exact ih qs h
    · split at h
      · exact Except.noConfusion h
      · rename_i quads heq
        injection h with h2
        subst h2
        intro q hq
        rcases List.mem_cons.mp hq with h3 | h3
        · subst h3; rfl
        · exact ih quads heq q h3

theorem refArrayQuads_predicate (fx : ExternalFns) (s : Subject) (g : GraphName)
    (pred : String) : ∀ (targets : List String) (qs : List Quad),
    refArrayQuads fx s g pred targets = .ok qs → ∀ q ∈ qs, q.predicate = pred := by
  intro targets
  induction targets with
  | nil =>
    intro qs h
    simp only [refArrayQuads] at h
    injection h with h2
    subst h2
    simp
  | cons t rest ih =>
    intro qs h
    simp only [refArrayQuads] at h
    split at h
    · exact Except.noConfusion h
    · split at h
      · exact Except.noConfusion h
      · rename_i quads heq
        injection h with h2
        subst h2
        intro q hq
        rcases List.mem_cons.mp hq with h3 | h3
        · subst h3; rfl
        · exact ih quads heq q h3

theorem typeQuads_predicate (fx : ExternalFns) (s : Subject) (g : GraphName) :
    ∀ (types : List String) (qs : List Quad),
    typeQuads fx s g types = .ok qs → ∀ q ∈ qs, q.predicate = RDF_TYPE := by
  intro types
  induction types with
  | nil =>
    intro qs h
    simp only [typeQuads] at h
    injection h with h2
    subst h2
    simp
  | cons t rest ih =>
    intro qs h
    simp only [typeQuads] at h
    split at h
    · exact Except.noConfusion h
    · split at h
      · exact Except.noConfusion h
      · rename_i quads heq
        injection h with h2
        subst h2
        intro q hq
        rcases List.mem_cons.mp hq with h3 | h3
        · subst h3; rfl
        · exact ih quads heq q h3

theorem propertyQuads_predicate (fx : ExternalFns) (s : Subject) (g : GraphName)
    (pred : String) (pv : PropertyValue) (qs : List Quad)
    (h : propertyQuads fx s g pred pv = .ok qs) : ∀ q ∈ qs, q.predicate = pred := by
  cases pv with
  | scalar sc =>
    simp only [propertyQuads] at h
    split at h
    · exact Except.noConfusion h
    · injection h with h2
      subst h2
      simp
    · injection h with h2
      subst h2
      intro q hq
      rw [List.mem_singleton] at hq
      subst hq
      rfl
  | objectRef t =>
    simp only [propertyQuads] at h
    split at h
    · exact Except.noConfusion h
    · injection h with h2
      subst h2
      intro q hq
      rw [List.mem_singleton] at hq
      subst hq
      rfl
  | array a =>
    cases a with
    | scalars items => exact scalarArrayQuads_predicate fx s g pred items qs h
    | objectRefs targets => exact refArrayQuads_predicate fx s g pred targets qs h

theorem propsQuads_no_pred (fx : ExternalFns) (s : Subject) (g : GraphName) (p : String) :
    ∀ (entries : List (String × PropertyValue)) (qs : List Quad),
    (∀ pv ∈ entries, pv.1 = p → pv.2 = .scalar .null) →
    propsQuads fx s g entries = .ok qs → ∀ q ∈ qs, q.predicate ≠ p := by
  intro entries
  induction entries with
  | nil =>
    intro qs _ h
    simp only [propsQuads] at h
    injection h with h2
    subst h2
    simp
  | cons pv rest ih =>
    intro qs hnull h
    simp only [propsQuads] at h
    split at h
    · exact Except.noConfusion h
    · rename_i pnode hpn
      split at h
      · exact Except.noConfusion h
      · rename_i quads hq
        split at h
        · exact Except.noConfusion h
        · rename_i more hmore
          injection h with h2
          subst h2
          have hpv : pnode = pv.1 := namedNodeNew_ok fx pv.1 pnode hpn
          intro q hmem
          rcases List.mem_append.mp hmem with h3 | h3
          · by_cases hp : pv.1 = p
            · have hv : pv.2 = .scalar .null := hnull pv (List.mem_cons_self _ _) hp
              rw [hv] at hq
              have h0 : propertyQuads fx s g pnode (PropertyValue.scalar .null) = .ok [] := rfl
              have h4 := h0.symm.trans hq
              injection h4 with h5
              rw [← h5] at h3
              simp at h3
            · have h4 : q.predicate = pnode :=
                propertyQuads_predicate fx s g pnode pv.2 quads hq q h3
              rw [h4, hpv]
              exact hp
          · exact ih more (fun e he hp => hnull e (List.mem_cons_of_mem _ he) hp) hmore q h3

theorem nodeQuads_no_pred (fx : ExternalFns) (node : Node) (p : String)
    (hp : p ≠ RDF_TYPE)
    (hnull : ∀ pv ∈ node.properties, pv.1 = p → pv.2 = .scalar .null)
    (qs : List Quad) (h : nodeQuads fx node = .ok qs) : ∀ q ∈ qs, q.predicate ≠ p := by
  simp only [nodeQuads] at h
  split at h
  · exact Except.noConfusion h
  · rename_i subject hsub
    split at h
    · exact Except.noConfusion h
    · rename_i graphName hg
      split at h
      · exact Except.noConfusion h
      · rename_i tQuads ht
        split at h
        · exact Except.noConfusion h
        · rename_i pQuads hpq
          injection h with h2
          subst h2
          intro q hq
          rcases List.mem_append.mp hq with h3 | h3
          · have h4 := typeQuads_predicate fx subject graphName node.types tQuads ht q h3
            rw [h4]
            exact hp.symm
          · exact propsQuads_no_pred fx subject graphName p node.properties pQuads hnull hpq q h3

theorem nodesQuads_no_pred (fx : ExternalFns) (p : String) (hp : p ≠ RDF_TYPE) :
    ∀ (nodes : List Node) (qs : List Quad),
    (∀ n ∈ nodes, ∀ pv ∈ n.properties, pv.1 = p → pv.2 = .scalar .null) →
    nodesQuads fx nodes = .ok qs → ∀ q ∈ qs, q.predicate ≠ p := by
  intro nodes
  induction nodes with
  | nil =>
    intro qs _ h
    simp only [nodesQuads] at h
    injection h with h2
    subst h2
    simp
  | cons node rest ih =>
    intro qs hnull h
    simp only [nodesQuads] at h
    split at h
    · exact Except.noConfusion h
    · rename_i quads hq
      split at h
      · exact Except.noConfusion h
      · rename_i more hmore
        injection h with h2
        subst h2
        intro q hmem
        rcases List.mem_append.mp hmem with h3 | h3
        · exact nodeQuads_no_pred fx node p hp (hnull node (List.mem_cons_self _ _)) quads hq q h3
        · exact ih more (fun n hn => hnull n (List.mem_cons_of_mem _ hn)) hmore q h3

theorem mergeProperty_absent (node : Node) (pred p : String) (value : PropertyValue)
    (hq : pred ≠ p) (hnode : mapGet p node.properties = none) :
    mapGet p (mergeProperty node pred value).properties = none := by
  rw [mergeProperty]
  split
  · simpa [mapGet_mapInsert_ne strCmp pred p value node.properties hq] using hnode
  · rename_i existing hex
    simpa [mapGet_mapInsert_ne strCmp pred p (mergePair existing value) node.properties hq]
      using hnode

theorem processQuad_preserves_absent (fx : ExternalFns) (p : String)
    (acc : List (NodeKey × Node)) (quad : Quad) (out : List (NodeKey × Node))
    (hq : quad.predicate ≠ p)
    (hacc : ∀ e ∈ acc, mapGet p e.2.properties = none)
    (h : processQuad fx acc quad = .ok out) :
    ∀ e ∈ out, mapGet p e.2.properties = none := by
  have hbase : ∀ (key : NodeKey) (i : String) (g : Option String),
      mapGet p (((mapGet key acc).getD (Node.withGraph i g)).setGraph g).properties = none := by
    intro key i g
    cases hma : mapGet key acc with
    | none => rfl
    | some n =>
      have h5 := hacc (key, n) (mapGet_mem key n acc hma)
      simpa [Node.setGraph] using h5
  simp only [processQuad] at h
  split at h
  · split at h <;>
      (injection h with h2
       subst h2
       intro e he
       rcases mapInsert_mem_pair nodeKeyCmp _ _ acc e he with h3 | h3 <;>
         first
           | exact hacc e h3
           | (rw [h3]; simpa [Node.insertType] using hbase _ _ _))
  · split at h
    · exact Except.noConfusion h
    · rename_i property hterm
      injection h with h2
      subst h2
      intro e he
      rcases mapInsert_mem_pair nodeKeyCmp _ _ acc e he with h3 | h3
      · rw [h3]
        exact mergeProperty_absent _ quad.predicate p property hq (hbase _ _ _)
      · exact hacc e h3

theorem quadsFold_preserves_absent (fx : ExternalFns) (p : String) :
    ∀ (quads : List Quad) (acc out : List (NodeKey × Node)),
    (∀ q ∈ quads, q.predicate ≠ p) →
    (∀ e ∈ acc, mapGet p e.2.properties = none) →
    quadsFold fx quads acc = .ok out →
    ∀ e ∈ out, mapGet p e.2.properties = none := by
  intro quads
  induction quads with
  | nil =>
    intro acc out _ hacc h
    simp only [quadsFold] at h
    injection h with h2
    subst h2
    exact hacc
  | cons quad rest ih =>
    intro acc out hq hacc h
    simp only [quadsFold] at h
    split at h
    · exact Except.noConfusion h
    · rename_i acc1 heq
      exact ih acc1 out (fun q hm => hq q (List.mem_cons_of_mem _ hm))
        (processQuad_preserves_absent fx p acc quad acc1
          (hq quad (List.mem_cons_self _ _)) hacc heq) h

theorem extractScalar_eq (fx : ExternalFns) (j : Json) :
    extractScalar fx j = .ok (jsonScalar fx j) := by
  cases j <;> rfl

set_option maxHeartbeats 1000000 in
theorem parseArrayStep_simple (fx : ExternalFns) (context : Option ActiveContext)
    (treatAsId : Bool) (v : Json) (scalars : List ScalarValue) (refs : List String)
    (hv : isRefMember fx treatAsId v = true ∨ isLitMember fx treatAsId v = true) :
    parseArrayStep fx v context treatAsId scalars refs =
      (if isRefMember fx treatAsId v then
        .ok (scalars, refs ++ [memberRef fx context treatAsId v])
      else .ok (scalars ++ [memberScalar fx v], refs)) := by
  cases v with
  | null =>
    rw [parseArrayStep, extractScalar_eq]
    · simp [isRefMember, memberScalar, jsonScalar]
    all_goals simp
  | bool b =>
    rw [parseArrayStep, extractScalar_eq]
    · simp [isRefMember, memberScalar, jsonScalar]
    all_goals simp
  | num q =>
    rw [parseArrayStep, extractScalar_eq]
    · simp [isRefMember, memberScalar, jsonScalar]
    all_goals simp
  | str w =>
    rw [parseArrayStep]
    by_cases hw : (treatAsId || fx.iriOk w) = true
    · rw [if_pos hw]
      simp [isRefMember, hw, memberRef]
    · rw [if_neg hw, extractScalar_eq]
      simp only [Bool.not_eq_true] at hw
      simp [isRefMember, hw, memberScalar, jsonScalar]
  | arr items =>
    exfalso
    rcases hv with hv | hv <;> simp [isRefMember, isLitMember] at hv
  | obj map =>
    rcases hv with href | hlit
    · simp only [isRefMember, Bool.and_eq_true, Option.isNone_iff_eq_none] at href
      obtain ⟨⟨hset, hlist⟩, hid⟩ := href
      rcases hidv : jGet map "@id" with _ | idv
      · rw [hidv] at hid; simp at hid
      · rw [hidv] at hid
        simp only at hid
        rcases hstr : idv.asStr with _ | idstr
        · rw [hstr] at hid; simp at hid
        · rw [parseArrayStep]
          have hm : isRefMember fx treatAsId (Json.obj map) = true := by
            simp [isRefMember, hset, hlist, hidv, hstr]
          split
          · rename_i setv heq
            rw [hset] at heq
            exact Option.noConfusion heq
          · split
            · rename_i listv heq2
              rw [hlist] at heq2
              exact Option.noConfusion heq2
            · simp [hidv, hstr, hm, memberRef]
    · simp only [isLitMember, Bool.and_eq_true, Option.isNone_iff_eq_none] at hlit
      obtain ⟨⟨hset, hlist⟩, hid⟩ := hlit
      have hm : isRefMember fx treatAsId (Json.obj map) = false := by
        simp [isRefMember, hset, hlist, hid]
      rcases hval : jGet map "@value" with _ | v0 <;>
      · rw [parseArrayStep]
        split
        · rename_i setv heq
          rw [hset] at heq
          exact Option.noConfusion heq
        · split
          · rename_i listv heq2
            rw [hlist] at heq2
            exact Option.noConfusion heq2
          · simp [hid, hval, extractScalar_eq, hm, memberScalar]

set_option maxHeartbeats 1000000 in
theorem parseArrayItems_simple (fx : ExternalFns) (context : Option ActiveContext)
    (treatAsId : Bool) :
    ∀ (values : List Json) (scalars : List ScalarValue) (refs : List String),
    (∀ v ∈ values, isRefMember fx treatAsId v = true ∨ isLitMember fx treatAsId v = true) →
    parseArrayItems fx values context treatAsId scalars refs =
      .ok (scalars ++ (collectSimple fx context treatAsId values).1,
        refs ++ (collectSimple fx context treatAsId values).2) := by
  intro values
  induction values with
  | nil =>
    intro scalars refs hsimple
    rw [parseArrayItems]
    simp [collectSimple]
  | cons v rest ih =>
    intro scalars refs hsimple
    have hv := hsimple v (List.mem_cons_self _ _)
    have hrest := fun w hw => hsimple w (List.mem_cons_of_mem _ hw)
    rw [parseArrayItems, parseArrayStep_simple fx context treatAsId v scalars refs hv]
    by_cases hm : isRefMember fx treatAsId v = true
    · rw [if_pos hm]
      simp [ih _ _ hrest, collectSimple, hm]
    · rw [if_neg hm]
      simp only [Bool.not_eq_true] at hm
      simp [ih _ _ hrest, collectSimple, hm]

theorem isLitMember_not_ref (fx : ExternalFns) (treatAsId : Bool) (v : Json)
    (h : isLitMember fx treatAsId v = true) : isRefMember fx treatAsId v = false := by
  cases v with
  | str w =>
    simp only [isLitMember, Bool.not_eq_true'] at h
    simp [isRefMember, h]
  | obj map =>
    simp only [isLitMember, Bool.and_eq_true, Option.isNone_iff_eq_none] at h
    simp [isRefMember, h.1.1, h.1.2, h.2]
  | _ => simp [isRefMember]

theorem collectSimple_all_lit (fx : ExternalFns) (context : Option ActiveContext)
    (treatAsId : Bool) :
    ∀ values : List Json, (∀ v ∈ values, isLitMember fx treatAsId v = true) →
    (collectSimple fx context treatAsId values).2 = []
    ∧ (collectSimple fx context treatAsId values).1.length = values.length := by
  intro values
  induction values with
  | nil => intro hall; simp [collectSimple]
  | cons v rest ih =>
    intro hall
    have h := isLitMember_not_ref fx treatAsId v (hall v (List.mem_cons_self _ _))
    have ihh := ih fun w hw => hall w (List.mem_cons_of_mem _ hw)
    simp [collectSimple, h, ihh.1, ihh.2]

theorem collectSimple_all_ref (fx : ExternalFns) (context : Option ActiveContext)
    (treatAsId : Bool) :
    ∀ values : List Json, (∀ v ∈ values, isRefMember fx treatAsId v = true) →
    (collectSimple fx context treatAsId values).1 = []
    ∧ (collectSimple fx context treatAsId values).2.length = values.length := by
  intro values
  induction values with
  | nil => intro hall; simp [collectSimple]
  | cons v rest ih =>
    intro hall
    have h := hall v (List.mem_cons_self _ _)
    have ihh := ih fun w hw => hall w (List.mem_cons_of_mem _ hw)
    simp [collectSimple, h, ihh.1, ihh.2]

theorem collectSimple_lit_mem (fx : ExternalFns) (context : Option ActiveContext)
    (treatAsId : Bool) :
    ∀ values : List Json, ∀ v ∈ values, isLitMember fx treatAsId v = true →
    (collectSimple fx context treatAsId values).1 ≠ [] := by
  intro values
  induction values with
  | nil => simp
  | cons w rest ih =>
    intro v hv hlit
    rcases List.mem_cons.mp hv with rfl | hv
    · have h := isLitMember_not_ref fx treatAsId v hlit
      simp [collectSimple, h]
    · by_cases hw : isRefMember fx treatAsId w = true
      · have := ih v hv hlit
        simp [collectSimple, hw, this]
      · simp only [Bool.not_eq_true] at hw
        simp [collectSimple, hw]

theorem collectSimple_ref_mem (fx : ExternalFns) (context : Option ActiveContext)
    (treatAsId : Bool) :
    ∀ values : List Json, ∀ v ∈ values, isRefMember fx treatAsId v = true →
    (collectSimple fx context treatAsId values).2 ≠ [] := by
  intro values
  induction values with
  | nil => simp
  | cons w rest ih =>
    intro v hv href
    rcases List.mem_cons.mp hv with rfl | hv
    · simp [collectSimple, href]
    · by_cases hw : isRefMember fx treatAsId w = true
      · simp [collectSimple, hw]
      · simp only [Bool.not_eq_true] at hw
        have := ih v hv href
        simp [collectSimple, hw, this]

theorem strLength_mk (l : List Char) : (String.mk l).length = l.length := rfl

theorem toHexPad_length : ∀ (w n : Nat), (toHexPad n w).length = w := by
  intro w
  induction w with
  | zero => intro n; rfl
  | succ w ih =>
    intro n
    rw [toHexPad]
    simp [ih]

theorem hexDigitChar_inj : ∀ a b : Nat, a < 16 → b < 16 →
    hexDigitChar a = hexDigitChar b → a = b := by
  intro a b ha hb h
  have key : ∀ x y : Fin 16, hexDigitChar x.val = hexDigitChar y.val → x.val = y.val := by
    decide
  exact key ⟨a, ha⟩ ⟨b, hb⟩ h

theorem toHexPad_inj : ∀ (w m n : Nat), m < 16 ^ w → n < 16 ^ w →
    toHexPad m w = toHexPad n w → m = n := by
  intro w
  induction w with
  | zero =>
    intro m n hm hn _
    simp only [pow_zero, Nat.lt_one_iff] at hm hn
    rw [hm, hn]
  | succ w ih =>
    intro m n hm hn heq
    rw [toHexPad, toHexPad] at heq
    have hlen : (toHexPad (m / 16) w).length = (toHexPad (n / 16) w).length := by
      rw [toHexPad_length, toHexPad_length]
    have hsplit := List.append_inj heq hlen
    have hdiv : m / 16 = n / 16 := by
      refine ih (m / 16) (n / 16) ?_ ?_ hsplit.1
      · exact (Nat.div_lt_iff_lt_mul (by norm_num)).mpr (by rw [← pow_succ]; exact hm)
      · exact (Nat.div_lt_iff_lt_mul (by norm_num)).mpr (by rw [← pow_succ]; exact hn)
    have hmod : m % 16 = n % 16 := by
      have := hsplit.2
      simp only [List.cons.injEq] at this
      exact hexDigitChar_inj _ _ (Nat.mod_lt _ (by norm_num)) (Nat.mod_lt _ (by norm_num)) this.1
    calc m = 16 * (m / 16) + m % 16 := (Nat.div_add_mod m 16).symm
    _ = 16 * (n / 16) + n % 16 := by rw [hdiv, hmod]
    _ = n := Nat.div_add_mod n 16

theorem uuid_pieces (h : List Char) :
    h = h.take 8 ++ ((h.drop 8).take 4 ++ ((h.drop 12).take 4 ++
      ((h.drop 16).take 4 ++ h.drop 20))) := by
  have d8 : (h.drop 8).drop 4 = h.drop 12 := by rw [List.drop_drop]
  have d12 : (h.drop 12).drop 4 = h.drop 16 := by rw [List.drop_drop]
  have d16 : (h.drop 16).drop 4 = h.drop 20 := by rw [List.drop_drop]
  conv_lhs => rw [← List.take_append_drop 8 h]
  congr 1
  conv_lhs => rw [← List.take_append_drop 4 (h.drop 8)]
  rw [d8]
  congr 1
  conv_lhs => rw [← List.take_append_drop 4 (h.drop 12)]
  rw [d12]
  congr 1
  conv_lhs => rw [← List.take_append_drop 4 (h.drop 16)]
  rw [d16]

theorem uuidToString_inj (u v : Fin (2 ^ 128)) (h : uuidToString u = uuidToString v) :
    u = v := by
  have hdata := congrArg String.data h
  simp only [uuidToString] at hdata
  set A := toHexPad u.val 32 with hA
  set B := toHexPad v.val 32 with hB
  have hAlen : A.length = 32 := toHexPad_length 32 u.val
  have hBlen : B.length = 32 := toHexPad_length 32 v.val
  have h1 := List.append_inj hdata (by rw [List.length_take, List.length_take, hAlen, hBlen])
  have h1c := h1.2
  simp only [List.cons.injEq] at h1c
  have h2 := List.append_inj h1c.2
    (by rw [List.length_take, List.length_take, List.length_drop, List.length_drop, hAlen, hBlen])
  have h2c := h2.2
  simp only [List.cons.injEq] at h2c
  have h3 := List.append_inj h2c.2
    (by rw [List.length_take, List.length_take, List.length_drop, List.length_drop, hAlen, hBlen])
  have h3c := h3.2
  simp only [List.cons.injEq] at h3c
  have h4 := List.append_inj h3c.2
    (by rw [List.length_take, List.length_take, List.length_drop, List.length_drop, hAlen, hBlen])
  have h4c := h4.2
  simp only [List.cons.injEq] at h4c
  have hAB : A = B := by
    rw [uuid_pieces A, uuid_pieces B, h1.1, h2.1, h3.1, h4.1, h4c.2]
  have hval : u.val = v.val := by
    refine toHexPad_inj 32 u.val v.val ?_ ?_ hAB
    · have : (16 : Nat) ^ 32 = 2 ^ 128 := by norm_num
      rw [this]; exact u.isLt
    · have : (16 : Nat) ^ 32 = 2 ^ 128 := by norm_num
      rw [this]; exact v.isLt
  exact Fin.ext hval

theorem jsonEscapeChar_x : jsonEscapeChar 'x' = ['x'] := by decide

theorem jsonEscape_replicate_x (n : Nat) :
    (jsonEscape ⟨List.replicate n 'x'⟩).length = n := by
  have : (List.replicate n 'x').flatMap jsonEscapeChar = List.replicate n 'x' := by
    induction n with
    | zero => rfl
    | succ n ih => simp [List.replicate_succ, List.flatMap_cons, jsonEscapeChar_x, ih]
  simp [jsonEscape, strLength_mk, this]

theorem canonical_objFam_length (h : String → Fin (2 ^ 128)) (n : Nat) :
    (canonicaliseObject (fxWithUuid h) (objFam n)).length = n + 8 := by
  have hfields : sortFieldsByKey ((objFam n).filter
      fun kv => ¬ (kv.1 = "@context" ∨ kv.1 = "@graph")) = objFam n := by
    rfl
  rw [canonicaliseObject, hfields]
  show (serializeJson _ (.obj [("a", Json.str ⟨List.replicate n 'x'⟩)])).length = n + 8
  have e1 : ("\x7b" : String).length = 1 := rfl
  have e2 : ("\x7d" : String).length = 1 := rfl
  have e3 : ("\"" : String).length = 1 := rfl
  have e4 : ("\":" : String).length = 2 := rfl
  have e5 : (jsonEscapeChar 'a').length = 1 := rfl
  have e6 : (jsonEscapeChar 'x').length = 1 := rfl
  simp [serializeJson, serializeJsonFields, String.length_append,
    jsonEscape, strLength_mk, e1, e2, e3, e4, e5, e6]
  omega

theorem canonical_objFam_ne (h : String → Fin (2 ^ 128)) {m n : Nat} (hmn : m ≠ n) :
    canonicaliseObject (fxWithUuid h) (objFam m) ≠
      canonicaliseObject (fxWithUuid h) (objFam n) := by
  intro he
  apply hmn
  have := congrArg String.length he
  rw [canonical_objFam_length, canonical_objFam_length] at this
  omega

/-! ## Claim theorems -/

theorem insertSorted_mem (lt : α → α → Bool) (a : α) :
    ∀ l, ∀ x ∈ insertSorted lt a l, x = a ∨ x ∈ l := by
  intro l
  induction l with
  | nil => simp [insertSorted]
  | cons b rest ih =>
    intro x hx
    rw [insertSorted] at hx
    by_cases h : lt a b = true
    · rw [if_pos h] at hx
      rcases List.mem_cons.mp hx with h2 | h2
      · left; exact h2
      · right; exact h2
    · rw [if_neg h] at hx
      rcases List.mem_cons.mp hx with h2 | h2
      · right; rw [h2]; exact List.mem_cons_self _ _
      · rcases ih x h2 with h3 | h3
        · left; exact h3
        · right; exact List.mem_cons_of_mem _ h3

theorem insertSorted_sorted_key (c : StrictCmp κ) (f : α → κ) (a : α) :
    ∀ l, (l.Pairwise fun x y => c.lt (f y) (f x) = false) →
    ((insertSorted (fun x y => c.lt (f x) (f y)) a l).Pairwise
      fun x y => c.lt (f y) (f x) = false) := by
  intro l
  induction l with
  | nil => simp [insertSorted]
  | cons b rest ih =>
    intro hp
    rw [List.pairwise_cons] at hp
    rw [insertSorted]
    by_cases h : c.lt (f a) (f b) = true
    · rw [if_pos h]
      refine List.Pairwise.cons ?_ (List.Pairwise.cons hp.1 hp.2)
      intro y hy
      rcases List.mem_cons.mp hy with rfl | h2
      · exact StrictCmp.lt_asymm c h
      · cases hya : c.lt (f y) (f a)
        · rfl
        · exact absurd (c.lt_trans _ _ _ hya h) (by simp [hp.1 y h2])
    · rw [if_neg h]
      refine List.Pairwise.cons ?_ (ih hp.2)
      intro y hy
      rcases insertSorted_mem _ a rest y hy with rfl | h2
      · exact Bool.eq_false_iff.mpr h
      · exact hp.1 y h2

theorem foldl_insertSorted_sorted_key (c : StrictCmp κ) (f : α → κ) :
    ∀ (l acc : List α), (acc.Pairwise fun x y => c.lt (f y) (f x) = false) →
    ((l.foldl (fun acc a => insertSorted (fun x y => c.lt (f x) (f y)) a acc) acc).Pairwise
      fun x y => c.lt (f y) (f x) = false) := by
  intro l
  induction l with
  | nil => intro acc h; exact h
  | cons a as ih =>
    intro acc h
    rw [List.foldl_cons]
    exact ih _ (insertSorted_sorted_key c f a acc h)

theorem stableSort_sorted_key (c : StrictCmp κ) (f : α → κ) (l : List α) :
    (stableSort (fun x y => c.lt (f x) (f y)) l).Pairwise
      fun x y => c.lt (f y) (f x) = false :=
  foldl_insertSorted_sorted_key c f l [] List.Pairwise.nil

theorem pairwise_strict_of_nodup (c : StrictCmp κ) (f : α → κ) :
    ∀ l : List α, (l.Pairwise fun x y => c.lt (f y) (f x) = false) →
    (l.map f).Nodup → ((l.map f).Pairwise fun a b => c.lt a b = true) := by
  intro l
  induction l with
  | nil => intro _ _; simp
  | cons x xs ih =>
    intro hp hd
    rw [List.pairwise_cons] at hp
    rw [List.map_cons, List.nodup_cons] at hd
    rw [List.map_cons]
    refine List.Pairwise.cons ?_ (ih hp.2 hd.2)
    intro b hb
    rw [List.mem_map] at hb
    obtain ⟨y, hy, rfl⟩ := hb
    cases hxy : c.lt (f x) (f y)
    · have heq := c.eq_of_nlt _ _ hxy (hp.1 y hy)
      have hmem := List.mem_map_of_mem f hy
      rw [← heq] at hmem
      exact absurd hmem hd.1
    · rfl

theorem insertSorted_perm (lt : α → α → Bool) (a : α) :
    ∀ l, List.Perm (insertSorted lt a l) (a :: l) := by
  intro l
  induction l with
  | nil => exact List.Perm.refl _
  | cons b rest ih =>
    rw [insertSorted]
    by_cases h : lt a b = true
    · rw [if_pos h]
    · rw [if_neg h]
      exact (ih.cons b).trans (List.Perm.swap a b rest)

theorem foldl_insertSorted_perm (lt : α → α → Bool) :
    ∀ (l acc : List α), List.Perm (l.foldl (fun acc a => insertSorted lt a acc) acc) (acc ++ l) := by
  intro l
  induction l with
  | nil => intro acc; simp
  | cons a as ih =>
    intro acc
    rw [List.foldl_cons]
    refine (ih (insertSorted lt a acc)).trans ?_
    refine (List.Perm.append_right as (insertSorted_perm lt a acc)).trans ?_
    exact List.perm_middle.symm

theorem stableSort_perm (lt : α → α → Bool) (l : List α) :
    List.Perm (stableSort lt l) l := by
  have h := foldl_insertSorted_perm lt l []
  simpa [stableSort] using h

theorem AccSorted_insert (nodes : List (NodeKey × Node)) (node : Node)
    (hacc : AccSorted nodes)
    (hty : SetSorted strCmp node.types) (hpr : MapSorted strCmp node.properties) :
    AccSorted (mapInsert nodeKeyCmp (node.graph, node.id) node nodes) := by
  refine ⟨mapInsert_sorted _ _ _ _ hacc.1, ?_, ?_⟩
  · intro e he
    rcases mapInsert_mem_pair _ _ _ _ e he with rfl | h
    · rfl
    · exact hacc.2.1 e h
  · intro e he
    rcases mapInsert_mem_pair _ _ _ _ e he with rfl | h
    · exact ⟨hty, hpr⟩
    · exact hacc.2.2 e h

theorem acc_node_base (nodes : List (NodeKey × Node)) (hacc : AccSorted nodes)
    (g : Option String) (i : String) :
    (((mapGet (g, i) nodes).getD (Node.withGraph i g)).setGraph g).id = i ∧
    (((mapGet (g, i) nodes).getD (Node.withGraph i g)).setGraph g).graph = g ∧
    SetSorted strCmp (((mapGet (g, i) nodes).getD (Node.withGraph i g)).setGraph g).types ∧
    MapSorted strCmp (((mapGet (g, i) nodes).getD (Node.withGraph i g)).setGraph g).properties := by
  cases hma : mapGet (g, i) nodes with
  | none =>
    exact ⟨rfl, rfl, List.Pairwise.nil, List.Pairwise.nil⟩
  | some n =>
    have hm := mapGet_mem _ _ _ hma
    have hag := hacc.2.1 _ hm
    have hs := hacc.2.2 _ hm
    exact ⟨(congrArg Prod.snd hag).symm, rfl, hs.1, hs.2⟩

theorem mergeProperty_parts (node : Node) (pred : String) (value : PropertyValue)
    (hp : MapSorted strCmp node.properties) :
    (mergeProperty node pred value).id = node.id ∧
    (mergeProperty node pred value).graph = node.graph ∧
    (mergeProperty node pred value).types = node.types ∧
    MapSorted strCmp (mergeProperty node pred value).properties := by
  rw [mergeProperty]
  split
  · exact ⟨rfl, rfl, rfl, mapInsert_sorted strCmp pred value node.properties hp⟩
  · exact ⟨rfl, rfl, rfl, mapInsert_sorted strCmp pred _ node.properties hp⟩

theorem processQuad_sorted (fx : ExternalFns) (acc : List (NodeKey × Node)) (quad : Quad)
    (out : List (NodeKey × Node)) (hacc : AccSorted acc)
    (h : processQuad fx acc quad = .ok out) : AccSorted out := by
  simp only [processQuad] at h
  revert h
  generalize hB : ((mapGet (graphNameToString quad.graph, subjectToId quad.subject) acc).getD
    (Node.withGraph (subjectToId quad.subject) (graphNameToString quad.graph))).setGraph
    (graphNameToString quad.graph) = B
  intro h
  have hbase := acc_node_base acc hacc (graphNameToString quad.graph) (subjectToId quad.subject)
  rw [hB] at hbase
  obtain ⟨hid, hgr, hty, hpr⟩ := hbase
  split at h
  · split at h
    · rename_i iri heq
      injection h with h2
      subst h2
      have hkey : ((graphNameToString quad.graph, subjectToId quad.subject) : NodeKey) =
          ((B.insertType iri).graph, (B.insertType iri).id) := by
        simp [Node.insertType, hgr, hid]
      rw [hkey]
      exact AccSorted_insert acc _ hacc (setInsert_sorted strCmp iri B.types hty) hpr
    · injection h with h2
      subst h2
      have hkey : ((graphNameToString quad.graph, subjectToId quad.subject) : NodeKey) =
          (B.graph, B.id) := by
        rw [hgr, hid]
      rw [hkey]
      exact AccSorted_insert acc B hacc hty hpr
  · split at h
    · exact Except.noConfusion h
    · rename_i property hterm
      injection h with h2
      subst h2
      obtain ⟨hmid, hmgr, hmty, hmpr⟩ := mergeProperty_parts B quad.predicate property hpr
      have hkey : ((graphNameToString quad.graph, subjectToId quad.subject) : NodeKey) =
          ((mergeProperty B quad.predicate property).graph,
            (mergeProperty B quad.predicate property).id) := by
        rw [hmid, hmgr, hgr, hid]
      rw [hkey]
      refine AccSorted_insert acc _ hacc ?_ hmpr
      rw [hmty]
      exact hty

theorem quadsFold_sorted (fx : ExternalFns) :
    ∀ (quads : List Quad) (acc out : List (NodeKey × Node)),
    AccSorted acc → quadsFold fx quads acc = .ok out → AccSorted out := by
  intro quads
  induction quads with
  | nil =>
    intro acc out hacc h
    simp only [quadsFold] at h
    injection h with h2
    subst h2
    exact hacc
  | cons quad rest ih =>
    intro acc out hacc h
    simp only [quadsFold] at h
    split at h
    · exact Except.noConfusion h
    · rename_i acc1 heq
      exact ih acc1 out (processQuad_sorted fx acc quad acc1 hacc heq) h

theorem accSorted_output (acc : List (NodeKey × Node)) (hacc : AccSorted acc) :
    SortedNodeList (acc.map (·.2)) := by
  constructor
  · rw [List.map_map]
    have hmc : acc.map ((fun n => (n.graph, n.id)) ∘ (·.2)) = acc.map (·.1) := by
      apply List.map_congr_left
      intro e he
      exact (hacc.2.1 e he).symm
    rw [hmc, List.pairwise_map]
    exact hacc.1
  · intro n hn
    rw [List.mem_map] at hn
    obtain ⟨e, he, rfl⟩ := hn
    exact hacc.2.2 e he

theorem readRdfQuads_sorted (fx : ExternalFns) (quads : List Quad) (out : List Node)
    (h : readRdfQuads fx quads = .ok out) : SortedNodeList out := by
  rw [readRdfQuads] at h
  split at h
  · exact Except.noConfusion h
  · rename_i acc hfold
    injection h with h2
    subst h2
    exact accSorted_output acc
      (quadsFold_sorted fx quads [] acc ⟨List.Pairwise.nil, by simp, by simp⟩ hfold)

theorem insertTypeFold_parts (fx : ExternalFns) (context : Option ActiveContext) :
    ∀ (entries : List Json) (node : Node), SetSorted strCmp node.types →
    ((entries.foldl (fun nd entry =>
        match entry.asStr with
        | some v => nd.insertType (expandTerm fx context v)
        | none => nd) node).id = node.id ∧
      (entries.foldl (fun nd entry =>
        match entry.asStr with
        | some v => nd.insertType (expandTerm fx context v)
        | none => nd) node).graph = node.graph ∧
      (entries.foldl (fun nd entry =>
        match entry.asStr with
        | some v => nd.insertType (expandTerm fx context v)
        | none => nd) node).properties = node.properties ∧
      SetSorted strCmp (entries.foldl (fun nd entry =>
        match entry.asStr with
        | some v => nd.insertType (expandTerm fx context v)
        | none => nd) node).types) := by
  intro entries
  induction entries with
  | nil => intro node hty; exact ⟨rfl, rfl, rfl, hty⟩
  | cons entry rest ih =>
    intro node hty
    rw [List.foldl_cons]
    cases hstr : entry.asStr with
    | some v =>
      have h2 := ih (node.insertType (expandTerm fx context v))
        (setInsert_sorted strCmp _ node.types hty)
      exact ⟨h2.1, h2.2.1, h2.2.2.1, h2.2.2.2⟩
    | none => exact ih node hty

theorem parseTypeEntries_parts (fx : ExternalFns) (context : Option ActiveContext)
    (node : Node) (j : Json) (node1 : Node) (hty : SetSorted strCmp node.types)
    (h : parseTypeEntries fx context node j = .ok node1) :
    node1.id = node.id ∧ node1.graph = node.graph ∧ node1.properties = node.properties ∧
    SetSorted strCmp node1.types := by
  cases j with
  | arr entries =>
    simp only [parseTypeEntries] at h
    injection h with h2
    subst h2
    exact insertTypeFold_parts fx context entries node hty
  | str v =>
    simp only [parseTypeEntries] at h
    injection h with h2
    subst h2
    exact ⟨rfl, rfl, rfl, setInsert_sorted strCmp _ node.types hty⟩
  | null => exact Except.noConfusion h
  | bool b => exact Except.noConfusion h
  | num q => exact Except.noConfusion h
  | obj fields => exact Except.noConfusion h

theorem nodePropsFold_parts (fx : ExternalFns) (context : Option ActiveContext) :
    ∀ (kvs : List (String × Json)) (node node1 : Node),
    SetSorted strCmp node.types → MapSorted strCmp node.properties →
    nodePropsFold fx context kvs node = .ok node1 →
    node1.id = node.id ∧ node1.graph = node.graph ∧
    SetSorted strCmp node1.types ∧ MapSorted strCmp node1.properties := by
  intro kvs
  induction kvs with
  | nil =>
    intro node node1 hty hpr h
    simp only [nodePropsFold] at h
    injection h with h2
    subst h2
    exact ⟨rfl, rfl, hty, hpr⟩
  | cons kv rest ih =>
    intro node node1 hty hpr h
    simp only [nodePropsFold] at h
    split at h
    · exact ih node node1 hty hpr h
    · split at h
      · exact Except.noConfusion h
      · rename_i pv hpv
        exact ih (node.insertProperty (expandTerm fx context kv.1) pv) node1 hty
          (mapInsert_sorted strCmp _ pv node.properties hpr) h

theorem parseNodeObject_sorted (fx : ExternalFns) (object : List (String × Json))
    (activeGraph : Option String) (context : Option ActiveContext)
    (nodes out : List (NodeKey × Node)) (hacc : AccSorted nodes)
    (h : parseNodeObject fx object activeGraph context nodes = .ok out) : AccSorted out := by
  simp only [parseNodeObject] at h
  obtain ⟨h1, h2, h3, h4⟩ := acc_node_base nodes hacc activeGraph
    (if ((jGet object "@id").bind Json.asStr).getD (generateSurrogateId fx object) = ""
     then generateSurrogateId fx object
     else ((jGet object "@id").bind Json.asStr).getD (generateSurrogateId fx object))
  split at h
  · exact Except.noConfusion h
  · rename_i node1 htype
    split at h
    · exact Except.noConfusion h
    · rename_i node2 hprops
      injection h with h5
      subst h5
      split at htype
      · rename_i types hjt
        obtain ⟨a, b, c, d⟩ := parseTypeEntries_parts fx context _ types node1 h3 htype
        obtain ⟨e2, f2, g2, i2⟩ := nodePropsFold_parts fx context (sortFieldsByKey object)
          node1 node2 d (by rw [c]; exact h4) hprops
        have hkey2 : ((activeGraph,
            if ((jGet object "@id").bind Json.asStr).getD (generateSurrogateId fx object) = ""
            then generateSurrogateId fx object
            else ((jGet object "@id").bind Json.asStr).getD (generateSurrogateId fx object)) :
              NodeKey) = (node2.graph, node2.id) := by
          rw [f2, e2, b, a, h2, h1]
        rw [hkey2]
        exact AccSorted_insert nodes node2 hacc g2 i2
      · injection htype with h6
        subst h6
        obtain ⟨e2, f2, g2, i2⟩ := nodePropsFold_parts fx context (sortFieldsByKey object)
          _ node2 h3 h4 hprops
        have hkey2 : ((activeGraph,
            if ((jGet object "@id").bind Json.asStr).getD (generateSurrogateId fx object) = ""
            then generateSurrogateId fx object
            else ((jGet object "@id").bind Json.asStr).getD (generateSurrogateId fx object)) :
              NodeKey) = (node2.graph, node2.id) := by
          rw [f2, e2, h2, h1]
        rw [hkey2]
        exact AccSorted_insert nodes node2 hacc g2 i2

theorem parseMut_sorted (fx : ExternalFns) : ∀ n : Nat,
    (∀ (values : List Json) (g : Option String) (ctx : Option ActiveContext)
      (nodes out : List (NodeKey × Node)), sizeOf values ≤ n → AccSorted nodes →
      parseEntryList fx values g ctx nodes = .ok out → AccSorted out) ∧
    (∀ (value : Json) (g : Option String) (ctx : Option ActiveContext)
      (nodes out : List (NodeKey × Node)), sizeOf value ≤ n → AccSorted nodes →
      parseEntry fx value g ctx nodes = .ok out → AccSorted out) ∧
    (∀ (value : Json) (g : Option String) (ctx : Option ActiveContext)
      (nodes out : List (NodeKey × Node)), sizeOf value ≤ n → AccSorted nodes →
      parseGraph fx value g ctx nodes = .ok out → AccSorted out) := by
  intro n
  induction n using Nat.strong_induction_on with
  | _ n ih =>
    have hEL : ∀ (values : List Json) (g : Option String) (ctx : Option ActiveContext)
        (nodes out : List (NodeKey × Node)), sizeOf values ≤ n → AccSorted nodes →
        parseEntryList fx values g ctx nodes = .ok out → AccSorted out := by
      intro values g ctx nodes out hsz hacc h
      cases values with
      | nil =>
        simp only [parseEntryList] at h
        injection h with h2
        subst h2
        exact hacc
      | cons item rest =>
        simp only [parseEntryList] at h
        split at h
        · exact Except.noConfusion h
        · rename_i nodes1 hitem
          have hcs : sizeOf (item :: rest) = 1 + sizeOf item + sizeOf rest := by simp
          have hacc1 := (ih (sizeOf item) (by omega)).2.1 item g ctx nodes nodes1
            (le_refl _) hacc hitem
          exact (ih (sizeOf rest) (by omega)).1 rest g ctx nodes1 out (le_refl _) hacc1 h
    have hE : ∀ (value : Json) (g : Option String) (ctx : Option ActiveContext)
        (nodes out : List (NodeKey × Node)), sizeOf value ≤ n → AccSorted nodes →
        parseEntry fx value g ctx nodes = .ok out → AccSorted out := by
      intro value g ctx nodes out hsz hacc h
      cases value with
      | obj object =>
        simp only [parseEntry] at h
        split at h
        · exact Except.noConfusion h
        · rename_i contextToUse hctxv
          split at h
          · rename_i graphValue hjg
            split at h
            · exact Except.noConfusion h
            · rename_i nodes1 hpg
              have hos : sizeOf (Json.obj object) = 1 + sizeOf object := by simp
              have hjs := jGet_size_lt object "@graph" graphValue hjg
              have hacc1 := (ih (sizeOf graphValue) (by omega)).2.2 graphValue _ contextToUse
                nodes nodes1 (le_refl _) hacc hpg
              split at h
              · exact parseNodeObject_sorted fx object g contextToUse nodes1 out hacc1 h
              · injection h with h2
                subst h2
                exact hacc1
          · exact parseNodeObject_sorted fx object g contextToUse nodes out hacc h
      | arr values =>
        simp only [parseEntry] at h
        have hos : sizeOf (Json.arr values) = 1 + sizeOf values := by simp
        exact (ih (sizeOf values) (by omega)).1 values g ctx nodes out (le_refl _) hacc h
      | null =>
        simp only [parseEntry] at h
        exact Except.noConfusion h
      | bool b =>
        simp only [parseEntry] at h
        exact Except.noConfusion h
      | num q =>
        simp only [parseEntry] at h
        exact Except.noConfusion h
      | str s =>
        simp only [parseEntry] at h
        exact Except.noConfusion h
    have hG : ∀ (value : Json) (g : Option String) (ctx : Option ActiveContext)
        (nodes out : List (NodeKey × Node)), sizeOf value ≤ n → AccSorted nodes →
        parseGraph fx value g ctx nodes = .ok out → AccSorted out := by
      intro value g ctx nodes out hsz hacc h
      cases value with
      | arr items =>
        simp only [parseGraph] at h
        have hos : sizeOf (Json.arr items) = 1 + sizeOf items := by simp
        exact hEL items g ctx nodes out (by omega) hacc h
      | obj fields =>
        simp only [parseGraph] at h
        exact hE (.obj fields) g ctx nodes out hsz hacc h
      | null =>
        simp only [parseGraph] at h
        injection h with h2
        subst h2
        exact hacc
      | bool b =>
        simp only [parseGraph] at h
        exact Except.noConfusion h
      | num q =>
        simp only [parseGraph] at h
        exact Except.noConfusion h
      | str s =>
        simp only [parseGraph] at h
        exact Except.noConfusion h
    exact ⟨hEL, hE, hG⟩

theorem parseJsonldDocument_sorted (fx : ExternalFns) (doc : Json) (out : List Node)
    (h : parseJsonldDocument fx doc = .ok out) : SortedNodeList out := by
  cases doc with
  | arr items =>
    simp only [parseJsonldDocument] at h
    split at h
    · exact Except.noConfusion h
    · rename_i nodes hinner
      injection h with h2
      subst h2
      exact accSorted_output nodes ((parseMut_sorted fx (sizeOf items)).1 items none none []
        nodes (le_refl _) ⟨List.Pairwise.nil, by simp, by simp⟩ hinner)
  | obj map =>
    simp only [parseJsonldDocument] at h
    split at h
    · exact Except.noConfusion h
    · rename_i nodes hinner
      injection h with h2
      subst h2
      refine accSorted_output nodes ?_
      split at hinner
      · exact Except.noConfusion hinner
      · rename_i baseContext hbc
        exact (parseMut_sorted fx (sizeOf (Json.obj map))).2.1 (.obj map) none baseContext []
          nodes (le_refl _) ⟨List.Pairwise.nil, by simp, by simp⟩ hinner
  | null =>
    simp only [parseJsonldDocument] at h
    exact Except.noConfusion h
  | bool b =>
    simp only [parseJsonldDocument] at h
    exact Except.noConfusion h
  | num q =>
    simp only [parseJsonldDocument] at h
    exact Except.noConfusion h
  | str s =>
    simp only [parseJsonldDocument] at h
    exact Except.noConfusion h

theorem AccSorted_insert_key (nodes : List (NodeKey × Node)) (hacc : AccSorted nodes)
    (key : NodeKey) (node : Node) (hkey : key = (node.graph, node.id))
    (hty : SetSorted strCmp node.types) (hpr : MapSorted strCmp node.properties) :
    AccSorted (mapInsert nodeKeyCmp key node nodes) := by
  rw [hkey]
  exact AccSorted_insert nodes node hacc hty hpr

theorem ensureNode_parts (nodes : List (NodeKey × Node)) (hacc : AccSorted nodes)
    (id rawGraph : String) :
    (ensureNode nodes id rawGraph).2.id = id ∧
    (ensureNode nodes id rawGraph).2.graph = normalizeOptional rawGraph ∧
    SetSorted strCmp (ensureNode nodes id rawGraph).2.types ∧
    MapSorted strCmp (ensureNode nodes id rawGraph).2.properties ∧
    (ensureNode nodes id rawGraph).1 = (normalizeOptional rawGraph, id) := by
  obtain ⟨h1, h2, h3, h4⟩ := acc_node_base nodes hacc (normalizeOptional rawGraph) id
  exact ⟨h1, h2, h3, h4, rfl⟩

theorem initializeNodesRows_sorted : ∀ (rows : List (List String)) (nodes : List (NodeKey × Node)),
    AccSorted nodes → AccSorted (initializeNodesRows rows nodes) := by
  intro rows
  induction rows with
  | nil => intro nodes hacc; exact hacc
  | cons row rest ih =>
    intro nodes hacc
    simp only [initializeNodesRows]
    split
    · exact ih nodes hacc
    · obtain ⟨e1, e2, e3, e4, e5⟩ := ensureNode_parts nodes hacc (stringAt row 0) (stringAt row 2)
      refine ih _ ?_
      split
      · refine AccSorted_insert_key nodes hacc _ _ ?_
          (setInsert_sorted strCmp _ _ e3) e4
        have hg : ((ensureNode nodes (stringAt row 0) (stringAt row 2)).2.insertType
            (stringAt row 1)).graph = normalizeOptional (stringAt row 2) := e2
        have hi : ((ensureNode nodes (stringAt row 0) (stringAt row 2)).2.insertType
            (stringAt row 1)).id = stringAt row 0 := e1
        rw [e5, hg, hi]
      · refine AccSorted_insert_key nodes hacc _ _ ?_ e3 e4
        rw [e5, e2, e1]

theorem typeSheetCellsFold_parts (fx : ExternalFns) (headers : List String) :
    ∀ (cells : List (Nat × String)) (node node1 : Node),
    SetSorted strCmp node.types → MapSorted strCmp node.properties →
    typeSheetCellsFold fx headers cells node = .ok node1 →
    node1.id = node.id ∧ node1.graph = node.graph ∧ SetSorted strCmp node1.types ∧
    MapSorted strCmp node1.properties := by
  intro cells
  induction cells with
  | nil =>
    intro node node1 hty hpr h
    simp only [typeSheetCellsFold] at h
    injection h with h2
    subst h2
    exact ⟨rfl, rfl, hty, hpr⟩
  | cons cell rest ih =>
    intro node node1 hty hpr h
    simp only [typeSheetCellsFold] at h
    split at h
    · exact ih node node1 hty hpr h
    · split at h
      · exact ih node node1 hty hpr h
      · split at h
        · exact ih node node1 hty hpr h
        · split at h
          · exact Except.noConfusion h
          · rename_i pp hpp
            exact ih (node.insertProperty pp.1 pp.2) node1 hty
              (mapInsert_sorted strCmp _ _ node.properties hpr) h

theorem ingestTypeSheetRows_sorted (fx : ExternalFns) (headers : List String)
    (typeName : String) : ∀ (rows : List (List String)) (nodes out : List (NodeKey × Node)),
    AccSorted nodes → ingestTypeSheetRows fx headers typeName rows nodes = .ok out →
    AccSorted out := by
  intro rows
  induction rows with
  | nil =>
    intro nodes out hacc h
    simp only [ingestTypeSheetRows] at h
    injection h with h2
    subst h2
    exact hacc
  | cons row rest ih =>
    intro nodes out hacc h
    simp only [ingestTypeSheetRows] at h
    split at h
    · exact ih nodes out hacc h
    · split at h
      · exact Except.noConfusion h
      · rename_i node1 hcells
        obtain ⟨e1, e2, e3, e4, e5⟩ := ensureNode_parts nodes hacc (stringAt row 0) (stringAt row 1)
        split at hcells
        · obtain ⟨a, b, c, d⟩ := typeSheetCellsFold_parts fx headers (row.enum.drop 2)
            ((ensureNode nodes (stringAt row 0) (stringAt row 1)).2.insertType typeName) node1
            (setInsert_sorted strCmp typeName _ e3) e4 hcells
          have a2 : node1.id = stringAt row 0 := a.trans e1
          have b2 : node1.graph = normalizeOptional (stringAt row 1) := b.trans e2
          exact ih _ out (AccSorted_insert_key nodes hacc _ node1 (by rw [e5, b2, a2]) c d) h
        · obtain ⟨a, b, c, d⟩ := typeSheetCellsFold_parts fx headers (row.enum.drop 2)
            (ensureNode nodes (stringAt row 0) (stringAt row 1)).2 node1 e3 e4 hcells
          have a2 : node1.id = stringAt row 0 := a.trans e1
          have b2 : node1.graph = normalizeOptional (stringAt row 1) := b.trans e2
          exact ih _ out (AccSorted_insert_key nodes hacc _ node1 (by rw [e5, b2, a2]) c d) h

theorem ingestTypeSheet_sorted (fx : ExternalFns) (range : List (List String))
    (typeName : String) (nodes out : List (NodeKey × Node)) (hacc : AccSorted nodes)
    (h : ingestTypeSheet fx range typeName nodes = .ok out) : AccSorted out := by
  simp only [ingestTypeSheet] at h
  split at h
  · injection h with h2
    subst h2
    exact hacc
  · exact ingestTypeSheetRows_sorted fx _ typeName (range.drop 1) nodes out hacc h

theorem ingestChildRows_sorted (predicate : String) (hasGraphColumn : Bool) :
    ∀ (rows : List (List String)) (nodes out : List (NodeKey × Node)),
    AccSorted nodes → ingestChildRows predicate hasGraphColumn rows nodes = .ok out →
    AccSorted out := by
  intro rows
  induction rows with
  | nil =>
    intro nodes out hacc h
    simp only [ingestChildRows] at h
    injection h with h2
    subst h2
    exact hacc
  | cons row rest ih =>
    intro nodes out hacc h
    simp only [ingestChildRows] at h
    revert h
    generalize (if hasGraphColumn = true then (2 : Nat) else 1) = tIdx
    generalize (if hasGraphColumn = true then stringAt row 1 else "") = rg
    intro h
    split at h
    · exact ih nodes out hacc h
    · obtain ⟨e1, e2, e3, e4, e5⟩ := ensureNode_parts nodes hacc (stringAt row 0) rg
      split at h
      · rename_i ids hm
        refine ih _ out (AccSorted_insert_key nodes hacc _
          ((ensureNode nodes (stringAt row 0) rg).2.insertProperty predicate
            (.array (.objectRefs (ids ++ [stringAt row tIdx])))) ?_ e3
          (mapInsert_sorted strCmp predicate _ _ e4)) h
        have hg : ((ensureNode nodes (stringAt row 0) rg).2.insertProperty predicate
            (.array (.objectRefs (ids ++ [stringAt row tIdx])))).graph =
            normalizeOptional rg := e2
        have hi : ((ensureNode nodes (stringAt row 0) rg).2.insertProperty predicate
            (.array (.objectRefs (ids ++ [stringAt row tIdx])))).id = stringAt row 0 := e1
        rw [e5, hg, hi]
      · exact Except.noConfusion h
      · refine ih _ out (AccSorted_insert_key nodes hacc _
          ((ensureNode nodes (stringAt row 0) rg).2.insertProperty predicate
            (.array (.objectRefs [stringAt row tIdx]))) ?_ e3
          (mapInsert_sorted strCmp predicate _ _ e4)) h
        have hg : ((ensureNode nodes (stringAt row 0) rg).2.insertProperty predicate
            (.array (.objectRefs [stringAt row tIdx]))).graph = normalizeOptional rg := e2
        have hi : ((ensureNode nodes (stringAt row 0) rg).2.insertProperty predicate
            (.array (.objectRefs [stringAt row tIdx]))).id = stringAt row 0 := e1
        rw [e5, hg, hi]

theorem ingestChildSheet_sorted (range : List (List String)) (predicate : String)
    (nodes out : List (NodeKey × Node)) (hacc : AccSorted nodes)
    (h : ingestChildSheet range predicate nodes = .ok out) : AccSorted out := by
  simp only [ingestChildSheet] at h
  exact ingestChildRows_sorted predicate _ (range.drop 1) nodes out hacc h

theorem typeSheetsFold_sorted (fx : ExternalFns) (wb : WorkbookData) :
    ∀ (sheets : List (String × String)) (nodes out : List (NodeKey × Node)),
    AccSorted nodes → typeSheetsFold fx wb sheets nodes = .ok out → AccSorted out := by
  intro sheets
  induction sheets with
  | nil =>
    intro nodes out hacc h
    simp only [typeSheetsFold] at h
    injection h with h2
    subst h2
    exact hacc
  | cons ts rest ih =>
    intro nodes out hacc h
    simp only [typeSheetsFold] at h
    split at h
    · exact Except.noConfusion h
    · rename_i range hr
      split at h
      · exact Except.noConfusion h
      · rename_i nodes1 hin
        exact ih nodes1 out (ingestTypeSheet_sorted fx range ts.2 nodes nodes1 hacc hin) h

theorem childSheetsFold_sorted (wb : WorkbookData) :
    ∀ (sheets : List (String × (String × String))) (nodes out : List (NodeKey × Node)),
    AccSorted nodes → childSheetsFold wb sheets nodes = .ok out → AccSorted out := by
  intro sheets
  induction sheets with
  | nil =>
    intro nodes out hacc h
    simp only [childSheetsFold] at h
    injection h with h2
    subst h2
    exact hacc
  | cons cs rest ih =>
    intro nodes out hacc h
    simp only [childSheetsFold] at h
    split at h
    · exact Except.noConfusion h
    · rename_i range hr
      split at h
      · exact Except.noConfusion h
      · rename_i nodes1 hin
        exact ih nodes1 out (ingestChildSheet_sorted range cs.2.2 nodes nodes1 hacc hin) h

theorem readNodes_sorted (fx : ExternalFns) (wb : WorkbookData) (out : List Node)
    (h : readNodes fx wb = .ok out) : SortedNodeList out := by
  simp only [readNodes] at h
  split at h
  · exact Except.noConfusion h
  · rename_i metadataRange hmr
    split at h
    · exact Except.noConfusion h
    · rename_i entitiesRange her
      split at h
      · exact Except.noConfusion h
      · rename_i sheets hpm
        split at h
        · exact Except.noConfusion h
        · rename_i nodes1 htf
          split at h
          · exact Except.noConfusion h
          · rename_i nodes2 hcf
            injection h with h2
            subst h2
            have hacc0 : AccSorted (initializeNodesRows (entitiesRange.drop 1) []) :=
              initializeNodesRows_sorted _ [] ⟨List.Pairwise.nil, by simp, by simp⟩
            have hacc1 := typeSheetsFold_sorted fx wb sheets.1 _ nodes1 hacc0 htf
            have hacc2 := childSheetsFold_sorted wb sheets.2 nodes1 nodes2 hacc1 hcf
            constructor
            · apply pairwise_strict_of_nodup nodeKeyCmp (fun n : Node => (n.graph, n.id))
              · exact stableSort_sorted_key nodeKeyCmp (fun n : Node => (n.graph, n.id))
                  (nodes2.map (·.2))
              · have hperm := (stableSort_perm
                  (fun n1 n2 => nodeKeyCmp.lt (n1.graph, n1.id) (n2.graph, n2.id))
                  (nodes2.map (·.2))).map (fun n : Node => (n.graph, n.id))
                refine hperm.nodup_iff.mpr ?_
                rw [List.map_map]
                have hmc : nodes2.map ((fun n : Node => (n.graph, n.id)) ∘ (·.2)) = nodes2.map (·.1) := by
                  apply List.map_congr_left
                  intro e he
                  exact (hacc2.2.1 e he).symm
                rw [hmc]
                have hpw : (nodes2.map (·.1)).Pairwise (fun a b => nodeKeyCmp.lt a b = true) := by
                  rw [List.pairwise_map]
                  exact hacc2.1
                refine hpw.imp ?_
                intro a b hab heq
                rw [heq] at hab
                rw [nodeKeyCmp.lt_irrefl b] at hab
                exact Bool.noConfusion hab
            · intro n hn
              have hmem := (stableSort_perm
                (fun n1 n2 => nodeKeyCmp.lt (n1.graph, n1.id) (n2.graph, n2.id))
                (nodes2.map (·.2))).subset hn
              rw [List.mem_map] at hmem
              obtain ⟨e, he, rfl⟩ := hmem
              exact hacc2.2.2 e he

theorem contains_iff_mem_str (l : List String) (a : String) : l.contains a = true ↔ a ∈ l := by
  simp

theorem trimChars_subset (l : List Char) : ∀ x ∈ trimChars l, x ∈ l := by
  intro x hx
  rw [trimChars, List.mem_reverse] at hx
  have h1 := (List.dropWhile_sublist _).subset hx
  rw [List.mem_reverse] at h1
  exact (List.dropWhile_sublist _).subset h1

theorem sanitizeSheetName_data (raw : String) :
    (sanitizeSheetName raw).data =
      (if (trimChars (raw.data.map fun ch => if isInvalidSheetChar ch then '_' else ch)).isEmpty
        then "Sheet".data
        else trimChars (raw.data.map fun ch => if isInvalidSheetChar ch then '_' else ch)).take
        31 := rfl

theorem sanitizeSheetName_chars (raw : String) :
    ∀ c ∈ (sanitizeSheetName raw).data, isInvalidSheetChar c = false := by
  intro c hc
  rw [sanitizeSheetName_data] at hc
  have hc2 := List.mem_of_mem_take hc
  split at hc2
  · have hall : ∀ x ∈ "Sheet".data, isInvalidSheetChar x = false := by decide
    exact hall c hc2
  · have h3 := trimChars_subset _ c hc2
    rw [List.mem_map] at h3
    obtain ⟨ch, _, heq⟩ := h3
    by_cases hv : isInvalidSheetChar ch = true
    · rw [if_pos hv] at heq
      subst heq
      decide
    · rw [if_neg hv] at heq
      subst heq
      exact Bool.eq_false_iff.mpr hv

theorem sanitizeSheetName_length (raw : String) : (sanitizeSheetName raw).length ≤ 31 := by
  show (sanitizeSheetName raw).data.length ≤ 31
  rw [sanitizeSheetName_data, List.length_take]
  exact Nat.min_le_left _ _

theorem natDecimal_digit_chars : ∀ (n : Nat), ∀ c ∈ natDecimal n,
    c ≠ '_' ∧ isInvalidSheetChar c = false := by
  intro n c hc
  rw [natDecimal] at hc
  split at hc
  · simp only [List.mem_singleton] at hc
    subst hc
    exact ⟨by decide, by decide⟩
  · rw [List.mem_reverse, List.mem_map] at hc
    obtain ⟨d, hd, heq⟩ := hc
    have hlt : d < 10 := Nat.digits_lt_base (by norm_num) hd
    subst heq
    have hall : ∀ d < 10, Nat.digitChar d ≠ '_' ∧ isInvalidSheetChar (Nat.digitChar d) = false := by
      decide
    exact hall d hlt

theorem natDecimal_ne_singleton_zero (k : Nat) (hk : k ≠ 0) : natDecimal k ≠ ['0'] := by
  intro h
  rw [natDecimal, if_neg hk] at h
  have h2 : (Nat.digits 10 k).map Nat.digitChar = ['0'] := by
    have h3 := congrArg List.reverse h
    simpa using h3
  cases hd : Nat.digits 10 k with
  | nil => rw [hd] at h2; simp at h2
  | cons d ds =>
    cases ds with
    | cons e es => rw [hd] at h2; simp at h2
    | nil =>
      rw [hd] at h2
      simp only [List.map_cons, List.map_nil, List.cons.injEq, and_true] at h2
      have hlt : d < 10 :=
        Nat.digits_lt_base (by norm_num) (by rw [hd]; exact List.mem_cons_self _ _)
      have hzo : ∀ x < 10, Nat.digitChar x = '0' → x = 0 := by decide
      have hd0 : d = 0 := hzo d hlt h2
      have hofd := Nat.ofDigits_digits 10 k
      rw [hd, hd0] at hofd
      simp [Nat.ofDigits] at hofd
      exact hk hofd.symm

theorem natDecimal_inj (m n : Nat) (h : natDecimal m = natDecimal n) : m = n := by
  have hmap : ∀ l1 l2 : List Nat, (∀ x ∈ l1, x < 10) → (∀ x ∈ l2, x < 10) →
      l1.map Nat.digitChar = l2.map Nat.digitChar → l1 = l2 := by
    intro l1
    induction l1 with
    | nil =>
      intro l2 _ _ h2
      cases l2 with
      | nil => rfl
      | cons b bs => simp at h2
    | cons a as ih =>
      intro l2 h1 h2 h3
      cases l2 with
      | nil => simp at h3
      | cons b bs =>
        simp only [List.map_cons, List.cons.injEq] at h3
        have ha : a < 10 := h1 a (List.mem_cons_self _ _)
        have hb : b < 10 := h2 b (List.mem_cons_self _ _)
        have hchar : ∀ x < 10, ∀ y < 10, Nat.digitChar x = Nat.digitChar y → x = y := by decide
        have hab := hchar a ha b hb h3.1
        rw [hab, ih bs (fun x hx => h1 x (List.mem_cons_of_mem _ hx))
          (fun x hx => h2 x (List.mem_cons_of_mem _ hx)) h3.2]
  by_cases hm : m = 0 <;> by_cases hn : n = 0
  · rw [hm, hn]
  · rw [hm] at h
    exact absurd h.symm (natDecimal_ne_singleton_zero n hn)
  · rw [hn] at h
    exact absurd h (natDecimal_ne_singleton_zero m hm)
  · rw [natDecimal, natDecimal, if_neg hm, if_neg hn] at h
    have h2 := List.reverse_injective h
    have h3 := hmap _ _ (fun x hx => Nat.digits_lt_base (by norm_num) hx)
      (fun x hx => Nat.digits_lt_base (by norm_num) hx) h2
    have h4 := congrArg (Nat.ofDigits 10) h3
    rwa [Nat.ofDigits_digits, Nat.ofDigits_digits] at h4

theorem natDecimal_length_le (n : Nat) (h : n < 10 ^ 30) : (natDecimal n).length ≤ 30 := by
  rw [natDecimal]
  split
  · simp
  · rename_i hn
    simp only [List.length_reverse, List.length_map]
    rw [Nat.digits_len 10 n (by norm_num) hn]
    have h2 := Nat.log_lt_of_lt_pow hn h
    omega

theorem underscore_split : ∀ (a b x y : List Char), (∀ c ∈ a, c ≠ '_') → (∀ c ∈ b, c ≠ '_') →
    a ++ '_' :: x = b ++ '_' :: y → a = b ∧ x = y := by
  intro a
  induction a with
  | nil =>
    intro b x y _ hb h
    cases b with
    | nil =>
      simp only [List.nil_append] at h
      injection h with h1 h2
      exact ⟨rfl, h2⟩
    | cons b0 bs =>
      simp only [List.nil_append, List.cons_append] at h
      injection h with h1 h2
      exact absurd h1.symm (hb b0 (List.mem_cons_self _ _))
  | cons a0 as ih =>
    intro b x y ha hb h
    cases b with
    | nil =>
      simp only [List.cons_append, List.nil_append] at h
      injection h with h1 h2
      exact absurd h1 (ha a0 (List.mem_cons_self _ _))
    | cons b0 bs =>
      simp only [List.cons_append] at h
      injection h with h1 h2
      obtain ⟨h3, h4⟩ := ih bs x y (fun c hc => ha c (List.mem_cons_of_mem _ hc))
        (fun c hc => hb c (List.mem_cons_of_mem _ hc)) h2
      exact ⟨by rw [h1, h3], h4⟩

theorem mkCandidate_data (base : String) (counter : Nat) :
    (mkCandidate base counter).data =
      base.data.take (31 - ('_' :: natDecimal counter).length) ++ '_' :: natDecimal counter := rfl

theorem mkCandidate_inj (base : String) (c1 c2 : Nat)
    (h : mkCandidate base c1 = mkCandidate base c2) : c1 = c2 := by
  have hd := congrArg String.data h
  rw [mkCandidate_data, mkCandidate_data] at hd
  have hr := congrArg List.reverse hd
  simp only [List.reverse_append, List.reverse_cons, List.append_assoc,
    List.singleton_append] at hr
  obtain ⟨h1, _⟩ := underscore_split _ _ _ _
    (fun c hc => (natDecimal_digit_chars c1 c (List.mem_reverse.mp hc)).1)
    (fun c hc => (natDecimal_digit_chars c2 c (List.mem_reverse.mp hc)).1) hr
  exact natDecimal_inj c1 c2 (List.reverse_injective h1)

theorem mkCandidate_length (base : String) (counter : Nat) (h : counter < 10 ^ 30) :
    (mkCandidate base counter).length ≤ 31 := by
  have hdl := natDecimal_length_le counter h
  show (mkCandidate base counter).data.length ≤ 31
  rw [mkCandidate_data]
  simp only [List.length_append, List.length_cons, List.length_take]
  omega

theorem mkCandidate_chars (base : String) (counter : Nat)
    (hbase : ∀ c ∈ base.data, isInvalidSheetChar c = false) :
    ∀ c ∈ (mkCandidate base counter).data, isInvalidSheetChar c = false := by
  intro c hc
  rw [mkCandidate_data] at hc
  rcases List.mem_append.mp hc with h | h
  · exact hbase c (List.mem_of_mem_take h)
  · rcases List.mem_cons.mp h with rfl | h2
    · decide
    · exact (natDecimal_digit_chars counter c h2).2

theorem assignLoop_shape (used : List String) (base : String) :
    ∀ fuel counter, ∃ c, counter ≤ c ∧ c ≤ counter + fuel ∧
      assignLoop used base fuel counter = mkCandidate base c := by
  intro fuel
  induction fuel with
  | zero => intro counter; exact ⟨counter, le_refl _, by omega, rfl⟩
  | succ f ih =>
    intro counter
    by_cases hc : used.contains (mkCandidate base counter) = true
    · obtain ⟨c, h1, h2, h3⟩ := ih (counter + 1)
      refine ⟨c, by omega, by omega, ?_⟩
      simp only [assignLoop]
      rw [if_pos hc]
      exact h3
    · refine ⟨counter, le_refl _, by omega, ?_⟩
      simp only [assignLoop]
      rw [if_neg hc]

theorem assignLoop_mem_of (used : List String) (base : String) :
    ∀ fuel counter, assignLoop used base fuel counter ∈ used →
      ∀ i ≤ fuel, mkCandidate base (counter + i) ∈ used := by
  intro fuel
  induction fuel with
  | zero =>
    intro counter h i hi
    rw [Nat.le_zero] at hi
    subst hi
    simpa using h
  | succ f ih =>
    intro counter h i hi
    by_cases hc : used.contains (mkCandidate base counter) = true
    · have h2 : assignLoop used base f (counter + 1) ∈ used := by
        simpa only [assignLoop, if_pos hc] using h
      cases i with
      | zero => simpa using (contains_iff_mem_str used _).mp hc
      | succ j =>
        have h3 := ih (counter + 1) h2 j (by omega)
        have h4 : counter + 1 + j = counter + (j + 1) := by omega
        rwa [h4] at h3
    · have h2 : assignLoop used base (f + 1) counter = mkCandidate base counter := by
        simp only [assignLoop]
        rw [if_neg hc]
      rw [h2] at h
      exact absurd ((contains_iff_mem_str used _).mpr h) hc

theorem registryAssign_spec (used : List String) (raw : String)
    (hb : used.length + 3 ≤ 10 ^ 30) :
    (registryAssign used raw).2 = (registryAssign used raw).1 :: used ∧
    (registryAssign used raw).1 ∉ used ∧
    validSheetName (registryAssign used raw).1 := by
  by_cases hcon : used.contains (sanitizeSheetName raw) = true
  · have hr : registryAssign used raw =
        (assignLoop used (sanitizeSheetName raw) (used.length + 1) 1,
         assignLoop used (sanitizeSheetName raw) (used.length + 1) 1 :: used) := by
      simp only [registryAssign]
      rw [if_pos hcon]
    rw [hr]
    refine ⟨rfl, ?_, ?_⟩
    · intro hmem
      have hall := assignLoop_mem_of used (sanitizeSheetName raw) (used.length + 1) 1 hmem
      have hinj : Function.Injective
          (fun i : Nat => mkCandidate (sanitizeSheetName raw) (1 + i)) := by
        intro i j hij
        have h5 := mkCandidate_inj _ _ _ hij
        omega
      have hnodup : ((List.range (used.length + 2)).map
          (fun i => mkCandidate (sanitizeSheetName raw) (1 + i))).Nodup :=
        (List.nodup_range _).map hinj
      have hsub : ∀ x ∈ (List.range (used.length + 2)).map
          (fun i => mkCandidate (sanitizeSheetName raw) (1 + i)), x ∈ used := by
        intro x hx
        rw [List.mem_map] at hx
        obtain ⟨i, hi, rfl⟩ := hx
        rw [List.mem_range] at hi
        exact hall i (by omega)
      have h1 : ((List.range (used.length + 2)).map
          (fun i => mkCandidate (sanitizeSheetName raw) (1 + i))).toFinset.card =
          used.length + 2 := by
        rw [List.toFinset_card_of_nodup hnodup, List.length_map, List.length_range]
      have h2 : ((List.range (used.length + 2)).map
          (fun i => mkCandidate (sanitizeSheetName raw) (1 + i))).toFinset ⊆
          used.toFinset := by
        intro x hx
        rw [List.mem_toFinset] at hx ⊢
        exact hsub x hx
      have h3 := Finset.card_le_card h2
      have h4 := List.toFinset_card_le used
      omega
    · obtain ⟨c, hc1, hc2, hc3⟩ := assignLoop_shape used (sanitizeSheetName raw) (used.length + 1) 1
      rw [hc3]
      exact ⟨mkCandidate_length _ c (by omega), mkCandidate_chars _ c (sanitizeSheetName_chars raw)⟩
  · have hr : registryAssign used raw = (sanitizeSheetName raw, sanitizeSheetName raw :: used) := by
      simp only [registryAssign]
      rw [if_neg hcon]
    rw [hr]
    refine ⟨rfl, ?_, sanitizeSheetName_length raw, sanitizeSheetName_chars raw⟩
    intro hmem
    exact hcon ((contains_iff_mem_str used _).mpr hmem)

theorem intoTable_sheet_name_type (b : TypeTableBuilder) (n : String) :
    (TypeTableBuilder.intoTable b n).sheet_name = n := rfl

theorem intoTable_sheet_name_child (b : ChildTableBuilder) (n : String) :
    (ChildTableBuilder.intoTable b n).sheet_name = n := rfl

theorem typeTablesFold_inv (fx : ExternalFns) :
    ∀ (tbs : List (String × TypeTableBuilder)) (st : List String × List (List String) × List SheetTable),
    SheetNamesInv st → st.1.length + tbs.length + 3 ≤ 10 ^ 30 →
    SheetNamesInv (typeTablesFold fx tbs st) ∧
    (typeTablesFold fx tbs st).1.length = st.1.length + tbs.length := by
  intro tbs
  induction tbs with
  | nil =>
    intro st hinv hb
    simp only [typeTablesFold]
    exact ⟨hinv, by simp⟩
  | cons tb rest ih =>
    intro st hinv hb
    obtain ⟨hE, hM, hmem, hval, hnodup⟩ := hinv
    obtain ⟨hra2, hfresh, hvalid⟩ := registryAssign_spec st.1 tb.1 (by omega)
    simp only [typeTablesFold]
    have hinv2 : SheetNamesInv ((registryAssign st.1 tb.1).2,
        st.2.1 ++ [["type", (registryAssign st.1 tb.1).1, tb.1, ""]],
        st.2.2 ++ [TypeTableBuilder.intoTable
          ⟨tb.2.columns, stableSort (fun r1 r2 => strCmp.lt r1.id r2.id) tb.2.rows⟩
          (registryAssign st.1 tb.1).1]) := by
      rw [hra2]
      refine ⟨List.mem_cons_of_mem _ hE, List.mem_cons_of_mem _ hM, ?_, ?_, ?_⟩
      · intro t ht
        rcases List.mem_append.mp ht with h | h
        · exact List.mem_cons_of_mem _ (hmem t h)
        · rw [List.mem_singleton] at h
          subst h
          rw [intoTable_sheet_name_type]
          exact List.mem_cons_self _ _
      · intro t ht
        rcases List.mem_append.mp ht with h | h
        · exact hval t h
        · rw [List.mem_singleton] at h
          subst h
          rw [intoTable_sheet_name_type]
          exact ⟨hvalid, fun he => hfresh (he ▸ hE), fun he => hfresh (he ▸ hM)⟩
      · rw [List.map_append]
        simp only [List.map_cons, List.map_nil]
        rw [intoTable_sheet_name_type, List.nodup_append]
        refine ⟨hnodup, List.nodup_singleton _, ?_⟩
        intro x hx hy
        rw [List.mem_singleton] at hy
        subst hy
        rw [List.mem_map] at hx
        obtain ⟨t, ht, hteq⟩ := hx
        exact hfresh (hteq ▸ hmem t ht)
    have hlen2 : (registryAssign st.1 tb.1).2.length = st.1.length + 1 := by
      rw [hra2]
      simp
    obtain ⟨hinv3, hlen3⟩ := ih _ hinv2
      (by rw [hlen2]; simp only [List.length_cons] at hb; omega)
    refine ⟨hinv3, ?_⟩
    rw [hlen3, hlen2]
    simp only [List.length_cons]
    omega

theorem childTablesFold_inv (fx : ExternalFns) :
    ∀ (cbs : List ((String × String) × ChildTableBuilder))
      (st : List String × List (List String) × List SheetTable),
    SheetNamesInv st → st.1.length + cbs.length + 3 ≤ 10 ^ 30 →
    SheetNamesInv (childTablesFold fx cbs st) ∧
    (childTablesFold fx cbs st).1.length = st.1.length + cbs.length := by
  intro cbs
  induction cbs with
  | nil =>
    intro st hinv hb
    simp only [childTablesFold]
    exact ⟨hinv, by simp⟩
  | cons cb rest ih =>
    intro st hinv hb
    obtain ⟨hE, hM, hmem, hval, hnodup⟩ := hinv
    obtain ⟨hra2, hfresh, hvalid⟩ := registryAssign_spec st.1 (cb.1.1 ++ "__" ++ cb.1.2) (by omega)
    simp only [childTablesFold]
    have hinv2 : SheetNamesInv ((registryAssign st.1 (cb.1.1 ++ "__" ++ cb.1.2)).2,
        st.2.1 ++ [["child", (registryAssign st.1 (cb.1.1 ++ "__" ++ cb.1.2)).1, cb.1.1, cb.1.2]],
        st.2.2 ++ [ChildTableBuilder.intoTable
          ⟨cb.2.predicate, stableSort (fun r1 r2 => strPairCmp.lt r1 r2) cb.2.rows⟩
          (registryAssign st.1 (cb.1.1 ++ "__" ++ cb.1.2)).1]) := by
      rw [hra2]
      refine ⟨List.mem_cons_of_mem _ hE, List.mem_cons_of_mem _ hM, ?_, ?_, ?_⟩
      · intro t ht
        rcases List.mem_append.mp ht with h | h
        · exact List.mem_cons_of_mem _ (hmem t h)
        · rw [List.mem_singleton] at h
          subst h
          rw [intoTable_sheet_name_child]
          exact List.mem_cons_self _ _
      · intro t ht
        rcases List.mem_append.mp ht with h | h
        · exact hval t h
        · rw [List.mem_singleton] at h
          subst h
          rw [intoTable_sheet_name_child]
          exact ⟨hvalid, fun he => hfresh (he ▸ hE), fun he => hfresh (he ▸ hM)⟩
      · rw [List.map_append]
        simp only [List.map_cons, List.map_nil]
        rw [intoTable_sheet_name_child, List.nodup_append]
        refine ⟨hnodup, List.nodup_singleton _, ?_⟩
        intro x hx hy
        rw [List.mem_singleton] at hy
        subst hy
        rw [List.mem_map] at hx
        obtain ⟨t, ht, hteq⟩ := hx
        exact hfresh (hteq ▸ hmem t ht)
    have hlen2 : (registryAssign st.1 (cb.1.1 ++ "__" ++ cb.1.2)).2.length = st.1.length + 1 := by
      rw [hra2]
      simp
    obtain ⟨hinv3, hlen3⟩ := ih _ hinv2
      (by rw [hlen2]; simp only [List.length_cons] at hb; omega)
    refine ⟨hinv3, ?_⟩
    rw [hlen3, hlen2]
    simp only [List.length_cons]
    omega

/-- C2: merging repeated observations of one predicate follows the
cardinality-promotion rule of `merge_property`: a first occurrence is stored
bare; a second occurrence of the same kind promotes to the matching array
holding both values in order; further same-kind occurrences append; an
occurrence of the other kind (scalar where a reference or reference array is
stored, or vice versa) replaces the existing value entirely. -/
theorem merge_property_cardinality_rule (node : Node) (p : String)
    (a s : ScalarValue) (r t : String) (xs : List ScalarValue) (rs : List String) :
    (mapGet p node.properties = none →
      ∀ v, mapGet p (mergeProperty node p v).properties = some v)
    ∧ (mapGet p node.properties = some (.scalar a) →
      mapGet p (mergeProperty node p (.scalar s)).properties = some (.array (.scalars [a, s])))
    ∧ (mapGet p node.properties = some (.objectRef r) →
      mapGet p (mergeProperty node p (.objectRef t)).properties =
        some (.array (.objectRefs [r, t])))
    ∧ (mapGet p node.properties = some (.array (.scalars xs)) →
      mapGet p (mergeProperty node p (.scalar s)).properties =
        some (.array (.scalars (xs ++ [s]))))
    ∧ (mapGet p node.properties = some (.array (.objectRefs rs)) →
      mapGet p (mergeProperty node p (.objectRef t)).properties =
        some (.array (.objectRefs (rs ++ [t]))))
    ∧ (mapGet p node.properties = some (.scalar a) →
      mapGet p (mergeProperty node p (.objectRef t)).properties = some (.objectRef t))
    ∧ (mapGet p node.properties = some (.objectRef r) →
      mapGet p (mergeProperty node p (.scalar s)).properties = some (.scalar s))
    ∧ (mapGet p node.properties = some (.array (.scalars xs)) →
      mapGet p (mergeProperty node p (.objectRef t)).properties = some (.objectRef t))
    ∧ (mapGet p node.properties = some (.array (.objectRefs rs)) →
      mapGet p (mergeProperty node p (.scalar s)).properties = some (.scalar s)) := by
  refine ⟨?_, ?_, ?_, ?_, ?_, ?_, ?_, ?_, ?_⟩ <;> intro h
  · intro v
    simp only [mergeProperty, h]
    exact mapGet_mapInsert_self strCmp p v node.properties
  all_goals
    simp only [mergeProperty, h, mergePair]
    exact mapGet_mapInsert_self strCmp p _ node.properties

/-- Witness for C2 at concrete inputs. -/
theorem merge_property_cardinality_rule_witness :
    mapGet "p" (mergeProperty (Node.new "s") "p"
      (.scalar (.string "a"))).properties = some (.scalar (.string "a"))
    ∧ mapGet "p" (mergeProperty ⟨"s", none, [], [("p", .scalar (.string "a"))]⟩ "p"
      (.scalar (.string "b"))).properties =
        some (.array (.scalars [.string "a", .string "b"]))
    ∧ mapGet "p" (mergeProperty ⟨"s", none, [], [("p", .array (.scalars [.string "a"]))]⟩ "p"
      (.objectRef "urn:x")).properties = some (.objectRef "urn:x") :=
  ⟨(merge_property_cardinality_rule (Node.new "s") "p" .null .null "" "" [] []).1 rfl _,
   (merge_property_cardinality_rule ⟨"s", none, [], [("p", .scalar (.string "a"))]⟩ "p"
      (.string "a") (.string "b") "" "" [] []).2.1 rfl,
   (merge_property_cardinality_rule ⟨"s", none, [], [("p", .array (.scalars [.string "a"]))]⟩
      "p" .null .null "" "urn:x" [.string "a"] []).2.2.2.2.2.2.2.1 rfl⟩

/-- C10: converting a literal whose datatype is `xsd:boolean` never fails;
the scalar is `Boolean(true)` exactly when the lexical form is `true` or `1`
and `Boolean(false)` for every other lexical form. -/
theorem boolean_literal_conversion_total (fx : ExternalFns) (lit : Literal)
    (h : lit.datatypeIri = XSD_BOOLEAN) :
    literalToScalar fx lit = .ok (.boolean (lit.value == "true" || lit.value == "1"))
    ∧ ((lit.value = "true" ∨ lit.value = "1") →
      literalToScalar fx lit = .ok (.boolean true))
    ∧ (lit.value ≠ "true" → lit.value ≠ "1" →
      literalToScalar fx lit = .ok (.boolean false)) := by
  cases lit with
  | simple v =>
    exact absurd h (by simp [Literal.datatypeIri, XSD_STRING, XSD_BOOLEAN])
  | langTagged v l =>
    exact absurd h (by simp [Literal.datatypeIri, RDF_LANG_STRING, XSD_BOOLEAN])
  | typed v dt =>
    have hdt : dt = XSD_BOOLEAN := h
    subst hdt
    refine ⟨?_, ?_, ?_⟩
    · simp [literalToScalar, Literal.languageTag, Literal.datatypeIri, Literal.value]
    · rintro (rfl | rfl) <;>
        simp [literalToScalar, Literal.languageTag, Literal.datatypeIri, Literal.value]
    · intro h1 h2
      rw [Literal.value] at h1 h2
      simp [literalToScalar, Literal.languageTag, Literal.datatypeIri, Literal.value, h1, h2]

/-- Witness for C10 at concrete inputs. -/
theorem boolean_literal_conversion_total_witness :
    literalToScalar fxTest (.typed "1" XSD_BOOLEAN) = .ok (.boolean true)
    ∧ literalToScalar fxTest (.typed "yes" XSD_BOOLEAN) = .ok (.boolean false) :=
  ⟨(boolean_literal_conversion_total fxTest (.typed "1" XSD_BOOLEAN) rfl).2.1 (Or.inr rfl),
   (boolean_literal_conversion_total fxTest (.typed "yes" XSD_BOOLEAN) rfl).2.2
      (by rw [Literal.value]; simp) (by rw [Literal.value]; simp)⟩

/-- C1: the claimed round trip fails on the cited code pair. For the node set
holding the single node `a` of type `T` with the scalar property `p = "v"`,
`build_workbook` emits a `T` sheet whose columns are `id, p`, while
`read_nodes` treats column 1 of a type sheet as a graph-name cell and reads
properties only from column 2 on: the property is lost and a spurious node in
graph `"v"` (the JSON-encoded cell text) appears, so the result differs from
the input node set. -/
theorem flatten_unflatten_roundtrip_failing_input :
    buildWorkbook fxTest [⟨"a", none, ["T"], [("p", .scalar (.string "v"))]⟩] =
      ⟨[⟨ENTITIES_SHEET, ["id", "type"], [["a", "T"]]⟩,
        ⟨METADATA_SHEET, ["kind", "sheet", "type", "predicate"], [["type", "T", "T", ""]]⟩,
        ⟨"T", ["id", "p"], [["a", "\"v\""]]⟩]⟩
    ∧ readNodes fxTest (buildWorkbook fxTest [⟨"a", none, ["T"], [("p", .scalar (.string "v"))]⟩]) =
      .ok [⟨"a", none, ["T"], []⟩, ⟨"a", some "\"v\"", ["T"], []⟩]
    ∧ readNodes fxTest (buildWorkbook fxTest [⟨"a", none, ["T"], [("p", .scalar (.string "v"))]⟩]) ≠
      .ok [⟨"a", none, ["T"], [("p", .scalar (.string "v"))]⟩] := by
  refine ⟨by decide, by decide, by decide⟩

/-- C3: `expand_term` follows exactly the claimed precedence: a term starting
with `@` or accepted by the IRI parser is returned unchanged; otherwise the
explicit term map wins; otherwise a compact form `prefix:suffix` with a mapped
`prefix` expands to the mapping followed by the suffix; otherwise a declared
`@vocab` is prepended; otherwise the term is returned unchanged, never an
error. -/
theorem expand_term_precedence (fx : ExternalFns) (ctx : ActiveContext) (term : String) :
    ((headIsAt term = true ∨ fx.iriOk term = true) →
      expandTerm fx (some ctx) term = term ∧ expandTerm fx none term = term)
    ∧ (headIsAt term = false → fx.iriOk term = false →
      ∀ mapped, mapGet term ctx.termMap = some mapped →
        expandTerm fx (some ctx) term = mapped)
    ∧ (headIsAt term = false → fx.iriOk term = false →
      mapGet term ctx.termMap = none →
      ∀ pre suf base, splitOnceColon term = some (pre, suf) →
        mapGet pre ctx.termMap = some base →
        expandTerm fx (some ctx) term = base ++ suf)
    ∧ (headIsAt term = false → fx.iriOk term = false →
      mapGet term ctx.termMap = none →
      expandCompactIri ctx term = none →
      ∀ vocab, ctx.vocab = some vocab →
        expandTerm fx (some ctx) term = vocab ++ term)
    ∧ (headIsAt term = false → fx.iriOk term = false →
      mapGet term ctx.termMap = none →
      expandCompactIri ctx term = none →
      ctx.vocab = none →
      expandTerm fx (some ctx) term = term)
    ∧ (headIsAt term = false → fx.iriOk term = false →
      expandTerm fx none term = term) := by
  refine ⟨?_, ?_, ?_, ?_, ?_, ?_⟩
  · rintro (h | h) <;>
      constructor <;> simp [expandTerm, h]
  · intro h1 h2 mapped hmap
    simp [expandTerm, h1, h2, hmap]
  · intro h1 h2 hmap pre suf base hsplit hbase
    have hci : expandCompactIri ctx term = some (base ++ suf) := by
      simp [expandCompactIri, hsplit, hbase]
    simp [expandTerm, h1, h2, hmap, hci]
  · intro h1 h2 hmap hci vocab hvocab
    simp [expandTerm, h1, h2, hmap, hci, defaultVocabExpansion, hvocab]
  · intro h1 h2 hmap hci hvocab
    simp [expandTerm, h1, h2, hmap, hci, defaultVocabExpansion, hvocab]
  · intro h1 h2
    simp [expandTerm, h1, h2]

/-- Witness for C3 at concrete inputs, one per precedence level. -/
theorem expand_term_precedence_witness :
    expandTerm fxOpaque (some ⟨some "http://v/", [("ex", "http://e/")], []⟩) "@id" = "@id"
    ∧ expandTerm fxOpaque (some ⟨some "http://v/", [("ex", "http://e/")], []⟩) "ex" = "http://e/"
    ∧ expandTerm fxOpaque (some ⟨some "http://v/", [("ex", "http://e/")], []⟩) "ex:a" =
      "http://e/" ++ "a"
    ∧ expandTerm fxOpaque (some ⟨some "http://v/", [("ex", "http://e/")], []⟩) "t" =
      "http://v/" ++ "t"
    ∧ expandTerm fxOpaque (some ⟨none, [("ex", "http://e/")], []⟩) "t" = "t" :=
  ⟨((expand_term_precedence fxOpaque ⟨some "http://v/", [("ex", "http://e/")], []⟩ "@id").1
      (Or.inl rfl)).1,
   (expand_term_precedence fxOpaque ⟨some "http://v/", [("ex", "http://e/")], []⟩ "ex").2.1
      rfl rfl "http://e/" rfl,
   (expand_term_precedence fxOpaque ⟨some "http://v/", [("ex", "http://e/")], []⟩
      "ex:a").2.2.1 rfl rfl rfl "ex" "a" "http://e/" rfl rfl,
   (expand_term_precedence fxOpaque ⟨some "http://v/", [("ex", "http://e/")], []⟩
      "t").2.2.2.1 rfl rfl rfl rfl "http://v/" rfl,
   (expand_term_precedence fxOpaque ⟨none, [("ex", "http://e/")], []⟩
      "t").2.2.2.2.1 rfl rfl rfl rfl rfl⟩

/-- C4: an array property whose members mix a literal and an object reference
is rejected with the JSON-LD mixed-array error, while an array whose members
are all literals (or all references) parses into the matching homogeneous
`Array` variant. -/
theorem parse_array_homogeneity (fx : ExternalFns) (context : Option ActiveContext)
    (treatAsId : Bool) (values : List Json)
    (hsimple : ∀ v ∈ values,
      isRefMember fx treatAsId v = true ∨ isLitMember fx treatAsId v = true) :
    ((∃ v ∈ values, isLitMember fx treatAsId v = true) →
      (∃ v ∈ values, isRefMember fx treatAsId v = true) →
      parseArray fx values context treatAsId =
        .error "mixed arrays of literals and object references are not supported")
    ∧ ((∀ v ∈ values, isLitMember fx treatAsId v = true) → values ≠ [] →
      ∃ xs, xs ≠ [] ∧ parseArray fx values context treatAsId = .ok (.array (.scalars xs)))
    ∧ ((∀ v ∈ values, isRefMember fx treatAsId v = true) → values ≠ [] →
      ∃ rs, rs ≠ [] ∧ parseArray fx values context treatAsId =
        .ok (.array (.objectRefs rs))) := by
  have hrun := parseArrayItems_simple fx context treatAsId values [] [] hsimple
  refine ⟨?_, ?_, ?_⟩
  · rintro ⟨vl, hvl, hlit⟩ ⟨vr, hvr, href⟩
    have h1 := collectSimple_lit_mem fx context treatAsId values vl hvl hlit
    have h2 := collectSimple_ref_mem fx context treatAsId values vr hvr href
    have e1 : (collectSimple fx context treatAsId values).1.isEmpty = false := by
      cases hl : (collectSimple fx context treatAsId values).1 with
      | nil => exact absurd hl h1
      | cons a as => rfl
    have e2 : (collectSimple fx context treatAsId values).2.isEmpty = false := by
      cases hl : (collectSimple fx context treatAsId values).2 with
      | nil => exact absurd hl h2
      | cons a as => rfl
    rw [parseArray, hrun]
    simp only [List.nil_append, e1, e2]
  · intro hall hne
    have hc := collectSimple_all_lit fx context treatAsId values hall
    have h1 : (collectSimple fx context treatAsId values).1 ≠ [] := by
      intro hnil
      apply hne
      have := hc.2
      rw [hnil] at this
      exact List.eq_nil_of_length_eq_zero this.symm
    have e1 : (collectSimple fx context treatAsId values).1.isEmpty = false := by
      cases hl : (collectSimple fx context treatAsId values).1 with
      | nil => exact absurd hl h1
      | cons a as => rfl
    have e2 : (collectSimple fx context treatAsId values).2.isEmpty = true := by
      rw [hc.1]; rfl
    refine ⟨(collectSimple fx context treatAsId values).1, h1, ?_⟩
    rw [parseArray, hrun]
    simp only [List.nil_append, e1, e2]
  · intro hall hne
    have hc := collectSimple_all_ref fx context treatAsId values hall
    have h2 : (collectSimple fx context treatAsId values).2 ≠ [] := by
      intro hnil
      apply hne
      have := hc.2
      rw [hnil] at this
      exact List.eq_nil_of_length_eq_zero this.symm
    have e2 : (collectSimple fx context treatAsId values).2.isEmpty = false := by
      cases hl : (collectSimple fx context treatAsId values).2 with
      | nil => exact absurd hl h2
      | cons a as => rfl
    have e1 : (collectSimple fx context treatAsId values).1.isEmpty = true := by
      rw [hc.1]; rfl
    refine ⟨(collectSimple fx context treatAsId values).2, h2, ?_⟩
    rw [parseArray, hrun]
    simp only [List.nil_append, e1, e2]

/-- Witness for C4 at concrete inputs: a mixed array errors, an all-literal
array yields a scalar array, an all-reference array yields a reference
array. -/
theorem parse_array_homogeneity_witness :
    parseArray fxOpaque [.str "a", .obj [("@id", .str "urn:x")]] none false =
      .error "mixed arrays of literals and object references are not supported"
    ∧ (∃ xs, xs ≠ [] ∧
      parseArray fxOpaque [.str "a", .num 1] none false = .ok (.array (.scalars xs)))
    ∧ (∃ rs, rs ≠ [] ∧
      parseArray fxOpaque [.obj [("@id", .str "urn:x")]] none false =
        .ok (.array (.objectRefs rs))) :=
  ⟨(parse_array_homogeneity fxOpaque none false [.str "a", .obj [("@id", .str "urn:x")]]
      (by simp [List.forall_mem_cons, isRefMember, isLitMember, fxOpaque, jGet, Json.asStr])).1
      ⟨.str "a", List.mem_cons_self _ _, rfl⟩
      ⟨.obj [("@id", .str "urn:x")], List.mem_cons_of_mem _ (List.mem_cons_self _ _), rfl⟩,
   (parse_array_homogeneity fxOpaque none false [.str "a", .num 1]
      (by simp [List.forall_mem_cons, isRefMember, isLitMember, fxOpaque])).2.1
      (by simp [List.forall_mem_cons, isLitMember, fxOpaque]) (by simp),
   (parse_array_homogeneity fxOpaque none false [.obj [("@id", .str "urn:x")]]
      (by simp [List.forall_mem_cons, isRefMember, jGet, Json.asStr])).2.2
      (by simp [List.forall_mem_cons, isRefMember, jGet, Json.asStr]) (by simp)⟩

/-- C5, counterexample: no 128-bit name-based hash can give distinct surrogate
identifiers to every pair of anonymous objects with distinct canonicalized
content — by pigeonhole, some pair of content-distinct objects must collide
(the claim quantifies over all objects, and the identifier space is finite
while canonical contents are not). -/
theorem surrogate_distinctness_fails_by_pigeonhole :
    ¬ ∃ h : String → Fin (2 ^ 128), ∀ o1 o2 : List (String × Json),
      canonicaliseObject (fxWithUuid h) o1 ≠ canonicaliseObject (fxWithUuid h) o2 →
      generateSurrogateId (fxWithUuid h) o1 ≠ generateSurrogateId (fxWithUuid h) o2 := by
  rintro ⟨h, hinj⟩
  obtain ⟨m, n, hmn, heq⟩ := Finite.exists_ne_map_eq_of_infinite
    (fun k => h (canonicaliseObject (fxWithUuid h) (objFam k)))
  refine hinj (objFam m) (objFam n) (canonical_objFam_ne h hmn) ?_
  show "urn:uuid:" ++ uuidToString ((fxWithUuid h).uuidv5 _) =
    "urn:uuid:" ++ uuidToString ((fxWithUuid h).uuidv5 _)
  have heq2 : h (canonicaliseObject (fxWithUuid h) (objFam m)) =
      h (canonicaliseObject (fxWithUuid h) (objFam n)) := heq
  show "urn:uuid:" ++ uuidToString (h _) = "urn:uuid:" ++ uuidToString (h _)
  rw [heq2]

/-- C5, amended: two anonymous objects whose fields — after excluding
`@context` and `@graph` and sorting by key — are identical receive the same
surrogate identifier; two objects receive different identifiers whenever the
external 128-bit name-based hash differs on their canonical forms (which is
everything that can be guaranteed: by `surrogate_distinctness_fails_by_pigeonhole`
hash collisions are unavoidable in principle); and the identifier is exactly
the `urn:uuid:`-prefixed rendering of the hash of the canonicalized object. -/
theorem generate_surrogate_id_amended (fx : ExternalFns) (o1 o2 : List (String × Json)) :
    (sortFieldsByKey (o1.filter fun kv => ¬ (kv.1 = "@context" ∨ kv.1 = "@graph")) =
      sortFieldsByKey (o2.filter fun kv => ¬ (kv.1 = "@context" ∨ kv.1 = "@graph")) →
      generateSurrogateId fx o1 = generateSurrogateId fx o2)
    ∧ (fx.uuidv5 (canonicaliseObject fx o1) ≠ fx.uuidv5 (canonicaliseObject fx o2) →
      generateSurrogateId fx o1 ≠ generateSurrogateId fx o2)
    ∧ generateSurrogateId fx o1 =
      "urn:uuid:" ++ uuidToString (fx.uuidv5 (canonicaliseObject fx o1)) := by
  refine ⟨?_, ?_, rfl⟩
  · intro hcf
    show "urn:uuid:" ++ uuidToString (fx.uuidv5 (canonicaliseObject fx o1)) =
      "urn:uuid:" ++ uuidToString (fx.uuidv5 (canonicaliseObject fx o2))
    rw [canonicaliseObject, canonicaliseObject, hcf]
  · intro hu hid
    apply hu
    apply uuidToString_inj
    have hdata := congrArg String.data hid
    simp only [generateSurrogateId, String.data_append] at hdata
    exact String.ext (List.append_cancel_left hdata)

/-- Witness for the amended C5 at concrete inputs: key order does not affect
the identifier, and distinct hash values give distinct identifiers. -/
theorem generate_surrogate_id_amended_witness :
    generateSurrogateId fxLenHash [("b", .null), ("a", .bool true)] =
      generateSurrogateId fxLenHash [("a", .bool true), ("b", .null)]
    ∧ generateSurrogateId fxLenHash [("a", .str "x")] ≠
      generateSurrogateId fxLenHash [("a", .str "xy")] :=
  ⟨(generate_surrogate_id_amended fxLenHash [("b", .null), ("a", .bool true)]
      [("a", .bool true), ("b", .null)]).1 (by rfl),
   (generate_surrogate_id_amended fxLenHash [("a", .str "x")] [("a", .str "xy")]).2.1
      (by decide)⟩

/-- C6: a `Null`-valued scalar property vanishes on the way through RDF.
For a node set in which every occurrence of a predicate `p` (other than
`rdf:type`, whose quads come from the type set, not the property map) carries
the `Null` scalar, `write_rdf` emits no quad whose predicate is `p`
(`scalar_to_term` maps `Null` to no term), and `read_rdf` applied to the
emitted quads yields nodes with no entry for `p` in their property maps. -/
theorem null_scalar_emits_no_quads (fx : ExternalFns) (nodes : List Node) (p : String)
    (hp : p ≠ RDF_TYPE)
    (hnull : ∀ n ∈ nodes, ∀ pv ∈ n.properties, pv.1 = p → pv.2 = .scalar .null)
    (quads : List Quad) (hw : writeRdf fx nodes = .ok quads)
    (out : List Node) (hr : readRdfQuads fx quads = .ok out) :
    (∀ q ∈ quads, q.predicate ≠ p) ∧ ∀ n ∈ out, mapGet p n.properties = none := by
  have hq : ∀ q ∈ quads, q.predicate ≠ p := by
    rw [writeRdf] at hw
    split at hw
    · exact Except.noConfusion hw
    · exact nodesQuads_no_pred fx p hp nodes quads hnull hw
  refine ⟨hq, ?_⟩
  rw [readRdfQuads] at hr
  split at hr
  · exact Except.noConfusion hr
  · rename_i acc hfold
    injection hr with h2
    subst h2
    intro n hn
    rcases List.mem_map.mp hn with ⟨e, he, rfl⟩
    exact quadsFold_preserves_absent fx p quads [] acc hq
      (fun e he => absurd he (List.not_mem_nil e)) hfold e he

/-- Witness for C6: the node `a` holds `p ↦ Null` and `q ↦ "v"`; the emitted
quad stream carries only `q`, and the reparse holds no entry for `p`. -/
theorem null_scalar_emits_no_quads_witness :
    (∀ q ∈ [(⟨.namedNode "a", "q", .literal (.simple "v"), .defaultGraph⟩ : Quad)],
      q.predicate ≠ "p")
    ∧ ∀ n ∈ [(⟨"a", none, [], [("q", .scalar (.string "v"))]⟩ : Node)],
      mapGet "p" n.properties = none :=
  null_scalar_emits_no_quads fxTest
    [⟨"a", none, [], [("p", .scalar .null), ("q", .scalar (.string "v"))]⟩] "p"
    (by decide) (by decide)
    [⟨.namedNode "a", "q", .literal (.simple "v"), .defaultGraph⟩] (by decide)
    [⟨"a", none, [], [("q", .scalar (.string "v"))]⟩] (by decide)

/-- C7: every sheet name generated by `build_workbook` is at most 31
characters long, contains no forbidden or control character, and is unique
within the workbook, with collisions resolved by `_N` suffixes over a
truncated base. The size hypothesis (at most about `10 ^ 30` generated
tables) is needed because the Rust collision loop computes
`31 - suffix.len()` — for a collision counter of thirty decimal digits the
suffix alone exhausts the cap (where the Rust `usize` subtraction would
panic); such inputs are physically unconstructible. -/
theorem sheet_names_valid_and_unique (fx : ExternalFns) (nodes : List Node)
    (hsize : (nodes.foldl (buildNodeStep fx) ([], [], [])).1.length +
      (nodes.foldl (buildNodeStep fx) ([], [], [])).2.1.length + 5 ≤ 10 ^ 30) :
    (∀ t ∈ (buildWorkbook fx nodes).tables, validSheetName t.sheet_name) ∧
    ((buildWorkbook fx nodes).tables.map SheetTable.sheet_name).Nodup := by
  have hinv0 : SheetNamesInv ([METADATA_SHEET, ENTITIES_SHEET], [], []) :=
    ⟨by decide, by decide, by simp, by simp, by simp⟩
  obtain ⟨hinv1, hlen1⟩ := typeTablesFold_inv fx (nodes.foldl (buildNodeStep fx) ([], [], [])).1
    ([METADATA_SHEET, ENTITIES_SHEET], [], []) hinv0
    (by simp only [List.length_cons, List.length_nil]; omega)
  obtain ⟨hinv2, hlen2⟩ := childTablesFold_inv fx
    (nodes.foldl (buildNodeStep fx) ([], [], [])).2.1
    (typeTablesFold fx (nodes.foldl (buildNodeStep fx) ([], [], [])).1
      ([METADATA_SHEET, ENTITIES_SHEET], [], [])) hinv1
    (by rw [hlen1]; simp only [List.length_cons, List.length_nil]; omega)
  obtain ⟨hE2, hM2, hmem2, hval2, hnodup2⟩ := hinv2
  constructor
  · intro t ht
    simp only [buildWorkbook] at ht
    rcases List.mem_cons.mp ht with h | h
    · subst h
      exact show validSheetName ENTITIES_SHEET from ⟨by decide, by decide⟩
    · rcases List.mem_cons.mp h with h2 | h2
      · subst h2
        exact show validSheetName METADATA_SHEET from ⟨by decide, by decide⟩
      · have h3 := (stableSort_perm
          (fun t1 t2 : SheetTable => strCmp.lt t1.sheet_name t2.sheet_name) _).subset h2
        exact (hval2 t h3).1
  · simp only [buildWorkbook]
    rw [List.map_cons, List.map_cons, List.nodup_cons, List.nodup_cons]
    have hperm := (stableSort_perm (fun t1 t2 : SheetTable => strCmp.lt t1.sheet_name t2.sheet_name)
      (childTablesFold fx (nodes.foldl (buildNodeStep fx) ([], [], [])).2.1
        (typeTablesFold fx (nodes.foldl (buildNodeStep fx) ([], [], [])).1
          ([METADATA_SHEET, ENTITIES_SHEET], [], []))).2.2).map SheetTable.sheet_name
    refine ⟨?_, ?_, hperm.nodup_iff.mpr hnodup2⟩
    · intro hmem
      rcases List.mem_cons.mp hmem with h | h
      · exact absurd h (show ¬ (ENTITIES_SHEET = METADATA_SHEET) by decide)
      · have h2 := hperm.mem_iff.mp h
        rw [List.mem_map] at h2
        obtain ⟨u, hu, hueq⟩ := h2
        exact (hval2 u hu).2.1 hueq
    · intro hmem
      have h2 := hperm.mem_iff.mp hmem
      rw [List.mem_map] at h2
      obtain ⟨u, hu, hueq⟩ := h2
      exact (hval2 u hu).2.2 hueq

/-- Witness for C7: two nodes whose types `A:` and `A_` both sanitize to the
base `A_`; the workbook carries sheets `Entities`, `Metadata`, `A_` and the
collision-resolved `A__1`, all valid and distinct. -/
theorem sheet_names_valid_and_unique_witness :
    (∀ t ∈ (buildWorkbook fxTest
        [⟨"a", none, ["A:"], []⟩, ⟨"b", none, ["A_"], []⟩]).tables,
      validSheetName t.sheet_name)
    ∧ ((buildWorkbook fxTest
        [⟨"a", none, ["A:"], []⟩, ⟨"b", none, ["A_"], []⟩]).tables.map
        SheetTable.sheet_name).Nodup :=
  sheet_names_valid_and_unique fxTest
    [⟨"a", none, ["A:"], []⟩, ⟨"b", none, ["A_"], []⟩] (by decide)

/-- Any committed (`some`) result of the fuelled property-value evaluator
agrees with `parsePropertyValue`. -/
theorem parsePropertyValueF_sound (fx : ExternalFns) : ∀ (fuel : Nat) (value : Json)
    (context : Option ActiveContext) (treatAsId : Bool) (r : Except String PropertyValue),
    parsePropertyValueF fx fuel value context treatAsId = some r →
    parsePropertyValue fx value context treatAsId = r := by
  intro fuel
  induction fuel with
  | zero =>
    intro value context treatAsId r h
    simp only [parsePropertyValueF] at h
    exact Option.noConfusion h
  | succ fuel ih =>
    intro value context treatAsId r h
    cases value with
    | null =>
      simp only [parsePropertyValueF, Option.some.injEq] at h
      simp only [parsePropertyValue]
      exact h
    | bool b =>
      simp only [parsePropertyValueF, Option.some.injEq] at h
      simp only [parsePropertyValue]
      exact h
    | num q =>
      simp only [parsePropertyValueF, Option.some.injEq] at h
      simp only [parsePropertyValue]
      exact h
    | str v =>
      simp only [parsePropertyValueF, Option.some.injEq] at h
      simp only [parsePropertyValue]
      split at h
      · rename_i hc
        rw [if_pos hc]
        exact Option.some.inj h
      · rename_i hc
        rw [if_neg hc]
        split at h
        · rename_i hi
          rw [if_pos hi]
          exact Option.some.inj h
        · rename_i hi
          rw [if_neg hi]
          exact Option.some.inj h
    | arr values =>
      simp only [parsePropertyValueF, Option.some.injEq] at h
      simp only [parsePropertyValue]
      exact h
    | obj map =>
      simp only [parsePropertyValueF] at h
      simp only [parsePropertyValue]
      split
      · rename_i setv hset
        simp only [hset] at h
        exact ih setv context treatAsId r h
      · rename_i hset
        simp only [hset] at h
        split
        · rename_i listv hlist
          simp only [hlist] at h
          exact ih listv context treatAsId r h
        · rename_i hlist
          simp only [hlist] at h
          split
          · rename_i id hid
            simp only [hid, Option.some.injEq] at h
            exact h
          · rename_i hid
            simp only [hid] at h
            split
            · rename_i literal hval
              simp only [hval] at h
              exact ih literal context treatAsId r h
            · rename_i hval
              simp only [hval, Option.some.injEq] at h
              exact h

/-- Any committed result of the fuelled property loop agrees with
`nodePropsFold`. -/
theorem nodePropsFoldF_sound (fx : ExternalFns) (fuel : Nat) (ctx : Option ActiveContext) :
    ∀ (kvs : List (String × Json)) (node : Node) (r : Except String Node),
    nodePropsFoldF fx fuel ctx kvs node = some r → nodePropsFold fx ctx kvs node = r := by
  intro kvs
  induction kvs with
  | nil =>
    intro node r h
    simp only [nodePropsFoldF, Option.some.injEq] at h
    simp only [nodePropsFold]
    exact h
  | cons kv rest ihr =>
    intro node r h
    simp only [nodePropsFoldF] at h
    simp only [nodePropsFold]
    by_cases hkw : kv.1 = "@id" ∨ kv.1 = "@type" ∨ kv.1 = "@context" ∨ kv.1 = "@graph"
    · rw [if_pos hkw] at h
      rw [if_pos hkw]
      exact ihr node r h
    · rw [if_neg hkw] at h
      rw [if_neg hkw]
      split at h
      · exact Option.noConfusion h
      · rename_i e heq
        simp only [Option.some.injEq] at h
        simp only [parsePropertyValueF_sound fx fuel kv.2 ctx _ _ heq]
        exact h
      · rename_i pv heq
        simp only [parsePropertyValueF_sound fx fuel kv.2 ctx _ _ heq]
        exact ihr _ r h

/-- Any committed result of the fuelled node-object parser agrees with
`parseNodeObject`. -/
theorem parseNodeObjectF_sound (fx : ExternalFns) (fuel : Nat)
    (object : List (String × Json)) (g : Option String) (ctx : Option ActiveContext)
    (nodes : List (NodeKey × Node)) (r : Except String (List (NodeKey × Node)))
    (h : parseNodeObjectF fx fuel object g ctx nodes = some r) :
    parseNodeObject fx object g ctx nodes = r := by
  simp only [parseNodeObjectF] at h
  simp only [parseNodeObject]
  cases hT : jGet object "@type" with
  | some types =>
    simp only [hT] at h ⊢
    split at h
    · rename_i e heq
      simp only [Option.some.injEq] at h
      exact h
    · rename_i node1 heq
      split at h
      · exact Option.noConfusion h
      · rename_i e heq2
        simp only [Option.some.injEq] at h
        simp only [nodePropsFoldF_sound fx fuel ctx _ _ _ heq2]
        exact h
      · rename_i node2 heq2
        simp only [Option.some.injEq] at h
        simp only [nodePropsFoldF_sound fx fuel ctx _ _ _ heq2]
        exact h
  | none =>
    simp only [hT] at h ⊢
    split at h
    · exact Option.noConfusion h
    · rename_i e heq2
      simp only [Option.some.injEq] at h
      simp only [nodePropsFoldF_sound fx fuel ctx _ _ _ heq2]
      exact h
    · rename_i node2 heq2
      simp only [Option.some.injEq] at h
      simp only [nodePropsFoldF_sound fx fuel ctx _ _ _ heq2]
      exact h

/-- Any committed result of the fuelled entry/entry-list/graph parsers agrees
with the recursive definitions. -/
theorem parseEntryF_sound (fx : ExternalFns) : ∀ (fuel : Nat),
    (∀ (value : Json) (g : Option String) (ctx : Option ActiveContext)
      (nodes : List (NodeKey × Node)) (r : Except String (List (NodeKey × Node))),
      parseEntryF fx fuel value g ctx nodes = some r → parseEntry fx value g ctx nodes = r) ∧
    (∀ (values : List Json) (g : Option String) (ctx : Option ActiveContext)
      (nodes : List (NodeKey × Node)) (r : Except String (List (NodeKey × Node))),
      parseEntryListF fx fuel values g ctx nodes = some r →
      parseEntryList fx values g ctx nodes = r) ∧
    (∀ (value : Json) (g : Option String) (ctx : Option ActiveContext)
      (nodes : List (NodeKey × Node)) (r : Except String (List (NodeKey × Node))),
      parseGraphF fx fuel value g ctx nodes = some r → parseGraph fx value g ctx nodes = r) := by
  intro fuel
  induction fuel with
  | zero =>
    refine ⟨?_, ?_, ?_⟩
    · intro value g ctx nodes r h
      simp only [parseEntryF] at h
      exact Option.noConfusion h
    · intro values g ctx nodes r h
      simp only [parseEntryListF] at h
      exact Option.noConfusion h
    · intro value g ctx nodes r h
      simp only [parseGraphF] at h
      exact Option.noConfusion h
  | succ fuel ih =>
    refine ⟨?_, ?_, ?_⟩
    · intro value g ctx nodes r h
      cases value with
      | obj object =>
        simp only [parseEntryF] at h
        simp only [parseEntry]
        cases hjc : jGet object "@context" with
        | some cv =>
          simp only [hjc] at h ⊢
          cases hpc : parseContextValue fx cv ctx with
          | error e =>
            simp only [hpc, Except.map] at h ⊢
            exact Option.some.inj h
          | ok ctxNew =>
            simp only [hpc, Except.map] at h ⊢
            cases hjg : jGet object "@graph" with
            | some gv =>
              simp only [hjg] at h ⊢
              split at h
              · exact Option.noConfusion h
              · rename_i e heqPG
                simp only [Option.some.injEq] at h
                simp only [ih.2.2 gv _ _ nodes _ heqPG]
                exact h
              · rename_i nodes1 heqPG
                simp only [ih.2.2 gv _ _ nodes _ heqPG]
                by_cases hnp : hasNodeProperties object = true
                · rw [if_pos hnp] at h ⊢
                  exact parseNodeObjectF_sound fx fuel object g _ nodes1 r h
                · rw [if_neg hnp] at h ⊢
                  exact Option.some.inj h
            | none =>
              simp only [hjg] at h ⊢
              exact parseNodeObjectF_sound fx fuel object g _ nodes r h
        | none =>
          simp only [hjc] at h ⊢
          cases hjg : jGet object "@graph" with
          | some gv =>
            simp only [hjg] at h ⊢
            split at h
            · exact Option.noConfusion h
            · rename_i e heqPG
              simp only [Option.some.injEq] at h
              simp only [ih.2.2 gv _ _ nodes _ heqPG]
              exact h
            · rename_i nodes1 heqPG
              simp only [ih.2.2 gv _ _ nodes _ heqPG]
              by_cases hnp : hasNodeProperties object = true
              · rw [if_pos hnp] at h ⊢
                exact parseNodeObjectF_sound fx fuel object g _ nodes1 r h
              · rw [if_neg hnp] at h ⊢
                exact Option.some.inj h
          | none =>
            simp only [hjg] at h ⊢
            exact parseNodeObjectF_sound fx fuel object g _ nodes r h
      | arr values =>
        simp only [parseEntryF] at h
        simp only [parseEntry]
        exact ih.2.1 values g ctx nodes r h
      | null =>
        simp only [parseEntryF, Option.some.injEq] at h
        simp only [parseEntry]
        exact h
      | bool b =>
        simp only [parseEntryF, Option.some.injEq] at h
        simp only [parseEntry]
        exact h
      | num q =>
        simp only [parseEntryF, Option.some.injEq] at h
        simp only [parseEntry]
        exact h
      | str s =>
        simp only [parseEntryF, Option.some.injEq] at h
        simp only [parseEntry]
        exact h
    · intro values g ctx nodes r h
      cases values with
      | nil =>
        simp only [parseEntryListF, Option.some.injEq] at h
        simp only [parseEntryList]
        exact h
      | cons item rest =>
        simp only [parseEntryListF] at h
        simp only [parseEntryList]
        split at h
        · exact Option.noConfusion h
        · rename_i e heq
          simp only [Option.some.injEq] at h
          simp only [ih.1 item g ctx nodes _ heq]
          exact h
        · rename_i nodes1 heq
          simp only [ih.1 item g ctx nodes _ heq]
          exact ih.2.1 rest g ctx nodes1 r h
    · intro value g ctx nodes r h
      cases value with
      | arr items =>
        simp only [parseGraphF] at h
        simp only [parseGraph]
        exact ih.2.1 items g ctx nodes r h
      | obj fields =>
        simp only [parseGraphF] at h
        simp only [parseGraph]
        exact ih.1 (.obj fields) g ctx nodes r h
      | null =>
        simp only [parseGraphF, Option.some.injEq] at h
        simp only [parseGraph]
        exact h
      | bool b =>
        simp only [parseGraphF, Option.some.injEq] at h
        simp only [parseGraph]
        exact h
      | num q =>
        simp only [parseGraphF, Option.some.injEq] at h
        simp only [parseGraph]
        exact h
      | str s =>
        simp only [parseGraphF, Option.some.injEq] at h
        simp only [parseGraph]
        exact h

/-- Any committed result of the fuelled document parser agrees with
`parseJsonldDocument`; with the fuelled side evaluated by `rfl` on concrete
inputs this turns kernel computation into facts about the recursive parser. -/
theorem parseJsonldDocumentF_sound (fx : ExternalFns) (fuel : Nat) (document : Json)
    (r : Except String (List Node))
    (h : parseJsonldDocumentF fx fuel document = some r) :
    parseJsonldDocument fx document = r := by
  simp only [parseJsonldDocumentF] at h
  simp only [parseJsonldDocument]
  cases document with
  | arr items =>
    split at h
    · exact Option.noConfusion h
    · rename_i e heq
      simp only [Option.some.injEq] at h
      simp only [(parseEntryF_sound fx fuel).2.1 items none none [] _ heq]
      exact h
    · rename_i nodes heq
      simp only [Option.some.injEq] at h
      simp only [(parseEntryF_sound fx fuel).2.1 items none none [] _ heq]
      exact h
  | obj map =>
    cases hjc : jGet map "@context" with
    | some cv =>
      simp only [hjc] at h ⊢
      cases hpc : parseContextValue fx cv none with
      | error e =>
        simp only [hpc, Except.map] at h ⊢
        simp only [Option.some.injEq] at h
        exact h
      | ok bc =>
        simp only [hpc, Except.map] at h ⊢
        split at h
        · exact Option.noConfusion h
        · rename_i e heq
          simp only [Option.some.injEq] at h
          simp only [(parseEntryF_sound fx fuel).1 (.obj map) none (some bc) [] _ heq]
          exact h
        · rename_i nodes heq
          simp only [Option.some.injEq] at h
          simp only [(parseEntryF_sound fx fuel).1 (.obj map) none (some bc) [] _ heq]
          exact h
    | none =>
      simp only [hjc] at h ⊢
      split at h
      · exact Option.noConfusion h
      · rename_i e heq
        simp only [Option.some.injEq] at h
        simp only [(parseEntryF_sound fx fuel).1 (.obj map) none none [] _ heq]
        exact h
      · rename_i nodes heq
        simp only [Option.some.injEq] at h
        simp only [(parseEntryF_sound fx fuel).1 (.obj map) none none [] _ heq]
        exact h
  | null =>
    simp only [Option.some.injEq] at h
    exact h
  | bool b =>
    simp only [Option.some.injEq] at h
    exact h
  | num q =>
    simp only [Option.some.injEq] at h
    exact h
  | str s =>
    simp only [Option.some.injEq] at h
    exact h

/-- C8: every parse operation — the RDF reader, the JSON-LD parser and the
workbook reader — returns its node list strictly sorted by the pair
`(graph, id)`, with each node's type set and property map sorted by key; the
output ordering is therefore a deterministic function of the parsed node set,
as required by the round-trip tests. -/
theorem parser_outputs_sorted (fx : ExternalFns) :
    (∀ (quads : List Quad) (out : List Node),
      readRdfQuads fx quads = .ok out → SortedNodeList out) ∧
    (∀ (doc : Json) (out : List Node),
      parseJsonldDocument fx doc = .ok out → SortedNodeList out) ∧
    (∀ (wb : WorkbookData) (out : List Node),
      readNodes fx wb = .ok out → SortedNodeList out) :=
  ⟨fun quads out h => readRdfQuads_sorted fx quads out h,
   fun doc out h => parseJsonldDocument_sorted fx doc out h,
   fun wb out h => readNodes_sorted fx wb out h⟩

/-- Witness for C8: concrete parses through all three codecs, each fed its
input in unsorted order, yield `(graph, id)`-sorted node lists. -/
theorem parser_outputs_sorted_witness :
    SortedNodeList [⟨"a", none, ["T"], []⟩, ⟨"b", none, [], [("q", .scalar (.string "v"))]⟩] ∧
    SortedNodeList [⟨"a", none, [], []⟩, ⟨"b", none, [], []⟩] ∧
    SortedNodeList [⟨"a", none, ["T"], []⟩, ⟨"b", none, [], []⟩] :=
  ⟨(parser_outputs_sorted fxTest).1
      [⟨.namedNode "b", "q", .literal (.simple "v"), .defaultGraph⟩,
       ⟨.namedNode "a", "http://www.w3.org/1999/02/22-rdf-syntax-ns#type",
         .namedNode "T", .defaultGraph⟩] _ (by decide),
   (parser_outputs_sorted fxTest).2.1
      (.arr [.obj [("@id", .str "b")], .obj [("@id", .str "a")]]) _
      (parseJsonldDocumentF_sound fxTest 9
        (.arr [.obj [("@id", .str "b")], .obj [("@id", .str "a")]]) _ rfl),
   (parser_outputs_sorted fxTest).2.2
      ⟨[⟨"Metadata", ["kind", "sheet", "type", "predicate"], []⟩,
        ⟨"Entities", ["id", "type"], [["b", ""], ["a", "T"]]⟩]⟩ _ (by decide)⟩

theorem expandTerm_none (fx : ExternalFns) (term : String) :
    expandTerm fx none term = term := by
  rw [expandTerm]
  split <;> rfl

theorem nodePropsFold_pair (fx : ExternalFns) (p : String) (w v : Json) (pv : PropertyValue)
    (hp : p ≠ "@id" ∧ p ≠ "@type" ∧ p ≠ "@context" ∧ p ≠ "@graph")
    (hv : parsePropertyValue fx v none false = .ok pv) :
    ∀ node : Node, nodePropsFold fx none (sortFieldsByKey [("@id", w), (p, v)]) node =
      .ok (node.insertProperty p pv) := by
  intro node
  have hs : sortFieldsByKey [("@id", w), (p, v)] =
      if strLtB p "@id" = true then [(p, v), ("@id", w)] else [("@id", w), (p, v)] := by
    simp [sortFieldsByKey, stableSort, insertSorted, strCmp]
  rw [hs]
  by_cases hlt : strLtB p "@id" = true
  · rw [if_pos hlt]
    simp [nodePropsFold, hv, expandTerm_none, hp.1, hp.2.1, hp.2.2.1, hp.2.2.2]
  · rw [if_neg hlt]
    simp [nodePropsFold, hv, expandTerm_none, hp.1, hp.2.1, hp.2.2.1, hp.2.2.2]

theorem parseEntry_pair_eval (fx : ExternalFns) (id p : String) (v : Json) (pv : PropertyValue)
    (nodes res : List (NodeKey × Node)) (hid : id ≠ "")
    (hp : p ≠ "@id" ∧ p ≠ "@type" ∧ p ≠ "@context" ∧ p ≠ "@graph")
    (hv : parsePropertyValue fx v none false = .ok pv)
    (h : parseEntry fx (.obj [("@id", .str id), (p, v)]) none none nodes = .ok res) :
    res = mapInsert nodeKeyCmp (none, id)
      ((((mapGet ((none : Option String), id) nodes).getD (Node.withGraph id none)).setGraph
        none).insertProperty p pv) nodes := by
  simp only [parseEntry] at h
  split at h
  · exact Except.noConfusion h
  · rename_i contextToUse hctxv
    split at hctxv
    · rename_i cv hjc
      have hc : jGet [("@id", Json.str id), (p, v)] "@context" = none := by
        simp [jGet, hp.2.2.1]
      rw [hc] at hjc
      exact Option.noConfusion hjc
    · injection hctxv with h3
      subst h3
      split at h
      · rename_i graphValue hjg
        have hg : jGet [("@id", Json.str id), (p, v)] "@graph" = none := by
          simp [jGet, hp.2.2.2]
        rw [hg] at hjg
        exact Option.noConfusion hjg
      · simp only [parseNodeObject] at h
        split at h
        · exact Except.noConfusion h
        · rename_i node1 htype
          split at htype
          · rename_i types hjt
            have ht : jGet [("@id", Json.str id), (p, v)] "@type" = none := by
              simp [jGet, hp.2.1]
            rw [ht] at hjt
            exact Option.noConfusion hjt
          · injection htype with h4
            subst h4
            rw [nodePropsFold_pair fx p (Json.str id) v pv hp hv] at h
            injection h with h5
            rw [← h5]
            simp [jGet, Json.asStr, hid]

/-- C9: two node objects with the same `@id` in the same (default) graph that
both define the same predicate resolve by last-write-wins: the parsed node
holds exactly the later object's value for the predicate — never an array of
both, unlike the RDF codec's cardinality merging (`insert_property` is a
plain `BTreeMap::insert`, and the second `parse_node_object` re-fetches the
node stored under the same `(graph, id)` key). -/
theorem jsonld_last_write_wins (fx : ExternalFns) (id p : String) (v1 v2 : Json)
    (pv1 pv2 : PropertyValue) (out : List Node)
    (hid : id ≠ "")
    (hp : p ≠ "@id" ∧ p ≠ "@type" ∧ p ≠ "@context" ∧ p ≠ "@graph")
    (hv1 : parsePropertyValue fx v1 none false = .ok pv1)
    (hv2 : parsePropertyValue fx v2 none false = .ok pv2)
    (h : parseJsonldDocument fx
      (.arr [.obj [("@id", .str id), (p, v1)], .obj [("@id", .str id), (p, v2)]]) = .ok out) :
    out = [⟨id, none, [], [(p, pv2)]⟩] := by
  simp only [parseJsonldDocument] at h
  split at h
  · exact Except.noConfusion h
  · rename_i nodes hinner
    injection h with h2
    subst h2
    simp only [parseEntryList] at hinner
    split at hinner
    · exact Except.noConfusion hinner
    · rename_i nodes1 h1
      split at hinner
      · exact Except.noConfusion hinner
      · rename_i nodes2 h2e
        injection hinner with h3
        subst h3
        have e1 := parseEntry_pair_eval fx id p v1 pv1 [] nodes1 hid hp hv1 h1
        have e1s : nodes1 = [((none, id), ⟨id, none, [], [(p, pv1)]⟩)] := by
          rw [e1]
          simp [mapGet, mapInsert, Node.withGraph, Node.setGraph, Node.insertProperty]
        subst e1s
        have e2 := parseEntry_pair_eval fx id p v2 pv2 _ nodes2 hid hp hv2 h2e
        rw [e2]
        simp [mapGet, mapInsert, Node.withGraph, Node.setGraph, Node.insertProperty,
          strCmp, strLtB, listLtB_irrefl, nodeKeyCmp, graphLt]

/-- Witness for C9: `{"@id": "n", "p": "x"}` followed by `{"@id": "n",
"p": true}` parses to the single node holding only the boolean — the later
value. -/
theorem jsonld_last_write_wins_witness :
    [(⟨"n", none, [], [("p", .scalar (.boolean true))]⟩ : Node)] =
      [⟨"n", none, [], [("p", .scalar (.boolean true))]⟩] :=
  jsonld_last_write_wins fxTest "n" "p" (.str "x") (.bool true)
    (.objectRef "x") (.scalar (.boolean true))
    [⟨"n", none, [], [("p", .scalar (.boolean true))]⟩]
    (by decide) (by decide)
    (parsePropertyValueF_sound fxTest 1 (.str "x") none false _ rfl)
    (parsePropertyValueF_sound fxTest 1 (.bool true) none false _ rfl)
    (parseJsonldDocumentF_sound fxTest 9
      (.arr [.obj [("@id", .str "n"), ("p", .str "x")],
        .obj [("@id", .str "n"), ("p", .bool true)]]) _ rfl)

end Aideon



